import Mathlib

/-!
# obs-shader-plugins: audio capture and spectrum pipeline

A shallow embedding of the audio path of `src/fft.c`, `src/fft.h` and
`src/obs-shader-filter.c`, followed by the properties proved about it.

Conventions of the embedding

* A C string is the list of its bytes before the terminating NUL (`CString`).
* A pointer into an array is a total map from offsets to values; reading `n`
  values through a pointer `p` gives `(List.range n).map p`.
* `size_t`, `uint32_t` and `int` values are `Nat`/`Int`; the places where C
  wraps are written with an explicit `%`.
* A `for (i = 0; i < n; i++)` loop is a recursion on `n` that runs the body at
  `0, 1, .., n - 1` in that order.
-/

namespace ShaderFilter

/-! ## Definitions: `src/fft.h`, `src/fft.c` -/

/-- Bytes of a C string, the terminating NUL left out. -/
abbrev CString := List Nat

/-- Bytes of an ASCII string literal. -/
def cstr (s : String) : CString := s.toList.map Char.toNat

/-- C library `strcmp`: the difference of the first pair of bytes that differ,
the end of a string counting as the byte 0. -/
def strcmp : CString → CString → Int
  | [], [] => 0
  | [], b :: _ => 0 - (b : Int)
  | a :: _, [] => (a : Int) - 0
  | a :: as, b :: bs => if a = b then strcmp as bs else (a : Int) - (b : Int)

/-- The type `enum fft_windowing_type` of fft.h: a C enum is an int. -/
abbrev fft_windowing_type := Int

def fft_windowing_type.none : fft_windowing_type := -1
def fft_windowing_type.rectangular : fft_windowing_type := -1
def fft_windowing_type.bartlett : fft_windowing_type := 0
def fft_windowing_type.blackmann : fft_windowing_type := 1
def fft_windowing_type.blackmann_exact : fft_windowing_type := 2
def fft_windowing_type.blackmann_harris : fft_windowing_type := 3
def fft_windowing_type.blackmann_nuttall : fft_windowing_type := 4
def fft_windowing_type.flat_top : fft_windowing_type := 5
def fft_windowing_type.hann : fft_windowing_type := 6
def fft_windowing_type.nuttall : fft_windowing_type := 7
def fft_windowing_type.sine : fft_windowing_type := 8
def fft_windowing_type.triangular : fft_windowing_type := 9
def fft_windowing_type.welch : fft_windowing_type := 10
def fft_windowing_type.end_fft_enum : fft_windowing_type := 11

/-- The table `fft_window_strings` of fft.c. -/
def fft_window_strings : List CString :=
  [cstr "bartlett",
   cstr "blackmann",
   cstr "blackmann_exact",
   cstr "blackmann_harris",
   cstr "blackmann_nuttall",
   cstr "flat_top",
   cstr "hann",
   cstr "nuttall",
   cstr "sine",
   cstr "triangular",
   cstr "welch"]

/-- The loop of `get_window_type`: `for (; low_bound <= high_bound;)`. -/
def get_window_type_loop (window : CString) (low_bound high_bound : Int) :
    fft_windowing_type :=
  if low_bound ≤ high_bound then
    let i := low_bound + ((high_bound - low_bound) / 2)
    let c := strcmp window (fft_window_strings.getD i.toNat [])
    if c = 0 then
      i
    else if c > 0 then
      get_window_type_loop window (i + 1) high_bound
    else
      get_window_type_loop window low_bound (i - 1)
  else
    fft_windowing_type.none
termination_by (high_bound - low_bound + 1).toNat
decreasing_by
  all_goals simp_wf
  all_goals omega

/-- The function `get_window_type` of fft.c; `window = none` is the null pointer. -/
def get_window_type (window : Option CString) : fft_windowing_type :=
  match window with
  | some w => get_window_type_loop w 0 (fft_windowing_type.end_fft_enum - 1)
  | none => fft_windowing_type.none

/-- Linear scan of a name table from index `i` on: the index of the first
entry equal to `s`, and `none` (-1) when there is no such entry. -/
def linear_scan (s : CString) : List CString → Int → fft_windowing_type
  | [], _ => fft_windowing_type.none
  | t :: ts, i => if t = s then i else linear_scan s ts (i + 1)

/-- Linear-scan resolution of a window name, the reference the binary search
is compared with: null resolves to `none`. -/
def linear_window_type (window : Option CString) : fft_windowing_type :=
  match window with
  | some w => linear_scan w fft_window_strings 0
  | none => fft_windowing_type.none

/-! ### `window_function`

Real arithmetic: samples and coefficients live in an ordered field `K`, and
the cast `(float)d` is the identity. The libm cosine `cos` and the value
`M_PI_D` of the macro of fft.c (the decimal expansion of π) are parameters, so
every result holds for the real cosine and π and the definitions stay
executable over `ℚ`. `fabs` is the absolute value and `pow (x, 2)` is `x ^ 2`.
-/

section window

variable {K : Type} [LinearOrderedField K]

/-- The loop `for (n = 0; n < N; n++) { d = ..; data[n] *= (float)d; }`, the
coefficient `d` given as a function of `n`. -/
def window_loop (d : Nat → K) : Nat → (Nat → K) → (Nat → K)
  | 0, data => data
  | n + 1, data =>
    Function.update (window_loop d n data) n (window_loop d n data n * d n)

/-- The value of `N2 = N - 1`: an `int` stored in a 64-bit `size_t`. -/
def window_N2 (N : Int) : Nat := ((N - 1) % 2 ^ 64).toNat

/-- Coefficient of the `triangular` case. -/
def triangular_d (N : Int) (n : Nat) : K :=
  1 - |((n : K) - (window_N2 N : K) / 2) / ((N : K) / 2)|

/-- Coefficient of the `bartlett` case. -/
def bartlett_d (N : Int) (n : Nat) : K :=
  1 - |((n : K) - (window_N2 N : K) / 2) / ((window_N2 N : K) / 2)|

/-- Coefficient of the `welch` case. -/
def welch_d (N : Int) (n : Nat) : K :=
  1 - (((n : K) - (window_N2 N : K) / 2) / ((window_N2 N : K) / 2)) ^ 2

/-- Coefficient of the `hann` case, `a0 = 0.5` and `a1 = 0.5`. -/
def hann_d (cos : K → K) (M_PI_D : K) (N : Int) (n : Nat) : K :=
  (1 / 2 : K) - (1 / 2 : K) * cos ((2 * M_PI_D * (n : K)) / (window_N2 N : K))

/-- Coefficient of the label `cossum2`. -/
def cossum2_d (cos : K → K) (M_PI_D : K) (a0 a1 a2 : K) (N : Int) (n : Nat) : K :=
  a0 - a1 * cos ((2 * M_PI_D * (n : K)) / (window_N2 N : K)) +
    a2 * cos ((4 * M_PI_D * (n : K)) / (window_N2 N : K))

/-- Coefficient of the label `cossum3`. -/
def cossum3_d (cos : K → K) (M_PI_D : K) (a0 a1 a2 a3 : K) (N : Int) (n : Nat) : K :=
  a0 - a1 * cos ((2 * M_PI_D * (n : K)) / (window_N2 N : K)) +
    a2 * cos ((4 * M_PI_D * (n : K)) / (window_N2 N : K)) -
    a3 * cos ((6 * M_PI_D * (n : K)) / (window_N2 N : K))

/-- Coefficient of the label `cossum4`. -/
def cossum4_d (cos : K → K) (M_PI_D : K) (a0 a1 a2 a3 a4 : K) (N : Int) (n : Nat) : K :=
  a0 - a1 * cos ((2 * M_PI_D * (n : K)) / (window_N2 N : K)) +
    a2 * cos ((4 * M_PI_D * (n : K)) / (window_N2 N : K)) -
    a3 * cos ((6 * M_PI_D * (n : K)) / (window_N2 N : K)) +
    a4 * cos ((8 * M_PI_D * (n : K)) / (window_N2 N : K))

/-- The function `window_function` of fft.c. The `welch` case has no `break`
and runs on into the `hann` case; a `type` with no case (`none`, `sine`, any
other int) returns at `default`. -/
def window_function (cos : K → K) (M_PI_D : K) (data : Nat → K) (N : Int)
    (type : fft_windowing_type) : Nat → K :=
  if type = fft_windowing_type.triangular then
    window_loop (triangular_d N) N.toNat data
  else if type = fft_windowing_type.bartlett then
    window_loop (bartlett_d N) N.toNat data
  else if type = fft_windowing_type.welch then
    window_loop (hann_d cos M_PI_D N) N.toNat (window_loop (welch_d N) N.toNat data)
  else if type = fft_windowing_type.hann then
    window_loop (hann_d cos M_PI_D N) N.toNat data
  else if type = fft_windowing_type.blackmann then
    window_loop (cossum2_d cos M_PI_D ((1 - 16 / 100) / 2) (1 / 2) ((16 / 100) / 2) N)
      N.toNat data
  else if type = fft_windowing_type.blackmann_exact then
    window_loop (cossum2_d cos M_PI_D (7938 / 18608) (9240 / 18608) (1430 / 18608) N)
      N.toNat data
  else if type = fft_windowing_type.nuttall then
    window_loop
      (cossum3_d cos M_PI_D (355768 / 1000000) (487396 / 1000000) (144232 / 1000000)
        (12604 / 1000000) N)
      N.toNat data
  else if type = fft_windowing_type.blackmann_nuttall then
    window_loop
      (cossum3_d cos M_PI_D (3635819 / 10000000) (4891775 / 10000000) (1365995 / 10000000)
        (106411 / 10000000) N)
      N.toNat data
  else if type = fft_windowing_type.blackmann_harris then
    window_loop
      (cossum3_d cos M_PI_D (35875 / 100000) (48829 / 100000) (14128 / 100000)
        (1168 / 100000) N)
      N.toNat data
  else if type = fft_windowing_type.flat_top then
    window_loop
      (cossum4_d cos M_PI_D 1 (193 / 100) (129 / 100) (388 / 1000) (28 / 1000) N)
      N.toNat data
  else
    data

end window

/-! ## Definitions: the sidechain ring buffers of `src/obs-shader-filter.c`

Audio is planar 32-bit float. A buffer of floats is modelled one entry per
sample slot, over a sample type `α` whose `0` is the float written by
`memset (.., 0, ..)`; C sizes stay in bytes, `sizeof_float` bytes per slot.
Every transfer of this file moves a whole number of floats.
-/

/-- The value of `sizeof(float)`. -/
def sizeof_float : Nat := 4

/-- The `struct circlebuf` of libobs `util/circlebuf.h`: the queued data from
`start_pos` to `end_pos`, head first, one entry per float. -/
structure circlebuf (α : Type) where
  slots : List α
deriving DecidableEq, Repr

/-- The field `size` of a circlebuf: the number of queued bytes. -/
def circlebuf.size {α : Type} (cb : circlebuf α) : Nat := cb.slots.length * sizeof_float

section ring

variable {α : Type} [Zero α]

/-- libobs `circlebuf_push_back (cb, data, size)`: append the `size` bytes at
`data` to the tail. -/
def circlebuf_push_back (cb : circlebuf α) (data : Nat → α) (size : Nat) : circlebuf α :=
  ⟨cb.slots ++ (List.range (size / sizeof_float)).map data⟩

/-- libobs `circlebuf_push_back_zero (cb, size)`: append `size` zero bytes to
the tail. -/
def circlebuf_push_back_zero (cb : circlebuf α) (size : Nat) : circlebuf α :=
  ⟨cb.slots ++ List.replicate (size / sizeof_float) 0⟩

/-- libobs `circlebuf_peek_front (cb, &data[off], size)`: copy the first `size`
bytes of the queue to `data` from slot `off` on, the queue unchanged. The
library asserts `size <= cb->size`. -/
def circlebuf_peek_front (cb : circlebuf α) (data : Nat → α) (off size : Nat) : Nat → α :=
  fun j =>
    if off ≤ j ∧ j < off + size / sizeof_float then cb.slots.getD (j - off) 0 else data j

/-- libobs `circlebuf_pop_front (cb, NULL, size)`: drop the first `size` bytes
of the queue. The library asserts `size <= cb->size`. -/
def circlebuf_pop_front (cb : circlebuf α) (size : Nat) : circlebuf α :=
  ⟨cb.slots.drop (size / sizeof_float)⟩

/-- C library `memset (&data[off], 0, size)` on an array of floats. -/
def memset_zero (data : Nat → α) (off size : Nat) : Nat → α :=
  fun j => if off ≤ j ∧ j < off + size / sizeof_float then 0 else data j

/-- A loop `for (i = 0; i < n; i++) body (i)` over a state `σ`. -/
def for_loop {σ : Type} (body : Nat → σ → σ) : Nat → σ → σ
  | 0, s => s
  | n + 1, s => body n (for_loop body n s)

/-- The argument `struct audio_data` of a capture event: `data[i]` points to
the plane of channel `i`, `frames` floats long. -/
structure audio_data (α : Type) where
  data : Nat → Nat → α
  frames : Nat

/-- The fields of `struct effect_param_data` the audio code uses.
`media_source = none` is the null pointer; `sidechain_data` is the array of
`MAX_AUDIO_CHANNELS` circlebufs; `sidechain_buf` is the snapshot array. The
spectrum settings `is_fft`, `is_psd`, `fft_bins`, `fft_samples` and `window`
are zero until `get_graphics_parameters` sets them. -/
structure effect_param_data (α : Type) where
  media_source : Option Nat
  max_sidechain_frames : Nat
  max_sidechain_buf_frames : Nat
  sidechain_data : Nat → circlebuf α
  sidechain_buf : Nat → α
  num_channels : Nat
  is_fft : Bool := false
  is_psd : Bool := false
  fft_bins : Nat := 0
  fft_samples : Nat := 0
  window : fft_windowing_type := 0

/-- The function `resize_audio_buffers`: `brealloc` keeps the contents of the
snapshot array, only the recorded capacity changes. -/
def resize_audio_buffers (param : effect_param_data α) (samples : Nat) :
    effect_param_data α :=
  if param.max_sidechain_buf_frames < samples then
    { param with max_sidechain_buf_frames := samples }
  else
    param

/-- First step of `sidechain_capture`: raise `max_sidechain_frames` to the
frame count of the event and grow the snapshot array. -/
def sidechain_capture_grow (param : effect_param_data α) (audio : audio_data α) :
    effect_param_data α :=
  if param.max_sidechain_frames < audio.frames then
    resize_audio_buffers { param with max_sidechain_frames := audio.frames } audio.frames
  else
    param

/-- The trim test of `sidechain_capture`:
`param->sidechain_data[0].size > expected_size * 2`. -/
def sidechain_trim_fires (param : effect_param_data α) : Prop :=
  (param.sidechain_data 0).size > param.max_sidechain_frames * sizeof_float * 2

instance (param : effect_param_data α) : Decidable (sidechain_trim_fires param) := by
  unfold sidechain_trim_fires; infer_instance

/-- Second step of `sidechain_capture`, the trim: when channel 0 holds more
than `expected_size * 2` bytes, pop `expected_size` bytes from every channel. -/
def sidechain_capture_trim (param : effect_param_data α) : effect_param_data α :=
  let expected_size := param.max_sidechain_frames * sizeof_float
  if sidechain_trim_fires param then
    { param with
      sidechain_data :=
        for_loop
          (fun i d => Function.update d i (circlebuf_pop_front (d i) expected_size))
          param.num_channels param.sidechain_data }
  else
    param

/-- Third step of `sidechain_capture`: push the event to every channel, zeros
when muted. -/
def sidechain_capture_push (param : effect_param_data α) (audio : audio_data α)
    (muted : Bool) : effect_param_data α :=
  if muted then
    { param with
      sidechain_data :=
        for_loop
          (fun i d =>
            Function.update d i (circlebuf_push_back_zero (d i) (audio.frames * sizeof_float)))
          param.num_channels param.sidechain_data }
  else
    { param with
      sidechain_data :=
        for_loop
          (fun i d =>
            Function.update d i
              (circlebuf_push_back (d i) (audio.data i) (audio.frames * sizeof_float)))
          param.num_channels param.sidechain_data }

/-- The callback `sidechain_capture` (the body under `sidechain_mutex`). -/
def sidechain_capture (param : effect_param_data α) (audio : audio_data α) (muted : Bool) :
    effect_param_data α :=
  let param := sidechain_capture_grow param audio
  let expected_size := param.max_sidechain_frames * sizeof_float
  if expected_size = 0 then
    param
  else
    sidechain_capture_push (sidechain_capture_trim param) audio muted

/-- The function `update_sidechain_callback`; `obs_get_source_by_name` is the
parameter `lookup`, a null name is `none`. Subscribing and unsubscribing the
capture callback is the change of `media_source`. -/
def update_sidechain_callback (lookup : CString → Option Nat) (param : effect_param_data α)
    (new_source_name : Option CString) : effect_param_data α :=
  match new_source_name with
  | none => param
  | some name =>
    let sidechain : Option Nat := if name ≠ [] then lookup name else none
    let old_sidechain := param.media_source
    let param :=
      if old_sidechain.isSome then
        { param with
          sidechain_data :=
            for_loop
              (fun i d => Function.update d i (circlebuf_pop_front (d i) (d i).size))
              param.num_channels param.sidechain_data }
      else
        param
    { param with media_source := sidechain }

/-- The function `get_sidechain_data` (peek); it returns nothing, its effect is
on `max_sidechain_frames` and on the snapshot array. -/
def get_sidechain_data (param : effect_param_data α) (num_samples : Nat) :
    effect_param_data α :=
  let data_size := num_samples * sizeof_float
  if data_size = 0 then
    param
  else
    let param :=
      if param.max_sidechain_frames < num_samples then
        { param with max_sidechain_frames := num_samples }
      else
        param
    if (param.sidechain_data 0).size < data_size then
      { param with
        sidechain_buf :=
          for_loop (fun i buf => memset_zero buf (num_samples * i) data_size)
            param.num_channels param.sidechain_buf }
    else
      { param with
        sidechain_buf :=
          for_loop
            (fun i buf =>
              circlebuf_peek_front (param.sidechain_data i) buf (num_samples * i) data_size)
            param.num_channels param.sidechain_buf }

/-- An operation on a binding: a capture event, a peek or a rebind. -/
inductive binding_op (α : Type) where
  | capture (audio : audio_data α) (muted : Bool)
  | peek (num_samples : Nat)
  | rebind (new_source_name : Option CString)

/-- Apply one operation. -/
def apply_op (lookup : CString → Option Nat) (param : effect_param_data α) :
    binding_op α → effect_param_data α
  | .capture audio muted => sidechain_capture param audio muted
  | .peek num_samples => get_sidechain_data param num_samples
  | .rebind name => update_sidechain_callback lookup param name

/-- Apply a sequence of operations, first to last. -/
def run_ops (lookup : CString → Option Nat) (param : effect_param_data α)
    (ops : List (binding_op α)) : effect_param_data α :=
  ops.foldl (apply_op lookup) param

/-- The `n` snapshot samples of channel `i` after a peek of `n` samples: the
slice `sidechain_buf[n * i .. n * i + n)`. -/
def snapshot_slice (param : effect_param_data α) (n i : Nat) : List α :=
  (List.range n).map (fun j => param.sidechain_buf (n * i + j))

/-- A binding with `n` channels, nothing buffered and no entity bound. -/
def empty_binding (n : Nat) : effect_param_data α :=
  { media_source := none
    max_sidechain_frames := 0
    max_sidechain_buf_frames := 0
    sidechain_data := fun _ => ⟨[]⟩
    sidechain_buf := fun _ => 0
    num_channels := n }

/-- A capture event with the same plane `xs` on every channel. -/
def audio_of_list (xs : List α) : audio_data α :=
  { data := fun _ j => xs.getD j 0, frames := xs.length }

/-- Lock-step: the channels `0 .. num_channels - 1` hold the same number of
bytes. -/
def lock_step (param : effect_param_data α) : Prop :=
  ∀ i j, i < param.num_channels → j < param.num_channels →
    (param.sidechain_data i).size = (param.sidechain_data j).size

end ring

/-! ## Definitions: the effective window coefficient and its divisors -/

section window_coefficient

variable {K : Type} [LinearOrderedField K]

/-- A window identifier with no case in the `switch` of `window_function`: it
reaches `default: return;`. -/
def window_has_no_case (type : fft_windowing_type) : Prop :=
  type ≠ fft_windowing_type.triangular ∧ type ≠ fft_windowing_type.bartlett ∧
  type ≠ fft_windowing_type.welch ∧ type ≠ fft_windowing_type.hann ∧
  type ≠ fft_windowing_type.blackmann ∧ type ≠ fft_windowing_type.blackmann_exact ∧
  type ≠ fft_windowing_type.nuttall ∧ type ≠ fft_windowing_type.blackmann_nuttall ∧
  type ≠ fft_windowing_type.blackmann_harris ∧ type ≠ fft_windowing_type.flat_top

instance (type : fft_windowing_type) : Decidable (window_has_no_case type) := by
  unfold window_has_no_case; infer_instance

/-- The divisors of the divisions that a call `window_function (data, N, type)`
evaluates, read off the source: the constant divisors of the coefficient
set-up, and, when the loop body runs at all (`0 < N`), the divisors of one
pass of the body (they do not depend on `n`). In `welch` the pass of `hann`
follows. -/
def window_divisors (N : Int) (type : fft_windowing_type) : List K :=
  let N2 : K := (window_N2 N : K)
  let pass (l : List K) : List K := if 0 < N then l else []
  if type = fft_windowing_type.triangular then pass [2, 2, (N : K) / 2]
  else if type = fft_windowing_type.bartlett then pass [2, 2, N2 / 2]
  else if type = fft_windowing_type.welch then pass [2, 2, N2 / 2] ++ pass [N2]
  else if type = fft_windowing_type.hann then pass [N2]
  else if type = fft_windowing_type.blackmann then [2, 2] ++ pass [N2, N2]
  else if type = fft_windowing_type.blackmann_exact then
    [18608, 18608, 18608] ++ pass [N2, N2]
  else if type = fft_windowing_type.nuttall then pass [N2, N2, N2]
  else if type = fft_windowing_type.blackmann_nuttall then pass [N2, N2, N2]
  else if type = fft_windowing_type.blackmann_harris then pass [N2, N2, N2]
  else if type = fft_windowing_type.flat_top then pass [N2, N2, N2, N2]
  else []

/-- The factor by which a call `window_function (data, N, type)` multiplies
`data[n]` for `n < N`, read off the `switch`: the coefficient `d` of the case,
in `welch` the product of the coefficients of the two loops that run, and 1
for an identifier with no case. -/
def window_coefficient (cos : K → K) (M_PI_D : K) (N : Int) (type : fft_windowing_type)
    (n : Nat) : K :=
  if type = fft_windowing_type.triangular then triangular_d N n
  else if type = fft_windowing_type.bartlett then bartlett_d N n
  else if type = fft_windowing_type.welch then welch_d N n * hann_d cos M_PI_D N n
  else if type = fft_windowing_type.hann then hann_d cos M_PI_D N n
  else if type = fft_windowing_type.blackmann then
    cossum2_d cos M_PI_D ((1 - 16 / 100) / 2) (1 / 2) ((16 / 100) / 2) N n
  else if type = fft_windowing_type.blackmann_exact then
    cossum2_d cos M_PI_D (7938 / 18608) (9240 / 18608) (1430 / 18608) N n
  else if type = fft_windowing_type.nuttall then
    cossum3_d cos M_PI_D (355768 / 1000000) (487396 / 1000000) (144232 / 1000000)
      (12604 / 1000000) N n
  else if type = fft_windowing_type.blackmann_nuttall then
    cossum3_d cos M_PI_D (3635819 / 10000000) (4891775 / 10000000) (1365995 / 10000000)
      (106411 / 10000000) N n
  else if type = fft_windowing_type.blackmann_harris then
    cossum3_d cos M_PI_D (35875 / 100000) (48829 / 100000) (14128 / 100000)
      (1168 / 100000) N n
  else if type = fft_windowing_type.flat_top then
    cossum4_d cos M_PI_D 1 (193 / 100) (129 / 100) (388 / 1000) (28 / 1000) N n
  else 1

end window_coefficient

/-! ## Definitions: the spectrum assembler of `src/obs-shader-filter.c`

Real arithmetic over an ordered field `K`. The transform of libavcodec
(`av_rdft_init (l, DFT_R2C)`, `av_rdft_calc`) is the parameter `rdft`: given
the bit count `l` and the `2 ^ l` floats at the data pointer it returns the
`2 ^ l` floats left in their place. The libm `log10` is a parameter as well.
-/

section spectrum

variable {K : Type} [LinearOrderedField K]

/-- The libobs constant `AUDIO_OUTPUT_FRAMES`. -/
def AUDIO_OUTPUT_FRAMES : Nat := 1024

/-- The function `audio_fft_complex (&buf[off], N)` of fft.c, for `1 ≤ N`:
`l = (int)ceil (log2 (N))`, then the in-place transform of the `2 ^ l` floats
from `off` on. -/
def audio_fft_complex (rdft : Nat → (Nat → K) → (Nat → K)) (buf : Nat → K) (off N : Nat) :
    Nat → K :=
  let l := Nat.clog 2 N
  fun x => if off ≤ x ∧ x < off + 2 ^ l then rdft l (fun t => buf (off + t)) (x - off) else buf x

/-- C library `memcpy (&buf[dst], &buf[src], size)` between two parts of one
array of floats that do not overlap; whole floats only. -/
def memcpy_floats (buf : Nat → K) (dst src size : Nat) : Nat → K :=
  fun x => if dst ≤ x ∧ x < dst + size / sizeof_float then buf (src + (x - dst)) else buf x

/-- First loop of `process_audio`, its first `c` passes: the transform of
channel `i` runs on `&sidechain_buf[i * samples]` with length
`(uint32_t)samples`. With `c = num_channels` this is the whole loop; with a
smaller `c` it is the array as the transform of channel `c` receives it. -/
def process_audio_fft (rdft : Nat → (Nat → K) → (Nat → K)) (buf : Nat → K) (samples c : Nat) :
    Nat → K :=
  for_loop (fun i b => audio_fft_complex rdft b (i * samples) (samples % 2 ^ 32)) c buf

/-- Second loop of `process_audio`, `for (i = 1; i < num_channels; i++)`:
move the first half of every channel next to the one before it. -/
def process_audio_pack (buf : Nat → K) (samples num_channels : Nat) : Nat → K :=
  for_loop
    (fun i b => memcpy_floats b ((i + 1) * (samples / 2)) ((i + 1) * samples) (samples * 2))
    (num_channels - 1) buf

/-- The periodogram step of `process_audio`. -/
def process_audio_psd (log10 : K → K) (M_PI_D : K) (buf : Nat → K)
    (samples num_channels : Nat) (is_psd : Bool) : Nat → K :=
  if is_psd then
    for_loop
      (fun i b =>
        Function.update b i (10 * log10 ((1 / (2 * M_PI_D * (samples : K))) * b i ^ 2)))
      (samples / 2 * num_channels) buf
  else
    buf

/-- The innermost loop of the averaging step: `bin_sum` after the loop over
`k`. -/
def process_audio_bin_sum (buf : Nat → K) (i j h_samples bin_width : Nat) : K :=
  for_loop (fun k bin_sum => bin_sum + buf (k + i * h_samples + j * bin_width)) bin_width 0

/-- The averaging step of `process_audio`: the loops over `i` and `j`. -/
def process_audio_bins (buf : Nat → K) (h_samples fft_bins num_channels : Nat) : Nat → K :=
  let bin_width := h_samples / fft_bins
  for_loop
    (fun i b =>
      for_loop
        (fun j b =>
          Function.update b (i * fft_bins + j)
            (process_audio_bin_sum b i j h_samples bin_width / (bin_width : K)))
        fft_bins b)
    num_channels buf

/-- The array of `process_audio` when the averaging step is reached: the
retained values, after the transforms, the packing and the periodogram. -/
def process_audio_retained (rdft : Nat → (Nat → K) → (Nat → K)) (log10 : K → K) (M_PI_D : K)
    (param : effect_param_data K) (samples : Nat) : Nat → K :=
  process_audio_psd log10 M_PI_D
    (process_audio_pack
      (process_audio_fft rdft param.sidechain_buf samples param.num_channels)
      samples param.num_channels)
    samples param.num_channels param.is_psd

/-- The function `process_audio`: the new state and the returned width, a
`uint32_t`. The result is `none` where the C code faults: in the averaging
branch `bin_width = h_samples / param->fft_bins` is an integer division, by
zero when `fft_bins = 0`. -/
def process_audio (rdft : Nat → (Nat → K) → (Nat → K)) (log10 : K → K) (M_PI_D : K)
    (param : effect_param_data K) (samples : Nat) : Option (effect_param_data K × Nat) :=
  let h_samples := samples / 2
  let buf := process_audio_retained rdft log10 M_PI_D param samples
  if param.fft_bins < h_samples then
    if param.fft_bins = 0 then
      none
    else
      some
        ({ param with
            sidechain_buf :=
              process_audio_bins buf h_samples param.fft_bins param.num_channels },
          param.fft_bins % 2 ^ 32)
  else
    some ({ param with sidechain_buf := buf }, h_samples % 2 ^ 32)

/-- The array `render_audio_texture` passes on to `process_audio` when
`is_fft` is set: `window_function (param->sidechain_buf, samples, param->window)`. -/
def render_audio_window (cos : K → K) (M_PI_D : K) (param : effect_param_data K)
    (samples : Nat) : effect_param_data K :=
  { param with
    sidechain_buf := window_function cos M_PI_D param.sidechain_buf (samples : Int) param.window }

/-- The function `render_audio_texture`: the new state and `px_width`, the
width of the texture made of `sidechain_buf`; `none` where `process_audio`
faults. -/
def render_audio_texture (cos : K → K) (M_PI_D : K) (rdft : Nat → (Nat → K) → (Nat → K))
    (log10 : K → K) (param : effect_param_data K) (samples : Nat) :
    Option (effect_param_data K × Nat) :=
  if param.is_fft then
    process_audio rdft log10 M_PI_D (render_audio_window cos M_PI_D param samples) samples
  else
    some (param, samples)

/-- The `is_audio_source` case of `update_graphics_paramters`, one render
tick of an audio-bound parameter. -/
def update_graphics_paramters_audio (cos : K → K) (M_PI_D : K)
    (rdft : Nat → (Nat → K) → (Nat → K)) (log10 : K → K) (param : effect_param_data K) :
    Option (effect_param_data K × Nat) :=
  let param := resize_audio_buffers param AUDIO_OUTPUT_FRAMES
  let param := get_sidechain_data param param.fft_samples
  render_audio_texture cos M_PI_D rdft log10 param param.fft_samples

/-- The array as the transform of channel `c` receives it in a render tick
with `is_fft` set: after the peek, the window and the transforms of the
channels before `c`. -/
def transform_input (cos : K → K) (M_PI_D : K) (rdft : Nat → (Nat → K) → (Nat → K))
    (param : effect_param_data K) (c : Nat) : Nat → K :=
  process_audio_fft rdft
    (render_audio_window cos M_PI_D
      (get_sidechain_data (resize_audio_buffers param AUDIO_OUTPUT_FRAMES) param.fft_samples)
      param.fft_samples).sidechain_buf
    param.fft_samples c

end spectrum

/-- A binding of two channels that each buffer 64 samples of value 1, set up
for a spectrum of window length 64 with the bartlett window. -/
def two_channels_of_ones : effect_param_data ℚ :=
  { (empty_binding 2 : effect_param_data ℚ) with
    sidechain_data := fun _ => ⟨List.replicate 64 1⟩
    is_fft := true
    fft_samples := 64
    fft_bins := 32
    window := fft_windowing_type.bartlett }

/-- A binding of one channel whose snapshot holds the values 0, 1, 2, .. and
that asks for four bins. -/
def one_channel_ramp : effect_param_data ℚ :=
  { (empty_binding 1 : effect_param_data ℚ) with
    sidechain_buf := fun n => (n : ℚ)
    fft_bins := 4 }

/-! ## Definitions: sequences of operations on a binding -/

/-- Whether an operation is a capture event. -/
def binding_op.is_capture {α : Type} : binding_op α → Bool
  | .capture _ _ => true
  | .peek _ => false
  | .rebind _ => false

/-- The frame count an operation shows to `max_sidechain_frames`: the frames
of a capture event, the window length of a peek. -/
def binding_op.frames {α : Type} : binding_op α → Nat
  | .capture audio _ => audio.frames
  | .peek num_samples => num_samples
  | .rebind _ => 0

/-- The running maximum of the frame counts of a sequence of operations,
started at `m0`. -/
def running_max {α : Type} (m0 : Nat) (ops : List (binding_op α)) : Nat :=
  ops.foldl (fun m op => max m op.frames) m0

/-- A binding of one channel that is subscribed to the entity 7 and buffers
the samples 1, 2. -/
def bound_binding : effect_param_data Int :=
  { (empty_binding 1 : effect_param_data Int) with
    media_source := some 7
    max_sidechain_frames := 2
    max_sidechain_buf_frames := 2
    sidechain_data := fun _ => ⟨[1, 2]⟩ }

/-- A source registry in which the name `mic` resolves to the entity 7 and no
other name resolves. -/
def mic_lookup : CString → Option Nat :=
  fun name => if name = cstr "mic" then some 7 else none

/-- Lock-step together with the bound of three maximal frames on every
channel: what every operation on a binding keeps. -/
def growth_invariant {α : Type} (param : effect_param_data α) : Prop :=
  lock_step param ∧
  ∀ i, (param.sidechain_data i).slots.length ≤ 3 * param.max_sidechain_frames

/-! ## Definitions: the spectrum settings read by `get_graphics_parameters` -/

/-- A value of type `double` as the comparisons of `hlsl_clamp` see it:
`NAN`, or a number of a linear order `K`, in real arithmetic; the two
infinities, where needed, are numbers of `K`. -/
inductive double (K : Type) where
  | NAN : double K
  | num (x : K) : double K

/-- The C comparison `a < b` of two doubles: false when an operand is `NAN`. -/
def double.lt {K : Type} [LinearOrder K] : double K → double K → Bool
  | double.num a, double.num b => decide (a < b)
  | _, _ => false

/-- The C comparison `a > b` of two doubles: false when an operand is `NAN`. -/
def double.gt {K : Type} [LinearOrder K] : double K → double K → Bool
  | double.num a, double.num b => decide (a > b)
  | _, _ => false

/-- The C comparison `a <= b` of two doubles: false when an operand is `NAN`. -/
def double.le {K : Type} [LinearOrder K] : double K → double K → Bool
  | double.num a, double.num b => decide (a ≤ b)
  | _, _ => false

/-- The function `hlsl_clamp` of obs-shader-filter.c. -/
def hlsl_clamp {K : Type} [LinearOrder K] (x min max : double K) : double K :=
  if double.lt x min then min
  else if double.gt x max then max
  else x

/-- The conversion of a `double` to `size_t`: the fraction is dropped; `none`
where C leaves the conversion undefined, for `NAN` and for a value whose
whole part is not a `size_t`. -/
def double_to_size_t : double ℚ → Option Nat
  | double.num q => if -1 < q ∧ q < 2 ^ 64 then some (Int.floor q).toNat else none
  | double.NAN => none

/-- The window length `get_graphics_parameters` stores for the value `v` of
the annotation `fft_samples`, an `int`:
`param->fft_samples = hlsl_clamp (v, 64, 1024)`, the `int` converted to
`double` and the result to `size_t`; 0 stands for an undefined conversion,
which no `v` leads to. -/
def get_graphics_parameters_fft_samples (v : Int) : Nat :=
  (double_to_size_t (hlsl_clamp (double.num (v : ℚ)) (double.num 64) (double.num 1024))).getD 0

/-- The bin count `get_graphics_parameters` stores for the value `v` of the
annotation `fft_bins`: the `int` is converted to `size_t` as it is, with no
clamp. -/
def get_graphics_parameters_fft_bins (v : Int) : Nat :=
  (v % 2 ^ 64).toNat

/-! ## Definitions: `TextureData::insertAudio` (obs-shader-filter.cpp) -/

/-- The constant `MAX_AV_PLANES` of libobs. -/
def MAX_AV_PLANES : Nat := 8

/-- The member `_maxAudioSize` of `TextureData`, `AUDIO_OUTPUT_FRAMES * 2`
floats. -/
def TextureData_maxAudioSize : Nat := AUDIO_OUTPUT_FRAMES * 2

/-- Width of `size_t` in bits. -/
def size_t_bits : Nat := 64

/-- The call `v.resize (n)` of a `std::vector<float>`: the first `n` elements
are kept and new elements are value-initialised to zero. -/
def std_vector_resize {α : Type} [Zero α] (v : List α) (n : Nat) : List α :=
  v.take n ++ List.replicate (n - v.length) 0

/-- C library `memcpy (&v[off], src, size)` into a vector from a block of
`src.length` floats; `none` when the copy leaves the block or the vector. -/
def memcpy_vector {α : Type} [Zero α] (v : List α) (off : Nat) (src : List α) (size : Nat) :
    Option (List α) :=
  let n := size / sizeof_float
  if n ≤ src.length ∧ off + n ≤ v.length then
    some ((List.range v.length).map fun t =>
      if off ≤ t ∧ t < off + n then src.getD (t - off) 0 else v.getD t 0)
  else none

/-- C library `memcpy (&v[0], data, size)` from the plane `data` of a capture
event; `none` when the copy leaves the vector. -/
def memcpy_plane {α : Type} [Zero α] (v : List α) (data : Nat → α) (size : Nat) :
    Option (List α) :=
  let n := size / sizeof_float
  if n ≤ v.length then
    some ((List.range v.length).map fun t => if t < n then data t else v.getD t 0)
  else none

/-- C library `memset (&v[0], 0, size)`; `none` when it leaves the vector. -/
def memset_vector {α : Type} [Zero α] (v : List α) (size : Nat) : Option (List α) :=
  let n := size / sizeof_float
  if n ≤ v.length then
    some ((List.range v.length).map fun t => if t < n then 0 else v.getD t 0)
  else none

/-- The method `TextureData::insertAudio (data, samples, index)` on the array
`_audio` of channel vectors; `data = none` is the null pointer of a muted
event. Sizes are `size_t` byte counts, `oldSize - insertSize` wraps; `none`
is an access outside a block. -/
def TextureData_insertAudio {α : Type} [Zero α] (_audio : Nat → List α) (data : Option (Nat → α))
    (samples index : Nat) : Option (Nat → List α) :=
  if samples = 0 ∨ index > MAX_AV_PLANES - 1 then some _audio
  else
    let oldSize := (_audio index).length * sizeof_float % 2 ^ size_t_bits
    let insertSize := samples * sizeof_float % 2 ^ size_t_bits
    let oldData : Option (List α) := if oldSize ≠ 0 then some (_audio index) else none
    let resized := std_vector_resize (_audio index) TextureData_maxAudioSize
    let stored : Option (List α) :=
      if samples < TextureData_maxAudioSize then
        (match oldData with
          | some old =>
            memcpy_vector resized samples old ((oldSize + 2 ^ size_t_bits - insertSize) % 2 ^ size_t_bits)
          | none => some resized).bind fun v =>
        match data with
        | some d => memcpy_plane v d insertSize
        | none => memset_vector v insertSize
      else
        match data with
        | some d => memcpy_plane resized d (TextureData_maxAudioSize * sizeof_float)
        | none => memset_vector resized (TextureData_maxAudioSize * sizeof_float)
    stored.map fun v => Function.update _audio index v

/-- The copy loop of `TextureData::renderAudioSource (samples)`: the first
`samples` floats of every channel vector go to `_data + samples * i`, zeros
for a vector without storage; `none` when a read leaves a vector. -/
def TextureData_renderAudioSource {α : Type} [Zero α] (_audio : Nat → List α) (_channels : Nat)
    (_data : Nat → α) (samples : Nat) : Option (Nat → α) :=
  for_loop (fun i acc => acc.bind fun d =>
    if (_audio i).length ≠ 0 then
      if samples ≤ (_audio i).length then
        some fun x => if samples * i ≤ x ∧ x < samples * i + samples
          then (_audio i).getD (x - samples * i) 0 else d x
      else none
    else some (memset_zero d (samples * i) (samples * sizeof_float))) _channels (some _data)

/-- The plane of a capture event as `insertAudio` stores it: the floats of
`data`, zeros for the null pointer of a muted event. -/
def inserted_chunk {α : Type} [Zero α] (data : Option (Nat → α)) (t : Nat) : α :=
  match data with
  | some d => d t
  | none => 0

/-! ## Definitions: the variable list of an expression (obs-shader-filter.hpp, .cpp) -/

/-- The struct `te_variable` of tinyexpr, the fields in use here: the name
and the address of the bound value. -/
structure te_variable where
  name : CString
  address : Nat

/-- The comparator `orderVars` of `appendVariable`, `hasVariable` and
`reload`: `strcmp (a.name, b.name) < 0`. -/
def orderVars (a b : te_variable) : Bool := decide (strcmp a.name b.name < 0)

/-- The loop of `std::lower_bound` on the range `[first, first + count)` of
`l`, at most `steps` passes: the index of the first element `x` with
`comp (x, val)` false. -/
def std_lower_bound {β : Type} (comp : β → β → Bool) (l : List β) (val : β) :
    Nat → Nat → Nat → Nat
  | 0, first, _ => first
  | steps + 1, first, count =>
    if 0 < count then
      let step := count / 2
      let it := first + step
      match l[it]? with
      | some x =>
        if comp x val then std_lower_bound comp l val steps (it + 1) (count - (step + 1))
        else std_lower_bound comp l val steps first step
      | none => first
    else first

/-- The algorithm `std::binary_search (begin, end, val, comp)`: the lower
bound is not the end and `comp (val, *first)` is false. A range of `count`
elements is halved at most `count` times. -/
def std_binary_search {β : Type} (comp : β → β → Bool) (l : List β) (val : β) : Bool :=
  let first := std_lower_bound comp l val l.length 0 l.length
  match l[first]? with
  | some x => !comp val x
  | none => false

/-- The algorithm `std::stable_sort (begin, end, comp)`: the one arrangement
of `l` in which no element is before one that `comp` puts ahead of it and
equivalent elements keep their order; computed by insertion from the right. -/
def std_stable_sort {β : Type} (comp : β → β → Bool) (l : List β) : List β :=
  l.insertionSort fun a b => comp b a = false

/-- The method `TinyExpr::hasVariable (search)`; the zero-initialised
`searchVar` gets the name `search`. -/
def TinyExpr_hasVariable (expression : List te_variable) (search : CString) : Bool :=
  if expression.length = 0 then false
  else std_binary_search orderVars expression { name := search, address := 0 }

/-- The method `ShaderSource::appendVariable (var)`: the new value of the
list `expression`. -/
def ShaderSource_appendVariable (expression : List te_variable) (var : te_variable) :
    List te_variable :=
  if ¬ TinyExpr_hasVariable expression var.name = true then
    std_stable_sort orderVars (expression ++ [var])
  else expression

/-! ## Definitions: the expression function `ncr` (obs-shader-filter.cpp) -/

/-- The constant `UINT_MAX`; `unsigned int` has 32 bits. -/
def UINT_MAX : Nat := 2 ^ 32 - 1

/-- The constant `ULONG_MAX` where `unsigned long` has `w` bits. -/
def ULONG_MAX (w : Nat) : Nat := 2 ^ w - 1

/-- The values of type `double` that `ncr` returns: `NAN`, `INFINITY` and
the finite doubles whose value is a natural number. -/
inductive c_double where
  | NAN : c_double
  | INFINITY : c_double
  | finite (value : Nat) : c_double

/-- Number of binary digits of `x`, for `x < 2 ^ w`. -/
def bit_width : Nat → Nat → Nat
  | 0, _ => 0
  | w + 1, x => if x = 0 then 0 else bit_width w (x / 2) + 1

/-- The conversion of an `unsigned long` of `w` bits to `double`: the
nearest value with a significand of 53 binary digits, a tie going to the
even significand. -/
def ulong_to_double (w x : Nat) : Nat :=
  let e := bit_width w x - 53
  let q := x / 2 ^ e
  let rem := x % 2 ^ e
  if 2 * rem > 2 ^ e ∨ (2 * rem = 2 ^ e ∧ q % 2 = 1) then (q + 1) * 2 ^ e else q * 2 ^ e

/-- One pass of the loop of `ncr`, with `i = k + 1`, on the accumulator
`result`; `none` is the early `return INFINITY`. The arithmetic is that of
`unsigned long`, modulo `2 ^ w`. -/
def ncr_body (w un ur : Nat) (k : Nat) (acc : Option Nat) : Option Nat :=
  acc.bind fun result =>
    let i := (k + 1) % 2 ^ w
    let factor := ((un + 2 ^ w - ur) % 2 ^ w + i) % 2 ^ w
    if result > ULONG_MAX w / factor then none
    else some (result * factor % 2 ^ w / i)

/-- The loop `for (i = 1; i <= ur; i++)` of `ncr`, its first `c` passes,
from `result = 1`. -/
def ncr_loop (w un ur c : Nat) : Option Nat :=
  for_loop (ncr_body w un ur) c (some 1)

/-- The function `ncr (n, r)` for arguments whose value is an integer, where
`unsigned long` has `w` bits. -/
def ncr (w : Nat) (n r : Int) : c_double :=
  if n < 0 ∨ r < 0 ∨ n < r then c_double.NAN
  else if n > UINT_MAX ∨ r > UINT_MAX then c_double.INFINITY
  else
    let un := n.toNat % 2 ^ 32 % 2 ^ w
    let ur := r.toNat % 2 ^ 32 % 2 ^ w
    let ur := if ur > un / 2 then (un + 2 ^ w - ur) % 2 ^ w else ur
    match ncr_loop w un ur ur with
    | none => c_double.INFINITY
    | some result => c_double.finite (ulong_to_double w result)

/-! ## Definitions: the critical sections of `TextureData` (obs-shader-filter.cpp) -/

/-- The state of a `TextureData` that its audio path touches: the channel
vectors `_audio`, the channel count and the array `_data` that is rendered. -/
structure TextureData (α : Type) where
  _audio : Nat → List α
  _channels : Nat
  _data : Nat → α

/-- A critical section of `TextureData`, run between `audiolock ()` and
`audiounlock ()`: the body of one call of `insertAudio`, or the copy loop of
`renderAudioSource`. -/
inductive audio_section (α : Type) where
  | insertAudio (data : Option (Nat → α)) (samples index : Nat) : audio_section α
  | renderAudioSource (samples : Nat) : audio_section α

/-- One critical section on the state; `none` when it faults. -/
def TextureData.run_section {α : Type} [Zero α] (s : TextureData α) :
    audio_section α → Option (TextureData α)
  | .insertAudio data samples index =>
    (TextureData_insertAudio s._audio data samples index).map fun a => { s with _audio := a }
  | .renderAudioSource samples =>
    (TextureData_renderAudioSource s._audio s._channels s._data samples).map fun d =>
      { s with _data := d }

/-- Critical sections run one after the other, in the order in which the
threads got the mutex. -/
def TextureData.run_sections {α : Type} [Zero α] (s : TextureData α) :
    List (audio_section α) → Option (TextureData α)
  | [] => some s
  | c :: cs => (s.run_section c).bind fun s1 => s1.run_sections cs

/-- The capture callback `sidechain_capture` of obs-shader-filter.cpp as the
critical sections it runs: one call of `insertAudio` for every channel, each
taking and releasing the mutex on its own. -/
def TextureData_sidechain_capture {α : Type} (_channels : Nat) (audio : audio_data α)
    (muted : Bool) : List (audio_section α) :=
  if audio.frames = 0 then []
  else (List.range _channels).map fun i =>
    audio_section.insertAudio (if muted then none else some (audio.data i)) audio.frames i

/-- The orders in which two threads that run the critical sections `xs` and
`ys` can get the mutex: every merge of the two lists. -/
def interleavings {β : Type} : List β → List β → List (List β)
  | [], ys => [ys]
  | x :: xs, ys =>
    (List.range (ys.length + 1)).flatMap fun k =>
      (interleavings xs (ys.drop k)).map fun rest => ys.take k ++ x :: rest

/-- A `TextureData` of two channels whose vectors are full of zeros. -/
def two_full_channels : TextureData Int :=
  { _audio := fun _ => List.replicate TextureData_maxAudioSize 0
    _channels := 2
    _data := fun _ => 0 }

/-- A capture event of one frame, the sample 1 on every channel. -/
def one_frame_of_ones : audio_data Int :=
  { data := fun _ _ => 1
    frames := 1 }

/-! ## Window name lookup -/

theorem strcmp_self (a : CString) : strcmp a a = 0 := by
  induction a with
  | nil => simp [strcmp]
  | cons x xs ih => simp [strcmp, ih]

theorem eq_of_strcmp_eq_zero :
    ∀ (a b : CString), (0 : Nat) ∉ a → (0 : Nat) ∉ b → strcmp a b = 0 → a = b
  | [], [], _, _, _ => rfl
  | [], b :: bs, _, hb, h => by
    simp only [strcmp] at h
    have : b ≠ 0 := fun hb0 => hb (by simp [hb0])
    omega
  | a :: as, [], ha, _, h => by
    simp only [strcmp] at h
    have : a ≠ 0 := fun ha0 => ha (by simp [ha0])
    omega
  | a :: as, b :: bs, ha, hb, h => by
    simp only [strcmp] at h
    by_cases hab : a = b
    · rw [if_pos hab] at h
      have has : (0 : Nat) ∉ as := fun hm => ha (List.mem_cons_of_mem _ hm)
      have hbs : (0 : Nat) ∉ bs := fun hm => hb (List.mem_cons_of_mem _ hm)
      rw [hab, eq_of_strcmp_eq_zero as bs has hbs h]
    · rw [if_neg hab] at h
      omega

/-- The table is strictly ascending under `strcmp`, read in both directions. -/
theorem fft_window_strings_sorted :
    ∀ i : Nat, i < 11 → ∀ j : Nat, j < 11 → i < j →
      strcmp (fft_window_strings.getD i []) (fft_window_strings.getD j []) < 0 ∧
      strcmp (fft_window_strings.getD j []) (fft_window_strings.getD i []) > 0 := by
  decide

theorem fft_window_strings_no_nul :
    ∀ i : Nat, i < 11 → (0 : Nat) ∉ fft_window_strings.getD i [] := by
  decide

theorem linear_scan_of_not_mem (s : CString) :
    ∀ (l : List CString) (i : Int), s ∉ l → linear_scan s l i = fft_windowing_type.none
  | [], _, _ => rfl
  | t :: ts, i, h => by
    have ht : t ≠ s := fun e => h (by simp [e])
    have hts : s ∉ ts := fun hm => h (List.mem_cons_of_mem _ hm)
    simp [linear_scan, ht, linear_scan_of_not_mem s ts (i + 1) hts]

theorem linear_scan_of_getD (s : CString) :
    ∀ (l : List CString) (i : Int) (j : Nat), l.Nodup → j < l.length → l.getD j [] = s →
      linear_scan s l i = i + j
  | [], _, _, _, hj, _ => by simp at hj
  | t :: ts, i, 0, _, _, h => by
    simp at h
    simp [linear_scan, h]
  | t :: ts, i, j + 1, hnd, hj, h => by
    have hnd2 := List.nodup_cons.mp hnd
    have hj2 : j < ts.length := by simpa using hj
    have h2 : ts.getD j [] = s := by simpa using h
    have hmem : s ∈ ts := by
      rw [← h2, List.getD_eq_getElem _ _ hj2]
      exact List.getElem_mem _
    have ht : t ≠ s := fun e => hnd2.1 (e ▸ hmem)
    simp only [linear_scan, if_neg ht]
    rw [linear_scan_of_getD s ts (i + 1) j hnd2.2 hj2 h2]
    push_cast
    ring

theorem fft_window_strings_nodup : fft_window_strings.Nodup := by decide

/-- The binary search loop agrees with the linear scan, provided every
table index holding `window` lies between the bounds. -/
theorem get_window_type_loop_eq (window : CString) (hw : (0 : Nat) ∉ window) :
    ∀ (m : Nat) (low high : Int), (high - low + 1).toNat = m → 0 ≤ low → high ≤ 10 →
      (∀ j : Nat, j < 11 → fft_window_strings.getD j [] = window →
        low ≤ (j : Int) ∧ (j : Int) ≤ high) →
      get_window_type_loop window low high = linear_scan window fft_window_strings 0 := by
  intro m
  induction m using Nat.strong_induction_on with
  | _ m ih =>
    intro low high hm hlow hhigh hinv
    rw [get_window_type_loop]
    by_cases hle : low ≤ high
    · simp only [if_pos hle]
      have hi0 : 0 ≤ low + (high - low) / 2 := by omega
      have hi1 : low + (high - low) / 2 ≤ high := by omega
      have hi2 : low ≤ low + (high - low) / 2 := by omega
      obtain ⟨k, hk⟩ : ∃ k : Nat, low + (high - low) / 2 = (k : Int) :=
        ⟨(low + (high - low) / 2).toNat, (Int.toNat_of_nonneg hi0).symm⟩
      have hk11 : k < 11 := by omega
      rw [hk] at hi0 hi1 hi2 ⊢
      simp only [Int.toNat_ofNat]
      by_cases hc0 : strcmp window (fft_window_strings.getD k []) = 0
      · rw [if_pos hc0]
        have heq := eq_of_strcmp_eq_zero _ _ hw (fft_window_strings_no_nul k hk11) hc0
        rw [linear_scan_of_getD window fft_window_strings 0 k fft_window_strings_nodup
          (by simpa [fft_window_strings] using hk11) heq.symm]
        simp
      · rw [if_neg hc0]
        by_cases hc1 : strcmp window (fft_window_strings.getD k []) > 0
        · rw [if_pos hc1]
          refine ih _ ?_ ((k : Int) + 1) high rfl (by omega) hhigh ?_
          · omega
          · intro j hj hjw
            have hb := hinv j hj hjw
            refine ⟨?_, hb.2⟩
            by_contra hcon
            rcases Nat.lt_or_ge j k with hlt | hge
            · have := (fft_window_strings_sorted j hj k hk11 hlt).1
              rw [hjw] at this
              omega
            · have hjk : j = k := by omega
              rw [← hjk, hjw, strcmp_self] at hc0
              exact hc0 rfl
        · rw [if_neg hc1]
          refine ih _ ?_ low ((k : Int) - 1) rfl hlow (by omega) ?_
          · omega
          · intro j hj hjw
            have hb := hinv j hj hjw
            refine ⟨hb.1, ?_⟩
            by_contra hcon
            rcases Nat.lt_or_ge k j with hlt | hge
            · have := (fft_window_strings_sorted k hk11 j hj hlt).2
              rw [hjw] at this
              omega
            · have hjk : j = k := by omega
              rw [← hjk, hjw, strcmp_self] at hc0
              exact hc0 rfl
    · simp only [if_neg hle]
      symm
      apply linear_scan_of_not_mem
      intro hmem
      obtain ⟨j, hj, hjw⟩ := List.getElem_of_mem hmem
      have hj11 : j < 11 := by simpa [fft_window_strings] using hj
      have := hinv j hj11 (by rw [List.getD_eq_getElem _ _ hj]; exact hjw)
      omega

/-- Binary search and linear scan agree on every well-formed name. -/
theorem get_window_type_some (s : CString) (hs : (0 : Nat) ∉ s) :
    get_window_type (some s) = linear_scan s fft_window_strings 0 := by
  simp only [get_window_type, fft_windowing_type.end_fft_enum]
  refine get_window_type_loop_eq s hs _ 0 (11 - 1) rfl (by omega) (by omega) ?_
  intro j hj _
  omega

/-- C7: for a null pointer and for every C string, `get_window_type` returns
what a linear scan of the eleven-entry table returns: the index of the entry
equal to the string, which is the enum constant of that name (`"hann"` gives
`hann`), and `none` when no entry equals it; null, `"HANN"` and every string
that is not in the table give `none`. -/
theorem get_window_type_eq_linear_scan (window : Option CString)
    (hwf : ∀ s, window = some s → (0 : Nat) ∉ s) :
    get_window_type window = linear_window_type window ∧
    (∀ s, window = some s → ∀ i : Nat, i < 11 → fft_window_strings.getD i [] = s →
      get_window_type window = (i : Int)) ∧
    (∀ s, window = some s → s ∉ fft_window_strings →
      get_window_type window = fft_windowing_type.none) ∧
    (window = none → get_window_type window = fft_windowing_type.none) ∧
    get_window_type (some (cstr "hann")) = fft_windowing_type.hann ∧
    get_window_type (some (cstr "HANN")) = fft_windowing_type.none := by
  refine ⟨?_, ?_, ?_, ?_, ?_, ?_⟩
  · cases window with
    | none => rfl
    | some s => exact get_window_type_some s (hwf s rfl)
  · intro s hs i hi hget
    subst hs
    rw [get_window_type_some s (hwf s rfl),
      linear_scan_of_getD s fft_window_strings 0 i fft_window_strings_nodup
        (by simpa [fft_window_strings] using hi) hget]
    simp
  · intro s hs hmem
    subst hs
    rw [get_window_type_some s (hwf s rfl)]
    exact linear_scan_of_not_mem s _ _ hmem
  · intro h
    subst h
    rfl
  · rw [get_window_type_some _ (by decide)]
    decide
  · rw [get_window_type_some _ (by decide)]
    decide

/-- Witness of C7 at the name `"sine"`. -/
theorem get_window_type_eq_linear_scan_witness :
    get_window_type (some (cstr "sine")) = linear_window_type (some (cstr "sine")) ∧
    linear_window_type (some (cstr "sine")) = fft_windowing_type.sine :=
  ⟨(get_window_type_eq_linear_scan (some (cstr "sine"))
      (fun s hs => by cases hs; decide)).1, by decide⟩

/-- C8, as stated, fails: the table is not the list with the single-n
spelling, and the four names `blackman`, `blackman_exact`, `blackman_harris`,
`blackman_nuttall` all resolve to `none`. -/
theorem blackman_single_n_resolves_to_none :
    fft_window_strings ≠
      [cstr "bartlett", cstr "blackman", cstr "blackman_exact", cstr "blackman_harris",
       cstr "blackman_nuttall", cstr "flat_top", cstr "hann", cstr "nuttall", cstr "sine",
       cstr "triangular", cstr "welch"] ∧
    get_window_type (some (cstr "blackman")) = fft_windowing_type.none ∧
    get_window_type (some (cstr "blackman_exact")) = fft_windowing_type.none ∧
    get_window_type (some (cstr "blackman_harris")) = fft_windowing_type.none ∧
    get_window_type (some (cstr "blackman_nuttall")) = fft_windowing_type.none := by
  refine ⟨by decide, ?_, ?_, ?_, ?_⟩ <;>
  · rw [get_window_type_some _ (by decide)]
    decide

/-- C8, amended: the table is the eleven names bartlett, blackmann,
blackmann_exact, blackmann_harris, blackmann_nuttall, flat_top, hann, nuttall,
sine, triangular, welch, in that order (double n), and each of the four
blackmann names resolves to its own identifier, which is not `none`. -/
theorem blackmann_names_resolve :
    fft_window_strings =
      [cstr "bartlett", cstr "blackmann", cstr "blackmann_exact", cstr "blackmann_harris",
       cstr "blackmann_nuttall", cstr "flat_top", cstr "hann", cstr "nuttall", cstr "sine",
       cstr "triangular", cstr "welch"] ∧
    get_window_type (some (cstr "blackmann")) = fft_windowing_type.blackmann ∧
    get_window_type (some (cstr "blackmann_exact")) = fft_windowing_type.blackmann_exact ∧
    get_window_type (some (cstr "blackmann_harris")) = fft_windowing_type.blackmann_harris ∧
    get_window_type (some (cstr "blackmann_nuttall")) = fft_windowing_type.blackmann_nuttall ∧
    fft_windowing_type.blackmann ≠ fft_windowing_type.none ∧
    fft_windowing_type.blackmann_exact ≠ fft_windowing_type.none ∧
    fft_windowing_type.blackmann_harris ≠ fft_windowing_type.none ∧
    fft_windowing_type.blackmann_nuttall ≠ fft_windowing_type.none := by
  refine ⟨rfl, ?_, ?_, ?_, ?_, by decide, by decide, by decide, by decide⟩ <;>
  · rw [get_window_type_some _ (by decide)]
    decide

/-- C9: the table `fft_window_strings` has exactly `end_fft_enum = 11` entries
and is strictly ascending in `strcmp` order. -/
theorem fft_window_strings_strictly_ascending :
    (fft_window_strings.length : Int) = fft_windowing_type.end_fft_enum ∧
    fft_windowing_type.end_fft_enum = 11 ∧
    List.Pairwise (fun a b => strcmp a b < 0) fft_window_strings := by
  decide

/-! ## Sidechain ring buffers -/

section ring_lemmas

theorem mul_sizeof_float_div (k : Nat) : k * sizeof_float / sizeof_float = k := by
  simp [sizeof_float]

theorem mul_sizeof_float_eq_zero (k : Nat) : k * sizeof_float = 0 ↔ k = 0 := by
  simp [sizeof_float]

/-- A loop that rewrites entry `i` of an array from its old value. -/
theorem for_loop_update {β : Type} (g : Nat → β → β) (n : Nat) (d : Nat → β) (i : Nat) :
    for_loop (fun c (e : Nat → β) => Function.update e c (g c (e c))) n d i =
      if i < n then g i (d i) else d i := by
  induction n with
  | zero => simp [for_loop]
  | succ n ih =>
    simp only [for_loop]
    by_cases hin : i = n
    · subst hin
      simp [ih]
    · rw [Function.update_noteq hin, ih]
      have : i < n + 1 ↔ i < n := by omega
      simp [this]

/-- A loop whose pass `c` overwrites the slice `[k * c, k * c + k)` of a flat
array: afterwards slice `i` holds what pass `i` wrote, and nothing from
`k * n` on is touched. -/
theorem for_loop_slices {α : Type} (body : Nat → (Nat → α) → (Nat → α)) (k : Nat) (v : Nat → Nat → α)
    (hbody : ∀ c b x, body c b x = if k * c ≤ x ∧ x < k * c + k then v c (x - k * c) else b x)
    (n : Nat) (buf : Nat → α) :
    (∀ i j, i < n → j < k → for_loop body n buf (k * i + j) = v i j) ∧
    (∀ x, k * n ≤ x → for_loop body n buf x = buf x) := by
  induction n with
  | zero =>
    refine ⟨fun i j hi _ => absurd hi (by omega), fun x _ => rfl⟩
  | succ n ih =>
    constructor
    · intro i j hi hj
      simp only [for_loop, hbody]
      by_cases hin : i = n
      · subst hin
        have h1 : k * i ≤ k * i + j ∧ k * i + j < k * i + k := by omega
        rw [if_pos h1]
        congr 1
        omega
      · have hlt : i < n := by omega
        have h2 : k * (i + 1) ≤ k * n := Nat.mul_le_mul_left k hlt
        have h1 : ¬ (k * n ≤ k * i + j ∧ k * i + j < k * n + k) := by
          rw [Nat.mul_succ] at h2
          omega
        rw [if_neg h1]
        exact ih.1 i j hlt hj
    · intro x hx
      simp only [for_loop, hbody]
      rw [Nat.mul_succ] at hx
      have h1 : ¬ (k * n ≤ x ∧ x < k * n + k) := by omega
      rw [if_neg h1]
      exact ih.2 x (by omega)

theorem sidechain_capture_grow_data {α : Type} (param : effect_param_data α) (audio : audio_data α) :
    (sidechain_capture_grow param audio).sidechain_data = param.sidechain_data ∧
    (sidechain_capture_grow param audio).num_channels = param.num_channels ∧
    (sidechain_capture_grow param audio).sidechain_buf = param.sidechain_buf ∧
    (sidechain_capture_grow param audio).media_source = param.media_source ∧
    (sidechain_capture_grow param audio).max_sidechain_frames =
      max param.max_sidechain_frames audio.frames := by
  unfold sidechain_capture_grow resize_audio_buffers
  by_cases h : param.max_sidechain_frames < audio.frames
  · have hmax : max param.max_sidechain_frames audio.frames = audio.frames :=
      max_eq_right (le_of_lt h)
    rw [if_pos h, hmax]
    split <;> simp
  · have hmax : max param.max_sidechain_frames audio.frames = param.max_sidechain_frames :=
      max_eq_left (not_lt.mp h)
    rw [if_neg h, hmax]
    simp

theorem sidechain_capture_trim_data {α : Type} (param : effect_param_data α) (i : Nat) :
    ((sidechain_capture_trim param).sidechain_data i).slots =
      if sidechain_trim_fires param ∧ i < param.num_channels then
        (param.sidechain_data i).slots.drop param.max_sidechain_frames
      else (param.sidechain_data i).slots := by
  unfold sidechain_capture_trim
  by_cases h : sidechain_trim_fires param
  · simp only [if_pos h, h, true_and]
    refine Eq.trans (congrArg circlebuf.slots (for_loop_update
      (fun _ e => circlebuf_pop_front e (param.max_sidechain_frames * sizeof_float))
      param.num_channels param.sidechain_data i)) ?_
    by_cases hi : i < param.num_channels
    · simp [hi, circlebuf_pop_front, mul_sizeof_float_div]
    · simp [hi]
  · simp [h]

theorem sidechain_capture_trim_fields {α : Type} (param : effect_param_data α) :
    (sidechain_capture_trim param).num_channels = param.num_channels ∧
    (sidechain_capture_trim param).sidechain_buf = param.sidechain_buf ∧
    (sidechain_capture_trim param).media_source = param.media_source ∧
    (sidechain_capture_trim param).max_sidechain_frames = param.max_sidechain_frames := by
  unfold sidechain_capture_trim
  split <;> simp

theorem sidechain_capture_push_data {α : Type} [Zero α] (param : effect_param_data α) (audio : audio_data α)
    (muted : Bool) (i : Nat) :
    ((sidechain_capture_push param audio muted).sidechain_data i).slots =
      if i < param.num_channels then
        (param.sidechain_data i).slots ++
          (if muted then List.replicate audio.frames 0
           else (List.range audio.frames).map (audio.data i))
      else (param.sidechain_data i).slots := by
  unfold sidechain_capture_push
  cases muted
  · simp only [Bool.false_eq_true, if_false]
    refine Eq.trans (congrArg circlebuf.slots (for_loop_update
      (fun c e => circlebuf_push_back e (audio.data c) (audio.frames * sizeof_float))
      param.num_channels param.sidechain_data i)) ?_
    by_cases hi : i < param.num_channels <;>
      simp [hi, circlebuf_push_back, mul_sizeof_float_div]
  · simp only [if_true]
    refine Eq.trans (congrArg circlebuf.slots (for_loop_update
      (fun _ e => circlebuf_push_back_zero e (audio.frames * sizeof_float))
      param.num_channels param.sidechain_data i)) ?_
    by_cases hi : i < param.num_channels <;>
      simp [hi, circlebuf_push_back_zero, mul_sizeof_float_div]

theorem sidechain_capture_push_fields {α : Type} [Zero α] (param : effect_param_data α) (audio : audio_data α)
    (muted : Bool) :
    (sidechain_capture_push param audio muted).num_channels = param.num_channels ∧
    (sidechain_capture_push param audio muted).sidechain_buf = param.sidechain_buf ∧
    (sidechain_capture_push param audio muted).media_source = param.media_source ∧
    (sidechain_capture_push param audio muted).max_sidechain_frames =
      param.max_sidechain_frames := by
  unfold sidechain_capture_push
  cases muted <;> simp

/-- The channel buffers after a capture event of at least one frame: the old
content, trimmed when the trim fires, followed by the frames of the event. -/
theorem sidechain_capture_data {α : Type} [Zero α] (param : effect_param_data α) (audio : audio_data α)
    (muted : Bool) (hk : 0 < audio.frames) (i : Nat) :
    ((sidechain_capture param audio muted).sidechain_data i).slots =
      if i < param.num_channels then
        (if sidechain_trim_fires (sidechain_capture_grow param audio) then
          (param.sidechain_data i).slots.drop (max param.max_sidechain_frames audio.frames)
         else (param.sidechain_data i).slots) ++
          (if muted then List.replicate audio.frames 0
           else (List.range audio.frames).map (audio.data i))
      else (param.sidechain_data i).slots := by
  obtain ⟨hd, hn, _, _, hm⟩ := sidechain_capture_grow_data param audio
  have hne : ¬ (sidechain_capture_grow param audio).max_sidechain_frames * sizeof_float = 0 := by
    rw [mul_sizeof_float_eq_zero, hm]
    have := le_max_right param.max_sidechain_frames audio.frames
    omega
  unfold sidechain_capture
  simp only [if_neg hne]
  rw [sidechain_capture_push_data, (sidechain_capture_trim_fields _).1, hn,
    sidechain_capture_trim_data, hn, hd, hm]
  by_cases hi : i < param.num_channels
  · by_cases hf : sidechain_trim_fires (sidechain_capture_grow param audio) <;> simp [hi, hf]
  · simp [hi]

theorem sidechain_capture_fields {α : Type} [Zero α] (param : effect_param_data α) (audio : audio_data α)
    (muted : Bool) :
    (sidechain_capture param audio muted).num_channels = param.num_channels ∧
    (sidechain_capture param audio muted).sidechain_buf = param.sidechain_buf ∧
    (sidechain_capture param audio muted).media_source = param.media_source ∧
    (sidechain_capture param audio muted).max_sidechain_frames =
      max param.max_sidechain_frames audio.frames := by
  obtain ⟨_, hn, hb, hs, hm⟩ := sidechain_capture_grow_data param audio
  unfold sidechain_capture
  simp only
  split
  · exact ⟨hn, hb, hs, hm⟩
  · obtain ⟨hn1, hb1, hs1, hm1⟩ := sidechain_capture_push_fields
      (sidechain_capture_trim (sidechain_capture_grow param audio)) audio muted
    obtain ⟨hn2, hb2, hs2, hm2⟩ := sidechain_capture_trim_fields
      (sidechain_capture_grow param audio)
    exact ⟨by rw [hn1, hn2, hn], by rw [hb1, hb2, hb], by rw [hs1, hs2, hs],
      by rw [hm1, hm2, hm]⟩

theorem get_sidechain_data_fields {α : Type} [Zero α] (param : effect_param_data α) (num_samples : Nat) :
    (get_sidechain_data param num_samples).sidechain_data = param.sidechain_data ∧
    (get_sidechain_data param num_samples).num_channels = param.num_channels ∧
    (get_sidechain_data param num_samples).media_source = param.media_source := by
  unfold get_sidechain_data
  simp only
  split
  · exact ⟨rfl, rfl, rfl⟩
  · split <;> split <;> exact ⟨rfl, rfl, rfl⟩

/-- The snapshot after a peek that finds enough data in channel 0: slice `i`
holds the first `num_samples` slots of channel `i`. -/
theorem get_sidechain_data_peek {α : Type} [Zero α] (param : effect_param_data α) (num_samples : Nat)
    (henough : num_samples ≤ (param.sidechain_data 0).slots.length) :
    (∀ i j, i < param.num_channels → j < num_samples →
      (get_sidechain_data param num_samples).sidechain_buf (num_samples * i + j) =
        (param.sidechain_data i).slots.getD j 0) ∧
    (∀ x, num_samples * param.num_channels ≤ x →
      (get_sidechain_data param num_samples).sidechain_buf x = param.sidechain_buf x) := by
  unfold get_sidechain_data
  simp only
  by_cases h0 : num_samples * sizeof_float = 0
  · have : num_samples = 0 := (mul_sizeof_float_eq_zero _).1 h0
    subst this
    simp
  · rw [if_neg h0]
    have hsz : ¬ ((if param.max_sidechain_frames < num_samples then
        { param with max_sidechain_frames := num_samples } else param).sidechain_data 0).size <
        num_samples * sizeof_float := by
      have : (if param.max_sidechain_frames < num_samples then
        { param with max_sidechain_frames := num_samples } else param).sidechain_data =
          param.sidechain_data := by split <;> rfl
      rw [this]
      simp only [circlebuf.size, sizeof_float]
      omega
    rw [if_neg hsz]
    have hfield : ∀ q : effect_param_data α,
        (if param.max_sidechain_frames < num_samples then
          { param with max_sidechain_frames := num_samples } else param) = q →
        q.sidechain_data = param.sidechain_data ∧ q.num_channels = param.num_channels ∧
        q.sidechain_buf = param.sidechain_buf := by
      intro q hq
      subst hq
      split <;> exact ⟨rfl, rfl, rfl⟩
    obtain ⟨hd, hn, hb⟩ := hfield _ rfl
    simp only [hd, hn, hb]
    exact for_loop_slices _ num_samples (fun c j => (param.sidechain_data c).slots.getD j 0)
      (fun c b x => by simp [circlebuf_peek_front, mul_sizeof_float_div])
      param.num_channels param.sidechain_buf

/-- The snapshot after a peek that finds too little data in channel 0: every
slice is zero. -/
theorem get_sidechain_data_clear {α : Type} [Zero α] (param : effect_param_data α) (num_samples : Nat)
    (hfew : (param.sidechain_data 0).slots.length < num_samples) :
    (∀ i j, i < param.num_channels → j < num_samples →
      (get_sidechain_data param num_samples).sidechain_buf (num_samples * i + j) = 0) ∧
    (∀ x, num_samples * param.num_channels ≤ x →
      (get_sidechain_data param num_samples).sidechain_buf x = param.sidechain_buf x) := by
  unfold get_sidechain_data
  simp only
  have h0 : ¬ num_samples * sizeof_float = 0 := by
    rw [mul_sizeof_float_eq_zero]
    omega
  rw [if_neg h0]
  have hsz : ((if param.max_sidechain_frames < num_samples then
      { param with max_sidechain_frames := num_samples } else param).sidechain_data 0).size <
      num_samples * sizeof_float := by
    have : (if param.max_sidechain_frames < num_samples then
      { param with max_sidechain_frames := num_samples } else param).sidechain_data =
        param.sidechain_data := by split <;> rfl
    rw [this]
    simp only [circlebuf.size, sizeof_float]
    omega
  rw [if_pos hsz]
  have hfield : ∀ q : effect_param_data α,
      (if param.max_sidechain_frames < num_samples then
        { param with max_sidechain_frames := num_samples } else param) = q →
      q.num_channels = param.num_channels ∧ q.sidechain_buf = param.sidechain_buf := by
    intro q hq
    subst hq
    split <;> exact ⟨rfl, rfl⟩
  obtain ⟨hn, hb⟩ := hfield _ rfl
  simp only [hn, hb]
  exact for_loop_slices _ num_samples (fun _ _ => (0 : α))
    (fun c b x => by simp [memset_zero, mul_sizeof_float_div])
    param.num_channels param.sidechain_buf

theorem update_sidechain_callback_data {α : Type} (lookup : CString → Option Nat)
    (param : effect_param_data α) (name : CString) (i : Nat) :
    ((update_sidechain_callback lookup param (some name)).sidechain_data i).slots =
      if param.media_source.isSome = true ∧ i < param.num_channels then []
      else (param.sidechain_data i).slots := by
  unfold update_sidechain_callback
  simp only
  by_cases h : param.media_source.isSome = true
  · simp only [if_pos h, h, true_and]
    refine Eq.trans (congrArg circlebuf.slots (for_loop_update
      (fun _ e => circlebuf_pop_front e e.size) param.num_channels param.sidechain_data i)) ?_
    by_cases hi : i < param.num_channels
    · simp [hi, circlebuf_pop_front, circlebuf.size, mul_sizeof_float_div]
    · simp [hi]
  · simp [h]

theorem update_sidechain_callback_fields {α : Type} (lookup : CString → Option Nat)
    (param : effect_param_data α) (name : Option CString) :
    (update_sidechain_callback lookup param name).num_channels = param.num_channels := by
  unfold update_sidechain_callback
  cases name with
  | none => rfl
  | some name =>
    simp only
    split <;> rfl

theorem lock_step_iff {α : Type} (param : effect_param_data α) :
    lock_step param ↔ ∀ i j, i < param.num_channels → j < param.num_channels →
      (param.sidechain_data i).slots.length = (param.sidechain_data j).slots.length := by
  unfold lock_step circlebuf.size sizeof_float
  constructor
  · intro h i j hi hj
    have := h i j hi hj
    omega
  · intro h i j hi hj
    have := h i j hi hj
    omega

theorem lock_step_trim {α : Type} (param : effect_param_data α) (h : lock_step param) :
    lock_step (sidechain_capture_trim param) := by
  rw [lock_step_iff] at h ⊢
  rw [(sidechain_capture_trim_fields param).1]
  intro i j hi hj
  rw [sidechain_capture_trim_data, sidechain_capture_trim_data]
  by_cases hf : sidechain_trim_fires param
  · simp [hf, hi, hj, h i j hi hj]
  · simp [hf, h i j hi hj]

theorem lock_step_push {α : Type} [Zero α] (param : effect_param_data α) (audio : audio_data α)
    (muted : Bool) (h : lock_step param) :
    lock_step (sidechain_capture_push param audio muted) := by
  rw [lock_step_iff] at h ⊢
  rw [(sidechain_capture_push_fields param audio muted).1]
  intro i j hi hj
  rw [sidechain_capture_push_data, sidechain_capture_push_data]
  cases muted <;> simp [hi, hj, h i j hi hj]

theorem lock_step_capture {α : Type} [Zero α] (param : effect_param_data α)
    (audio : audio_data α) (muted : Bool) (h : lock_step param) :
    lock_step (sidechain_capture param audio muted) := by
  have hg : lock_step (sidechain_capture_grow param audio) := by
    obtain ⟨hd, hn, _, _, _⟩ := sidechain_capture_grow_data param audio
    unfold lock_step
    rw [hd, hn]
    exact h
  unfold sidechain_capture
  simp only
  split
  · exact hg
  · exact lock_step_push _ audio muted (lock_step_trim _ hg)

theorem lock_step_peek {α : Type} [Zero α] (param : effect_param_data α) (num_samples : Nat)
    (h : lock_step param) : lock_step (get_sidechain_data param num_samples) := by
  obtain ⟨hd, hn, _⟩ := get_sidechain_data_fields param num_samples
  unfold lock_step
  rw [hd, hn]
  exact h

theorem lock_step_rebind {α : Type} (lookup : CString → Option Nat)
    (param : effect_param_data α) (name : Option CString) (h : lock_step param) :
    lock_step (update_sidechain_callback lookup param name) := by
  cases name with
  | none => exact h
  | some name =>
    rw [lock_step_iff] at h ⊢
    rw [update_sidechain_callback_fields]
    intro i j hi hj
    rw [update_sidechain_callback_data, update_sidechain_callback_data]
    by_cases hs : param.media_source.isSome = true
    · simp [hs, hi, hj]
    · simp [hs, h i j hi hj]

theorem apply_op_num_channels {α : Type} [Zero α] (lookup : CString → Option Nat)
    (param : effect_param_data α) (op : binding_op α) :
    (apply_op lookup param op).num_channels = param.num_channels := by
  cases op with
  | capture audio muted => exact (sidechain_capture_fields param audio muted).1
  | peek num_samples => exact (get_sidechain_data_fields param num_samples).2.1
  | rebind name => exact update_sidechain_callback_fields lookup param name

theorem lock_step_apply_op {α : Type} [Zero α] (lookup : CString → Option Nat)
    (param : effect_param_data α) (op : binding_op α) (h : lock_step param) :
    lock_step (apply_op lookup param op) := by
  cases op with
  | capture audio muted => exact lock_step_capture param audio muted h
  | peek num_samples => exact lock_step_peek param num_samples h
  | rebind name => exact lock_step_rebind lookup param name h

theorem lock_step_run_ops {α : Type} [Zero α] (lookup : CString → Option Nat)
    (ops : List (binding_op α)) :
    ∀ param : effect_param_data α, lock_step param →
      lock_step (run_ops lookup param ops) ∧
      (run_ops lookup param ops).num_channels = param.num_channels := by
  induction ops with
  | nil => exact fun param h => ⟨h, rfl⟩
  | cons op ops ih =>
    intro param h
    have := ih (apply_op lookup param op) (lock_step_apply_op lookup param op h)
    rw [apply_op_num_channels] at this
    exact this

end ring_lemmas

section ring_claims

/-- C1: round trip. From a binding whose channel buffers are all empty, an
unmuted capture event of `k > 0` frames followed by a peek of `k` samples
leaves in the snapshot slice of every channel exactly the `k` samples pushed
for that channel, in the same order. -/
theorem capture_then_peek_round_trip {α : Type} [Zero α] (param : effect_param_data α)
    (audio : audio_data α) (hk : 0 < audio.frames)
    (hempty : ∀ i, (param.sidechain_data i).slots = [])
    (i : Nat) (hi : i < param.num_channels) :
    snapshot_slice (get_sidechain_data (sidechain_capture param audio false) audio.frames)
        audio.frames i =
      (List.range audio.frames).map (audio.data i) := by
  have hdata : ∀ c, c < param.num_channels →
      ((sidechain_capture param audio false).sidechain_data c).slots =
        (List.range audio.frames).map (audio.data c) := by
    intro c hc
    rw [sidechain_capture_data param audio false hk c]
    simp [hc, hempty c]
  have hn := (sidechain_capture_fields param audio false).1
  have h0 : audio.frames ≤
      ((sidechain_capture param audio false).sidechain_data 0).slots.length := by
    rw [hdata 0 (by omega)]
    simp
  have hpeek := (get_sidechain_data_peek (sidechain_capture param audio false) audio.frames
    h0).1
  unfold snapshot_slice
  apply List.map_congr_left
  intro j hj
  rw [hpeek i j (by rw [hn]; exact hi) (List.mem_range.mp hj), hdata i hi]
  simp [List.getD_eq_getElem?_getD, List.mem_range.mp hj]

/-- Witness of C1: two channels, the frames 5, 6, 7. -/
theorem capture_then_peek_round_trip_witness :
    snapshot_slice
        (get_sidechain_data
          (sidechain_capture (empty_binding 2) (audio_of_list [5, 6, (7 : Int)]) false) 3)
        3 1 =
      (List.range 3).map ((audio_of_list [5, 6, (7 : Int)]).data 1) :=
  capture_then_peek_round_trip (empty_binding 2) (audio_of_list [5, 6, (7 : Int)])
    (by decide) (fun _ => rfl) 1 (by decide)

/-- C3: underrun yields silence. In every state in which fewer than `count`
sample-slots are buffered (the test the code makes on channel 0), so also in
a binding with nothing buffered and no entity subscribed, a peek of `count`
samples writes exactly `count` zeros into the snapshot slice of every
channel, touches nothing past the slices, leaves the queues as they are and,
returning nothing, reports no error. -/
theorem peek_underrun_yields_silence {α : Type} [Zero α] (param : effect_param_data α)
    (count : Nat) (hfew : (param.sidechain_data 0).slots.length < count)
    (i : Nat) (hi : i < param.num_channels) :
    snapshot_slice (get_sidechain_data param count) count i = List.replicate count 0 ∧
    (∀ x, count * param.num_channels ≤ x →
      (get_sidechain_data param count).sidechain_buf x = param.sidechain_buf x) ∧
    (get_sidechain_data param count).sidechain_data = param.sidechain_data ∧
    snapshot_slice (get_sidechain_data (empty_binding param.num_channels : effect_param_data α)
      count) count i = List.replicate count 0 := by
  have key : ∀ q : effect_param_data α, (q.sidechain_data 0).slots.length < count →
      i < q.num_channels →
      snapshot_slice (get_sidechain_data q count) count i = List.replicate count 0 := by
    intro q hq hiq
    have hclear := (get_sidechain_data_clear q count hq).1
    unfold snapshot_slice
    have hconst : List.replicate count (0 : α) =
        (List.range count).map (fun _ => (0 : α)) := by
      apply List.ext_getElem <;> simp
    rw [hconst]
    apply List.map_congr_left
    intro j hj
    exact hclear i j hiq (List.mem_range.mp hj)
  refine ⟨key param hfew hi, (get_sidechain_data_clear param count hfew).2,
    (get_sidechain_data_fields param count).1, key _ ?_ hi⟩
  simp only [empty_binding, List.length_nil]
  omega

/-- Witness of C3: two slots buffered, three requested. -/
theorem peek_underrun_yields_silence_witness :
    snapshot_slice
        (get_sidechain_data
          (sidechain_capture (empty_binding 2) (audio_of_list [5, (6 : Int)]) false) 3)
        3 1 = List.replicate 3 0 :=
  (peek_underrun_yields_silence
    (sidechain_capture (empty_binding 2) (audio_of_list [5, (6 : Int)]) false) 3
    (by decide) 1 (by decide)).1

/-- C4, as stated, fails: with three slots buffered and a maximum frame count
of one, a muted capture event of one frame first trims one slot, so the
buffered length stays three instead of growing by one. -/
theorem muted_capture_after_trim_keeps_length :
    ((run_ops (fun _ => none) (empty_binding 1)
        [.capture (audio_of_list [(1 : Int)]) false, .capture (audio_of_list [2]) false,
         .capture (audio_of_list [3]) false]).sidechain_data 0).slots.length = 3 ∧
    ((sidechain_capture
        (run_ops (fun _ => none) (empty_binding 1)
          [.capture (audio_of_list [(1 : Int)]) false, .capture (audio_of_list [2]) false,
           .capture (audio_of_list [3]) false])
        (audio_of_list [0]) true).sidechain_data 0).slots.length = 3 ∧
    ((sidechain_capture
        (run_ops (fun _ => none) (empty_binding 1)
          [.capture (audio_of_list [(1 : Int)]) false, .capture (audio_of_list [2]) false,
           .capture (audio_of_list [3]) false])
        (audio_of_list [0]) true).sidechain_data 0).slots.length ≠ 3 + 1 := by
  decide

/-- C4, amended: a muted capture event of `k > 0` frames appends exactly `k`
sample-slots, all zero, to the tail of every channel, after the trim step;
the buffered length of every channel grows by exactly `k` whenever the trim
step does not fire; and from an empty binding a following peek of `k` samples
returns `k` zeros for every channel. -/
theorem muted_capture_appends_zero_slots {α : Type} [Zero α] (param : effect_param_data α)
    (audio : audio_data α) (hk : 0 < audio.frames) (i : Nat) (hi : i < param.num_channels) :
    ((sidechain_capture param audio true).sidechain_data i).slots =
      ((sidechain_capture_trim (sidechain_capture_grow param audio)).sidechain_data i).slots ++
        List.replicate audio.frames 0 ∧
    (¬ sidechain_trim_fires (sidechain_capture_grow param audio) →
      ((sidechain_capture param audio true).sidechain_data i).slots.length =
        (param.sidechain_data i).slots.length + audio.frames) ∧
    ((∀ c, (param.sidechain_data c).slots = []) →
      ((sidechain_capture param audio true).sidechain_data i).slots.length = audio.frames ∧
      snapshot_slice (get_sidechain_data (sidechain_capture param audio true) audio.frames)
        audio.frames i = List.replicate audio.frames 0) := by
  obtain ⟨hd, hn, _, _, hm⟩ := sidechain_capture_grow_data param audio
  have hcap := sidechain_capture_data param audio true hk
  refine ⟨?_, ?_, ?_⟩
  · rw [hcap i, sidechain_capture_trim_data, hn, hd, hm]
    by_cases hf : sidechain_trim_fires (sidechain_capture_grow param audio) <;> simp [hi, hf]
  · intro hf
    rw [hcap i]
    simp [hi, hf]
  · intro hempty
    have hdata : ∀ c, c < param.num_channels →
        ((sidechain_capture param audio true).sidechain_data c).slots =
          List.replicate audio.frames 0 := by
      intro c hc
      rw [hcap c]
      simp [hc, hempty c]
    refine ⟨by rw [hdata i hi]; simp, ?_⟩
    have hnc := (sidechain_capture_fields param audio true).1
    have h0 : audio.frames ≤
        ((sidechain_capture param audio true).sidechain_data 0).slots.length := by
      rw [hdata 0 (by omega)]
      simp
    have hpeek := (get_sidechain_data_peek (sidechain_capture param audio true) audio.frames
      h0).1
    unfold snapshot_slice
    have hconst : List.replicate audio.frames (0 : α) =
        (List.range audio.frames).map (fun _ => (0 : α)) := by
      apply List.ext_getElem <;> simp
    rw [hconst]
    apply List.map_congr_left
    intro j hj
    rw [hpeek i j (by rw [hnc]; exact hi) (List.mem_range.mp hj), hdata i hi]
    simp [List.getD_eq_getElem?_getD, List.mem_range.mp hj]

/-- Witness of C4, amended: a muted event of three frames on an empty binding
of two channels. -/
theorem muted_capture_appends_zero_slots_witness :
    ((sidechain_capture (empty_binding 2) (audio_of_list [5, 6, (7 : Int)])
      true).sidechain_data 1).slots =
      ((sidechain_capture_trim (sidechain_capture_grow (empty_binding 2)
        (audio_of_list [5, 6, (7 : Int)]))).sidechain_data 1).slots ++ List.replicate 3 0 :=
  (muted_capture_appends_zero_slots (empty_binding 2) (audio_of_list [5, 6, (7 : Int)])
    (by decide) 1 (by decide)).1

/-- C5: lock-step invariant. Over every sequence of capture events (muted or
not), peeks and rebinds applied to a binding that starts with empty buffers,
the channel count stays fixed and after each operation all channels
`0 .. num_channels - 1` have the same buffered byte length. -/
theorem channels_stay_in_lock_step {α : Type} [Zero α] (lookup : CString → Option Nat)
    (param : effect_param_data α) (hempty : ∀ i, (param.sidechain_data i).slots = [])
    (ops : List (binding_op α)) (m i j : Nat)
    (hi : i < param.num_channels) (hj : j < param.num_channels) :
    (run_ops lookup param (ops.take m)).num_channels = param.num_channels ∧
    ((run_ops lookup param (ops.take m)).sidechain_data i).size =
      ((run_ops lookup param (ops.take m)).sidechain_data j).size := by
  have h0 : lock_step param := by
    intro a b _ _
    simp [circlebuf.size, hempty a, hempty b]
  obtain ⟨hl, hn⟩ := lock_step_run_ops lookup (ops.take m) param h0
  exact ⟨hn, hl i j (by rw [hn]; exact hi) (by rw [hn]; exact hj)⟩

/-- Witness of C5: two channels, a capture, a muted capture, a peek, a rebind
and one more capture. -/
theorem channels_stay_in_lock_step_witness :
    (run_ops (fun _ => some 7) (empty_binding 2)
      ([binding_op.capture (audio_of_list [5, 6, (7 : Int)]) false,
        .capture (audio_of_list [1]) true, .peek 2, .rebind (some (cstr "mic")),
        .capture (audio_of_list [8, 9]) false].take 5)).num_channels = 2 ∧
    ((run_ops (fun _ => some 7) (empty_binding 2)
      ([binding_op.capture (audio_of_list [5, 6, (7 : Int)]) false,
        .capture (audio_of_list [1]) true, .peek 2, .rebind (some (cstr "mic")),
        .capture (audio_of_list [8, 9]) false].take 5)).sidechain_data 0).size =
    ((run_ops (fun _ => some 7) (empty_binding 2)
      ([binding_op.capture (audio_of_list [5, 6, (7 : Int)]) false,
        .capture (audio_of_list [1]) true, .peek 2, .rebind (some (cstr "mic")),
        .capture (audio_of_list [8, 9]) false].take 5)).sidechain_data 1).size :=
  channels_stay_in_lock_step (fun _ => some 7) (empty_binding 2) (fun _ => rfl) _ 5 0 1
    (by decide) (by decide)

/-- C6, as stated, fails: after capture events of 3, 3 and 1 frames a channel
holds 7 slots and the maximum frame count is 3; the trim step of the next
event fires and drops 3 slots, more than the 7 - 2 * 3 = 1 slot that would
bring the size back to twice the maximum. -/
theorem trim_drops_more_than_excess :
    sidechain_trim_fires
      (sidechain_capture_grow
        (run_ops (fun _ => none) (empty_binding 1)
          [.capture (audio_of_list [1, 2, (3 : Int)]) false,
           .capture (audio_of_list [4, 5, 6]) false, .capture (audio_of_list [7]) false])
        (audio_of_list [8])) ∧
    (sidechain_capture_grow
        (run_ops (fun _ => none) (empty_binding 1)
          [.capture (audio_of_list [1, 2, (3 : Int)]) false,
           .capture (audio_of_list [4, 5, 6]) false, .capture (audio_of_list [7]) false])
        (audio_of_list [8])).max_sidechain_frames = 3 ∧
    ((run_ops (fun _ => none) (empty_binding 1)
        [.capture (audio_of_list [1, 2, (3 : Int)]) false,
         .capture (audio_of_list [4, 5, 6]) false,
         .capture (audio_of_list [7]) false]).sidechain_data 0).slots.length = 7 ∧
    ((sidechain_capture_trim
        (sidechain_capture_grow
          (run_ops (fun _ => none) (empty_binding 1)
            [.capture (audio_of_list [1, 2, (3 : Int)]) false,
             .capture (audio_of_list [4, 5, 6]) false, .capture (audio_of_list [7]) false])
          (audio_of_list [8]))).sidechain_data 0).slots.length = 4 ∧
    ¬ (7 - 4 ≤ 7 - 2 * 3) := by
  decide

/-- C6, amended: whenever the trim step of a capture event fires on a binding
in lock-step, it drops from the head of each channel exactly
`max_sidechain_frames` sample-slots, one frame of the maximum observed size
and never more, and more than `max_sidechain_frames` slots stay buffered; the
drop is within (buffered length - 2 * max) exactly when at least 3 * max slots
were buffered. -/
theorem trim_drops_one_max_frame {α : Type} [Zero α] (param : effect_param_data α)
    (audio : audio_data α) (hlock : lock_step param)
    (hfire : sidechain_trim_fires (sidechain_capture_grow param audio))
    (i : Nat) (hi : i < param.num_channels) :
    ((sidechain_capture_trim (sidechain_capture_grow param audio)).sidechain_data i).slots =
      (param.sidechain_data i).slots.drop
        (sidechain_capture_grow param audio).max_sidechain_frames ∧
    ((sidechain_capture_trim (sidechain_capture_grow param audio)).sidechain_data i).slots.length
        + (sidechain_capture_grow param audio).max_sidechain_frames =
      (param.sidechain_data i).slots.length ∧
    (sidechain_capture_grow param audio).max_sidechain_frames <
      ((sidechain_capture_trim
        (sidechain_capture_grow param audio)).sidechain_data i).slots.length ∧
    ((param.sidechain_data i).slots.length -
        ((sidechain_capture_trim
          (sidechain_capture_grow param audio)).sidechain_data i).slots.length ≤
        (param.sidechain_data i).slots.length -
          2 * (sidechain_capture_grow param audio).max_sidechain_frames ↔
      3 * (sidechain_capture_grow param audio).max_sidechain_frames ≤
        (param.sidechain_data i).slots.length) := by
  obtain ⟨hd, hn, _, _, _⟩ := sidechain_capture_grow_data param audio
  have hlen : (param.sidechain_data i).slots.length = (param.sidechain_data 0).slots.length :=
    (lock_step_iff param).1 hlock i 0 hi (by omega)
  have hbig : 2 * (sidechain_capture_grow param audio).max_sidechain_frames <
      (param.sidechain_data i).slots.length := by
    have := hfire
    unfold sidechain_trim_fires at this
    rw [hd] at this
    simp only [circlebuf.size, sizeof_float] at this
    omega
  have hslots := sidechain_capture_trim_data (sidechain_capture_grow param audio) i
  rw [hn, hd] at hslots
  simp only [hfire, hi, and_self, if_true] at hslots
  rw [hslots, List.length_drop]
  refine ⟨rfl, by omega, by omega, by omega⟩

/-- Witness of C6, amended: the state of 7 slots with maximum 3. -/
theorem trim_drops_one_max_frame_witness :
    (sidechain_capture_grow
        (run_ops (fun _ => none) (empty_binding 1)
          [.capture (audio_of_list [1, 2, (3 : Int)]) false,
           .capture (audio_of_list [4, 5, 6]) false, .capture (audio_of_list [7]) false])
        (audio_of_list [8])).max_sidechain_frames <
      ((sidechain_capture_trim
        (sidechain_capture_grow
          (run_ops (fun _ => none) (empty_binding 1)
            [.capture (audio_of_list [1, 2, (3 : Int)]) false,
             .capture (audio_of_list [4, 5, 6]) false, .capture (audio_of_list [7]) false])
          (audio_of_list [8]))).sidechain_data 0).slots.length :=
  (trim_drops_one_max_frame
    (run_ops (fun _ => none) (empty_binding 1)
      [.capture (audio_of_list [1, 2, (3 : Int)]) false,
       .capture (audio_of_list [4, 5, 6]) false, .capture (audio_of_list [7]) false])
    (audio_of_list [8])
    (fun a b ha hb => by
      have ha0 : a = 0 := by
        have : a < 1 := ha
        omega
      have hb0 : b = 0 := by
        have : b < 1 := hb
        omega
      rw [ha0, hb0])
    (by decide) 0 (by decide)).2.2.1

end ring_claims

/-! ## Window coefficients -/

section window_claims

/-- One pass of the window loop multiplies each of the first `N` samples by
its coefficient, once, and leaves the rest. -/
theorem window_loop_apply {K : Type} [LinearOrderedField K] (d : Nat → K) (N : Nat)
    (data : Nat → K) (n : Nat) :
    window_loop d N data n = if n < N then data n * d n else data n := by
  induction N with
  | zero => simp [window_loop]
  | succ N ih =>
    simp only [window_loop]
    by_cases hn : n = N
    · subst hn
      simp [ih]
    · rw [Function.update_noteq hn, ih]
      have : n < N + 1 ↔ n < N := by omega
      simp [this]

theorem window_N2_natCast (L : Nat) (hL : 1 ≤ L) (hint : L < 2 ^ 31) :
    window_N2 (L : Int) = L - 1 := by
  unfold window_N2
  omega

/-- C10: for every length `2 ≤ L` (an `int`), every buffer and every `n < L`,
`window_function` multiplies `samples[n]` by exactly the closed-form
coefficient of the window, in real arithmetic with π standing for `M_PI_D`:
triangular `1 - |n - (L-1)/2| / (L/2)`, bartlett
`1 - |n - (L-1)/2| / ((L-1)/2)`, hann `0.5 - 0.5 cos (2 π n / (L-1))`. -/
theorem window_function_closed_form {K : Type} [LinearOrderedField K] (cos : K → K)
    (M_PI_D : K) (data : Nat → K) (L n : Nat) (hL : 2 ≤ L) (hint : L < 2 ^ 31)
    (hn : n < L) :
    window_function cos M_PI_D data (L : Int) fft_windowing_type.triangular n =
      data n * (1 - |(n : K) - ((L : K) - 1) / 2| / ((L : K) / 2)) ∧
    window_function cos M_PI_D data (L : Int) fft_windowing_type.bartlett n =
      data n * (1 - |(n : K) - ((L : K) - 1) / 2| / (((L : K) - 1) / 2)) ∧
    window_function cos M_PI_D data (L : Int) fft_windowing_type.hann n =
      data n * (1 / 2 - 1 / 2 * cos (2 * M_PI_D * (n : K) / ((L : K) - 1))) := by
  have hN2 : ((window_N2 (L : Int) : Nat) : K) = (L : K) - 1 := by
    rw [window_N2_natCast L (by omega) hint, Nat.cast_sub (by omega)]
    simp
  have hLpos : (0 : K) < (L : K) / 2 := by
    have : (0 : K) < (L : K) := by exact_mod_cast (by omega : 0 < L)
    positivity
  have hL1pos : (0 : K) < ((L : K) - 1) / 2 := by
    have : (1 : K) < (L : K) := by exact_mod_cast (by omega : 1 < L)
    have : (0 : K) < (L : K) - 1 := by linarith
    positivity
  refine ⟨?_, ?_, ?_⟩
  · simp only [window_function, if_true, Int.toNat_ofNat, window_loop_apply, if_pos hn,
      triangular_d, hN2, Int.cast_natCast]
    rw [abs_div, abs_of_pos hLpos]
  · have h1 : ¬ (fft_windowing_type.bartlett = fft_windowing_type.triangular) := by decide
    simp only [window_function, if_neg h1, if_true, Int.toNat_ofNat, window_loop_apply,
      if_pos hn, bartlett_d, hN2]
    rw [abs_div, abs_of_pos hL1pos]
  · have h1 : ¬ (fft_windowing_type.hann = fft_windowing_type.triangular) := by decide
    have h2 : ¬ (fft_windowing_type.hann = fft_windowing_type.bartlett) := by decide
    have h3 : ¬ (fft_windowing_type.hann = fft_windowing_type.welch) := by decide
    simp only [window_function, if_neg h1, if_neg h2, if_neg h3, if_true, Int.toNat_ofNat,
      window_loop_apply, if_pos hn, hann_d, hN2]

/-- Witness of C10: length 4, index 1, all samples 2, over the rationals. -/
theorem window_function_closed_form_witness :
    window_function (fun x : ℚ => x) 3 (fun _ => 2) ((4 : Nat) : Int)
        fft_windowing_type.triangular 1 =
      2 * (1 - |((1 : Nat) : ℚ) - (((4 : Nat) : ℚ) - 1) / 2| / (((4 : Nat) : ℚ) / 2)) ∧
    window_function (fun x : ℚ => x) 3 (fun _ => 2) ((4 : Nat) : Int)
        fft_windowing_type.triangular 1 = 3 / 2 :=
  ⟨(window_function_closed_form (fun x : ℚ => x) 3 (fun _ => 2) 4 1 (by decide) (by decide)
      (by decide)).1,
    by
      rw [(window_function_closed_form (fun x : ℚ => x) 3 (fun _ => 2) 4 1 (by decide)
        (by decide) (by decide)).1]
      norm_num [abs_of_neg]⟩

end window_claims

/-! ## Window coefficients: every case of the switch -/

section window_cases

/-- What `window_function` does to the sample at `x`: the first `N` samples
are multiplied by the coefficient of the window, the rest is left. -/
theorem window_function_apply {K : Type} [LinearOrderedField K] (cos : K → K) (M_PI_D : K)
    (data : Nat → K) (N : Int) (type : fft_windowing_type) (x : Nat) :
    window_function cos M_PI_D data N type x =
      if x < N.toNat then data x * window_coefficient cos M_PI_D N type x else data x := by
  unfold window_function window_coefficient
  by_cases h1 : type = fft_windowing_type.triangular
  · simp only [if_pos h1, window_loop_apply]
  simp only [if_neg h1]
  by_cases h2 : type = fft_windowing_type.bartlett
  · simp only [if_pos h2, window_loop_apply]
  simp only [if_neg h2]
  by_cases h3 : type = fft_windowing_type.welch
  · simp only [if_pos h3, window_loop_apply]
    by_cases hx : x < N.toNat
    · simp only [if_pos hx, mul_assoc]
    · simp only [if_neg hx]
  simp only [if_neg h3]
  by_cases h4 : type = fft_windowing_type.hann
  · simp only [if_pos h4, window_loop_apply]
  simp only [if_neg h4]
  by_cases h5 : type = fft_windowing_type.blackmann
  · simp only [if_pos h5, window_loop_apply]
  simp only [if_neg h5]
  by_cases h6 : type = fft_windowing_type.blackmann_exact
  · simp only [if_pos h6, window_loop_apply]
  simp only [if_neg h6]
  by_cases h7 : type = fft_windowing_type.nuttall
  · simp only [if_pos h7, window_loop_apply]
  simp only [if_neg h7]
  by_cases h8 : type = fft_windowing_type.blackmann_nuttall
  · simp only [if_pos h8, window_loop_apply]
  simp only [if_neg h8]
  by_cases h9 : type = fft_windowing_type.blackmann_harris
  · simp only [if_pos h9, window_loop_apply]
  simp only [if_neg h9]
  by_cases h10 : type = fft_windowing_type.flat_top
  · simp only [if_pos h10, window_loop_apply]
  simp only [if_neg h10, mul_one, ite_self]

theorem window_N2_ofNat_succ (m : Nat) (hm : m < 2 ^ 31) :
    window_N2 ((m + 1 : Nat) : Int) = m := by
  unfold window_N2
  omega

theorem real_cos_two_pi_mul_quarter : Real.cos (2 * Real.pi * 16 / 64) = 0 := by
  have h : 2 * Real.pi * 16 / 64 = Real.pi / 2 := by ring
  rw [h, Real.cos_pi_div_two]

/-- C11, the code at a failing input: with length 65 and the welch window the
sample at index 16 of an all-ones buffer becomes 3/8, the welch coefficient
3/4 times the hann coefficient 1/2 of the case the code runs on into, where
the closed form of the claim gives 3/4. -/
theorem welch_runs_on_into_hann :
    window_function Real.cos Real.pi (fun _ => (1 : ℝ)) 65 fft_windowing_type.welch 16 = 3 / 8 ∧
    (1 : ℝ) * (1 - ((16 - (65 - 1) / 2) / ((65 - 1) / 2)) ^ 2) = 3 / 4 ∧
    (1 : ℝ) * (1 - ((16 - (65 - 1) / 2) / ((65 - 1) / 2)) ^ 2) *
      (1 / 2 - 1 / 2 * Real.cos (2 * Real.pi * 16 / (65 - 1))) = 3 / 8 := by
  have hN2 : window_N2 65 = 64 := window_N2_ofNat_succ 64 (by norm_num)
  have hcos : Real.cos (2 * Real.pi * 16 / (65 - 1)) = 0 := by
    rw [← real_cos_two_pi_mul_quarter]
    norm_num
  refine ⟨?_, by norm_num, ?_⟩
  · rw [window_function_apply]
    have hw : fft_windowing_type.welch ≠ fft_windowing_type.triangular := by decide
    have hb : fft_windowing_type.welch ≠ fft_windowing_type.bartlett := by decide
    simp only [window_coefficient, if_neg hw, if_neg hb, if_true, welch_d, hann_d, hN2]
    norm_num [real_cos_two_pi_mul_quarter]
  · rw [hcos]
    norm_num

theorem window_has_no_case_of_outside (t : Int)
    (h : t = -1 ∨ t = -1 ∨ t = 8 ∨ t < 0 ∨ 11 ≤ t) : window_has_no_case t := by
  have : t ≠ 9 ∧ t ≠ 0 ∧ t ≠ 10 ∧ t ≠ 6 ∧ t ≠ 1 ∧ t ≠ 2 ∧ t ≠ 7 ∧ t ≠ 4 ∧ t ≠ 3 ∧ t ≠ 5 := by
    omega
  exact this

/-- C13: `window_function` is the identity on every window identifier that
has no coefficient case, the sentinel `none`/`rectangular`, the table entry
`sine` and every identifier out of the range of the enum: every sample of a
buffer of any length is left unchanged. -/
theorem window_function_identity_without_case {K : Type} [LinearOrderedField K]
    (cos : K → K) (M_PI_D : K) (data : Nat → K) (N : Int) (type : fft_windowing_type)
    (hcase : type = fft_windowing_type.none ∨ type = fft_windowing_type.rectangular ∨
      type = fft_windowing_type.sine ∨ type < 0 ∨ fft_windowing_type.end_fft_enum ≤ type) :
    window_function cos M_PI_D data N type = data := by
  have hno : window_has_no_case type := window_has_no_case_of_outside type hcase
  obtain ⟨h1, h2, h3, h4, h5, h6, h7, h8, h9, h10⟩ := hno
  unfold window_function
  simp only [if_neg h1, if_neg h2, if_neg h3, if_neg h4, if_neg h5, if_neg h6, if_neg h7,
    if_neg h8, if_neg h9, if_neg h10]

/-- Witness of C13: the entry `sine` on a buffer of length 64. -/
theorem window_function_identity_without_case_witness :
    window_function (fun x : ℚ => x) 3 (fun n : Nat => (n : ℚ)) 64 fft_windowing_type.sine =
      fun n : Nat => (n : ℚ) :=
  window_function_identity_without_case (fun x : ℚ => x) 3 (fun n : Nat => (n : ℚ)) 64
    fft_windowing_type.sine (Or.inr (Or.inr (Or.inl rfl)))

theorem window_function_at {K : Type} [LinearOrderedField K] (cos : K → K) (M_PI_D : K)
    (data : Nat → K) (type : fft_windowing_type) (L n : Nat) (hn : n < L) :
    window_function cos M_PI_D data (L : Int) type n =
      data n * window_coefficient cos M_PI_D (L : Int) type n := by
  rw [window_function_apply, Int.toNat_ofNat, if_pos hn]

theorem window_N2_cast {K : Type} [LinearOrderedField K] (L : Nat) (hL : 1 ≤ L)
    (hint : L < 2 ^ 31) : ((window_N2 (L : Int) : Nat) : K) = (L : K) - 1 := by
  rw [window_N2_natCast L hL hint, Nat.cast_sub hL]
  simp

/-- The coefficient of `blackmann_harris` at `n < L`, over the reals. -/
theorem blackmann_harris_at (L n : Nat) (hL : 1 ≤ L) (hint : L < 2 ^ 31) (hn : n < L) :
    window_function Real.cos Real.pi (fun _ => (1 : ℝ)) (L : Int)
        fft_windowing_type.blackmann_harris n =
      35875 / 100000 - 48829 / 100000 * Real.cos (2 * Real.pi * (n : ℝ) / ((L : ℝ) - 1)) +
        14128 / 100000 * Real.cos (4 * Real.pi * (n : ℝ) / ((L : ℝ) - 1)) -
        1168 / 100000 * Real.cos (6 * Real.pi * (n : ℝ) / ((L : ℝ) - 1)) := by
  rw [window_function_at _ _ _ _ L n hn]
  have h1 : fft_windowing_type.blackmann_harris ≠ fft_windowing_type.triangular := by decide
  have h2 : fft_windowing_type.blackmann_harris ≠ fft_windowing_type.bartlett := by decide
  have h3 : fft_windowing_type.blackmann_harris ≠ fft_windowing_type.welch := by decide
  have h4 : fft_windowing_type.blackmann_harris ≠ fft_windowing_type.hann := by decide
  have h5 : fft_windowing_type.blackmann_harris ≠ fft_windowing_type.blackmann := by decide
  have h6 : fft_windowing_type.blackmann_harris ≠ fft_windowing_type.blackmann_exact := by
    decide
  have h7 : fft_windowing_type.blackmann_harris ≠ fft_windowing_type.nuttall := by decide
  have h8 : fft_windowing_type.blackmann_harris ≠ fft_windowing_type.blackmann_nuttall := by
    decide
  simp only [window_coefficient, if_neg h1, if_neg h2, if_neg h3, if_neg h4, if_neg h5,
    if_neg h6, if_neg h7, if_neg h8, if_true, cossum3_d, window_N2_cast L hL hint, one_mul]

/-- C12, as stated, fails: no constants `a0`, `a1`, `a2` make the coefficient
of `blackmann_harris` a three-term cosine sum for every length and index; the
lengths 3, 4 and 5 already rule them out. -/
theorem blackmann_harris_is_not_three_term :
    ¬ ∃ a0 a1 a2 : ℝ, ∀ L n : Nat, 2 ≤ L → n < L →
      window_function Real.cos Real.pi (fun _ => (1 : ℝ)) (L : Int)
          fft_windowing_type.blackmann_harris n =
        1 * (a0 - a1 * Real.cos (2 * Real.pi * (n : ℝ) / ((L : ℝ) - 1)) +
          a2 * Real.cos (4 * Real.pi * (n : ℝ) / ((L : ℝ) - 1))) := by
  rintro ⟨a0, a1, a2, h⟩
  have e1 := h 3 0 (by norm_num) (by norm_num)
  have e2 := h 3 1 (by norm_num) (by norm_num)
  have e3 := h 5 1 (by norm_num) (by norm_num)
  have e4 := h 4 1 (by norm_num) (by norm_num)
  rw [blackmann_harris_at 3 0 (by norm_num) (by norm_num) (by norm_num)] at e1
  rw [blackmann_harris_at 3 1 (by norm_num) (by norm_num) (by norm_num)] at e2
  rw [blackmann_harris_at 5 1 (by norm_num) (by norm_num) (by norm_num)] at e3
  rw [blackmann_harris_at 4 1 (by norm_num) (by norm_num) (by norm_num)] at e4
  -- length 3, index 0: every angle is 0
  have a10 : (2 * Real.pi * ((0 : ℕ) : ℝ) / (((3 : ℕ) : ℝ) - 1)) = 0 := by norm_num
  have a20 : (4 * Real.pi * ((0 : ℕ) : ℝ) / (((3 : ℕ) : ℝ) - 1)) = 0 := by norm_num
  have a30 : (6 * Real.pi * ((0 : ℕ) : ℝ) / (((3 : ℕ) : ℝ) - 1)) = 0 := by norm_num
  rw [a10, a20, a30, Real.cos_zero] at e1
  -- length 3, index 1: the angles π, 2π, 3π
  have b1 : (2 * Real.pi * ((1 : ℕ) : ℝ) / (((3 : ℕ) : ℝ) - 1)) = Real.pi := by
    push_cast; ring
  have b2 : (4 * Real.pi * ((1 : ℕ) : ℝ) / (((3 : ℕ) : ℝ) - 1)) = 2 * Real.pi := by
    push_cast; ring
  have b3 : (6 * Real.pi * ((1 : ℕ) : ℝ) / (((3 : ℕ) : ℝ) - 1)) = Real.pi + 2 * Real.pi := by
    push_cast; ring
  rw [b1, b2, b3, Real.cos_add_two_pi, Real.cos_pi, Real.cos_two_pi] at e2
  -- length 5, index 1: the angles π/2, π, 3π/2
  have c1 : (2 * Real.pi * ((1 : ℕ) : ℝ) / (((5 : ℕ) : ℝ) - 1)) = Real.pi / 2 := by
    push_cast; ring
  have c2 : (4 * Real.pi * ((1 : ℕ) : ℝ) / (((5 : ℕ) : ℝ) - 1)) = Real.pi := by
    push_cast; ring
  have c3 : (6 * Real.pi * ((1 : ℕ) : ℝ) / (((5 : ℕ) : ℝ) - 1)) = Real.pi / 2 + Real.pi := by
    push_cast; ring
  rw [c1, c2, c3, Real.cos_add_pi, Real.cos_pi_div_two, Real.cos_pi] at e3
  -- length 4, index 1: the angles 2π/3, 4π/3, 2π
  have d1 : (2 * Real.pi * ((1 : ℕ) : ℝ) / (((4 : ℕ) : ℝ) - 1)) = Real.pi - Real.pi / 3 := by
    push_cast; ring
  have d2 : (4 * Real.pi * ((1 : ℕ) : ℝ) / (((4 : ℕ) : ℝ) - 1)) = Real.pi / 3 + Real.pi := by
    push_cast; ring
  have d3 : (6 * Real.pi * ((1 : ℕ) : ℝ) / (((4 : ℕ) : ℝ) - 1)) = 2 * Real.pi := by
    push_cast; ring
  rw [d1, d2, d3, Real.cos_pi_sub, Real.cos_add_pi, Real.cos_pi_div_three, Real.cos_two_pi]
    at e4
  linarith

/-- C12, amended: for every `2 ≤ L` and `n < L`, `blackmann` and
`blackmann_exact` multiply `samples[n]` by the three-term cosine sum
`a0 - a1 cos (2 π n / (L-1)) + a2 cos (4 π n / (L-1))`, and
`blackmann_nuttall` and `blackmann_harris` by the four-term sum that adds
`- a3 cos (6 π n / (L-1))`, with constants that depend only on the window and
no 8π or higher harmonic term. -/
theorem blackmann_family_cosine_sums {K : Type} [LinearOrderedField K] (cos : K → K)
    (M_PI_D : K) (data : Nat → K) (L n : Nat) (hL : 2 ≤ L) (hint : L < 2 ^ 31)
    (hn : n < L) :
    window_function cos M_PI_D data (L : Int) fft_windowing_type.blackmann n =
      data n * (42 / 100 - 1 / 2 * cos (2 * M_PI_D * (n : K) / ((L : K) - 1)) +
        8 / 100 * cos (4 * M_PI_D * (n : K) / ((L : K) - 1))) ∧
    window_function cos M_PI_D data (L : Int) fft_windowing_type.blackmann_exact n =
      data n * (7938 / 18608 - 9240 / 18608 * cos (2 * M_PI_D * (n : K) / ((L : K) - 1)) +
        1430 / 18608 * cos (4 * M_PI_D * (n : K) / ((L : K) - 1))) ∧
    window_function cos M_PI_D data (L : Int) fft_windowing_type.blackmann_nuttall n =
      data n * (3635819 / 10000000 -
        4891775 / 10000000 * cos (2 * M_PI_D * (n : K) / ((L : K) - 1)) +
        1365995 / 10000000 * cos (4 * M_PI_D * (n : K) / ((L : K) - 1)) -
        106411 / 10000000 * cos (6 * M_PI_D * (n : K) / ((L : K) - 1))) ∧
    window_function cos M_PI_D data (L : Int) fft_windowing_type.blackmann_harris n =
      data n * (35875 / 100000 - 48829 / 100000 * cos (2 * M_PI_D * (n : K) / ((L : K) - 1)) +
        14128 / 100000 * cos (4 * M_PI_D * (n : K) / ((L : K) - 1)) -
        1168 / 100000 * cos (6 * M_PI_D * (n : K) / ((L : K) - 1))) := by
  have hN2 := window_N2_cast (K := K) L (by omega) hint
  refine ⟨?_, ?_, ?_, ?_⟩
  · rw [window_function_at _ _ _ _ L n hn]
    have h1 : fft_windowing_type.blackmann ≠ fft_windowing_type.triangular := by decide
    have h2 : fft_windowing_type.blackmann ≠ fft_windowing_type.bartlett := by decide
    have h3 : fft_windowing_type.blackmann ≠ fft_windowing_type.welch := by decide
    have h4 : fft_windowing_type.blackmann ≠ fft_windowing_type.hann := by decide
    simp only [window_coefficient, if_neg h1, if_neg h2, if_neg h3, if_neg h4, if_true,
      cossum2_d, hN2]
    norm_num
  · rw [window_function_at _ _ _ _ L n hn]
    have h1 : fft_windowing_type.blackmann_exact ≠ fft_windowing_type.triangular := by decide
    have h2 : fft_windowing_type.blackmann_exact ≠ fft_windowing_type.bartlett := by decide
    have h3 : fft_windowing_type.blackmann_exact ≠ fft_windowing_type.welch := by decide
    have h4 : fft_windowing_type.blackmann_exact ≠ fft_windowing_type.hann := by decide
    have h5 : fft_windowing_type.blackmann_exact ≠ fft_windowing_type.blackmann := by decide
    simp only [window_coefficient, if_neg h1, if_neg h2, if_neg h3, if_neg h4, if_neg h5,
      if_true, cossum2_d, hN2]
  · rw [window_function_at _ _ _ _ L n hn]
    have h1 : fft_windowing_type.blackmann_nuttall ≠ fft_windowing_type.triangular := by decide
    have h2 : fft_windowing_type.blackmann_nuttall ≠ fft_windowing_type.bartlett := by decide
    have h3 : fft_windowing_type.blackmann_nuttall ≠ fft_windowing_type.welch := by decide
    have h4 : fft_windowing_type.blackmann_nuttall ≠ fft_windowing_type.hann := by decide
    have h5 : fft_windowing_type.blackmann_nuttall ≠ fft_windowing_type.blackmann := by decide
    have h6 : fft_windowing_type.blackmann_nuttall ≠ fft_windowing_type.blackmann_exact := by
      decide
    have h7 : fft_windowing_type.blackmann_nuttall ≠ fft_windowing_type.nuttall := by decide
    simp only [window_coefficient, if_neg h1, if_neg h2, if_neg h3, if_neg h4, if_neg h5,
      if_neg h6, if_neg h7, if_true, cossum3_d, hN2]
  · rw [window_function_at _ _ _ _ L n hn]
    have h1 : fft_windowing_type.blackmann_harris ≠ fft_windowing_type.triangular := by decide
    have h2 : fft_windowing_type.blackmann_harris ≠ fft_windowing_type.bartlett := by decide
    have h3 : fft_windowing_type.blackmann_harris ≠ fft_windowing_type.welch := by decide
    have h4 : fft_windowing_type.blackmann_harris ≠ fft_windowing_type.hann := by decide
    have h5 : fft_windowing_type.blackmann_harris ≠ fft_windowing_type.blackmann := by decide
    have h6 : fft_windowing_type.blackmann_harris ≠ fft_windowing_type.blackmann_exact := by
      decide
    have h7 : fft_windowing_type.blackmann_harris ≠ fft_windowing_type.nuttall := by decide
    have h8 : fft_windowing_type.blackmann_harris ≠ fft_windowing_type.blackmann_nuttall := by
      decide
    simp only [window_coefficient, if_neg h1, if_neg h2, if_neg h3, if_neg h4, if_neg h5,
      if_neg h6, if_neg h7, if_neg h8, if_true, cossum3_d, hN2]

/-- Witness of C12, amended: length 4, index 1, samples 2, over the
rationals with a stand-in for the cosine. -/
theorem blackmann_family_cosine_sums_witness :
    window_function (fun x : ℚ => x) 3 (fun _ => 2) ((4 : Nat) : Int)
        fft_windowing_type.blackmann_harris 1 =
      2 * (35875 / 100000 -
        48829 / 100000 * (fun x : ℚ => x) (2 * 3 * ((1 : Nat) : ℚ) / (((4 : Nat) : ℚ) - 1)) +
        14128 / 100000 * (fun x : ℚ => x) (4 * 3 * ((1 : Nat) : ℚ) / (((4 : Nat) : ℚ) - 1)) -
        1168 / 100000 * (fun x : ℚ => x) (6 * 3 * ((1 : Nat) : ℚ) / (((4 : Nat) : ℚ) - 1))) :=
  (blackmann_family_cosine_sums (fun x : ℚ => x) 3 (fun _ => 2) 4 1 (by decide) (by decide)
    (by decide)).2.2.2

end window_cases

/-! ## Window coefficients: symmetry and range over the reals -/

section window_real

theorem real_cos_mirror (k : Nat) (c m x : ℝ) (hc : c = 2 * (k : ℝ)) (hm : m ≠ 0) :
    Real.cos (c * Real.pi * (m - x) / m) = Real.cos (c * Real.pi * x / m) := by
  have h : c * Real.pi * (m - x) / m = (k : ℝ) * (2 * Real.pi) - c * Real.pi * x / m := by
    subst hc
    field_simp
    ring
  rw [h, Real.cos_nat_mul_two_pi_sub]

/-- The index `L - 1 - n` as a real number. -/
theorem mirror_index_cast (L n : Nat) (hn : n < L) :
    ((L - 1 - n : Nat) : ℝ) = ((L : ℝ) - 1) - (n : ℝ) := by
  rw [Nat.cast_sub (by omega), Nat.cast_sub (by omega)]
  simp

theorem triangular_d_mirror (L n : Nat) (hL : 2 ≤ L) (hint : L < 2 ^ 31) (hn : n < L) :
    triangular_d (K := ℝ) (L : Int) (L - 1 - n) = triangular_d (L : Int) n := by
  simp only [triangular_d, window_N2_cast L (by omega) hint, mirror_index_cast L n hn]
  have h : ((L : ℝ) - 1 - (n : ℝ) - ((L : ℝ) - 1) / 2) = -((n : ℝ) - ((L : ℝ) - 1) / 2) := by
    ring
  rw [h, neg_div, abs_neg]

theorem bartlett_d_mirror (L n : Nat) (hL : 2 ≤ L) (hint : L < 2 ^ 31) (hn : n < L) :
    bartlett_d (K := ℝ) (L : Int) (L - 1 - n) = bartlett_d (L : Int) n := by
  simp only [bartlett_d, window_N2_cast L (by omega) hint, mirror_index_cast L n hn]
  have h : ((L : ℝ) - 1 - (n : ℝ) - ((L : ℝ) - 1) / 2) = -((n : ℝ) - ((L : ℝ) - 1) / 2) := by
    ring
  rw [h, neg_div, abs_neg]

theorem welch_d_mirror (L n : Nat) (hL : 2 ≤ L) (hint : L < 2 ^ 31) (hn : n < L) :
    welch_d (K := ℝ) (L : Int) (L - 1 - n) = welch_d (L : Int) n := by
  simp only [welch_d, window_N2_cast L (by omega) hint, mirror_index_cast L n hn]
  have h : ((L : ℝ) - 1 - (n : ℝ) - ((L : ℝ) - 1) / 2) = -((n : ℝ) - ((L : ℝ) - 1) / 2) := by
    ring
  rw [h, neg_div, neg_sq]

theorem harmonic_mirror (k : Nat) (c : ℝ) (hc : c = 2 * (k : ℝ)) (L n : Nat) (hL : 2 ≤ L)
    (hint : L < 2 ^ 31) (hn : n < L) :
    Real.cos (c * Real.pi * ((L - 1 - n : Nat) : ℝ) / ((window_N2 (L : Int) : Nat) : ℝ)) =
      Real.cos (c * Real.pi * (n : ℝ) / ((window_N2 (L : Int) : Nat) : ℝ)) := by
  rw [window_N2_cast L (by omega) hint, mirror_index_cast L n hn]
  have hm : ((L : ℝ) - 1) ≠ 0 := by
    have : (2 : ℝ) ≤ (L : ℝ) := by exact_mod_cast hL
    linarith
  exact real_cos_mirror k c _ _ hc hm

theorem hann_d_mirror (L n : Nat) (hL : 2 ≤ L) (hint : L < 2 ^ 31) (hn : n < L) :
    hann_d Real.cos Real.pi (L : Int) (L - 1 - n) = hann_d Real.cos Real.pi (L : Int) n := by
  simp only [hann_d, harmonic_mirror 1 2 (by norm_num) L n hL hint hn]

theorem cossum2_d_mirror (a0 a1 a2 : ℝ) (L n : Nat) (hL : 2 ≤ L) (hint : L < 2 ^ 31)
    (hn : n < L) :
    cossum2_d Real.cos Real.pi a0 a1 a2 (L : Int) (L - 1 - n) =
      cossum2_d Real.cos Real.pi a0 a1 a2 (L : Int) n := by
  simp only [cossum2_d, harmonic_mirror 1 2 (by norm_num) L n hL hint hn,
    harmonic_mirror 2 4 (by norm_num) L n hL hint hn]

theorem cossum3_d_mirror (a0 a1 a2 a3 : ℝ) (L n : Nat) (hL : 2 ≤ L) (hint : L < 2 ^ 31)
    (hn : n < L) :
    cossum3_d Real.cos Real.pi a0 a1 a2 a3 (L : Int) (L - 1 - n) =
      cossum3_d Real.cos Real.pi a0 a1 a2 a3 (L : Int) n := by
  simp only [cossum3_d, harmonic_mirror 1 2 (by norm_num) L n hL hint hn,
    harmonic_mirror 2 4 (by norm_num) L n hL hint hn,
    harmonic_mirror 3 6 (by norm_num) L n hL hint hn]

theorem cossum4_d_mirror (a0 a1 a2 a3 a4 : ℝ) (L n : Nat) (hL : 2 ≤ L) (hint : L < 2 ^ 31)
    (hn : n < L) :
    cossum4_d Real.cos Real.pi a0 a1 a2 a3 a4 (L : Int) (L - 1 - n) =
      cossum4_d Real.cos Real.pi a0 a1 a2 a3 a4 (L : Int) n := by
  simp only [cossum4_d, harmonic_mirror 1 2 (by norm_num) L n hL hint hn,
    harmonic_mirror 2 4 (by norm_num) L n hL hint hn,
    harmonic_mirror 3 6 (by norm_num) L n hL hint hn,
    harmonic_mirror 4 8 (by norm_num) L n hL hint hn]

theorem window_coefficient_mirror (type : fft_windowing_type) (L n : Nat) (hL : 2 ≤ L)
    (hint : L < 2 ^ 31) (hn : n < L) :
    window_coefficient Real.cos Real.pi (L : Int) type (L - 1 - n) =
      window_coefficient Real.cos Real.pi (L : Int) type n := by
  unfold window_coefficient
  rw [triangular_d_mirror L n hL hint hn, bartlett_d_mirror L n hL hint hn,
    welch_d_mirror L n hL hint hn, hann_d_mirror L n hL hint hn,
    cossum2_d_mirror _ _ _ L n hL hint hn, cossum2_d_mirror _ _ _ L n hL hint hn,
    cossum3_d_mirror _ _ _ _ L n hL hint hn, cossum3_d_mirror _ _ _ _ L n hL hint hn,
    cossum3_d_mirror _ _ _ _ L n hL hint hn, cossum4_d_mirror _ _ _ _ _ L n hL hint hn]

/-- C14: symmetry. For every window identifier, every `2 ≤ L` and every
`n < L`, in real arithmetic the coefficient `window_function` applies at
index `n` equals the one it applies at index `L - 1 - n`: the window applied
to an all-ones buffer gives a palindromic buffer. -/
theorem window_function_symmetric (type : fft_windowing_type) (L n : Nat) (hL : 2 ≤ L)
    (hint : L < 2 ^ 31) (hn : n < L) :
    window_function Real.cos Real.pi (fun _ => (1 : ℝ)) (L : Int) type n =
      window_function Real.cos Real.pi (fun _ => (1 : ℝ)) (L : Int) type (L - 1 - n) := by
  rw [window_function_at _ _ _ _ L n hn, window_function_at _ _ _ _ L (L - 1 - n) (by omega),
    window_coefficient_mirror type L n hL hint hn]

/-- Witness of C14: the hann window of length 64 at the indices 5 and 58. -/
theorem window_function_symmetric_witness :
    window_function Real.cos Real.pi (fun _ => (1 : ℝ)) ((64 : Nat) : Int)
        fft_windowing_type.hann 5 =
      window_function Real.cos Real.pi (fun _ => (1 : ℝ)) ((64 : Nat) : Int)
        fft_windowing_type.hann (64 - 1 - 5) :=
  window_function_symmetric fft_windowing_type.hann 64 5 (by norm_num) (by norm_num)
    (by norm_num)

theorem index_bounds_cast (L n : Nat) (hL : 2 ≤ L) (hn : n < L) :
    (0 : ℝ) ≤ (n : ℝ) ∧ (n : ℝ) ≤ (L : ℝ) - 1 ∧ (0 : ℝ) < (L : ℝ) - 1 := by
  have h1 : (n : ℝ) + 1 ≤ (L : ℝ) := by exact_mod_cast hn
  have h2 : (2 : ℝ) ≤ (L : ℝ) := by exact_mod_cast hL
  exact ⟨Nat.cast_nonneg n, by linarith, by linarith⟩

theorem triangular_d_range (L n : Nat) (hL : 2 ≤ L) (hint : L < 2 ^ 31) (hn : n < L) :
    0 ≤ triangular_d (K := ℝ) (L : Int) n ∧ triangular_d (K := ℝ) (L : Int) n ≤ 1 := by
  obtain ⟨h0, h1, h2⟩ := index_bounds_cast L n hL hn
  simp only [triangular_d, window_N2_cast L (by omega) hint, Int.cast_natCast]
  have hpos : (0 : ℝ) < (L : ℝ) / 2 := by linarith
  have habs : |((n : ℝ) - ((L : ℝ) - 1) / 2) / ((L : ℝ) / 2)| ≤ 1 := by
    rw [abs_le]
    constructor
    · rw [le_div_iff₀ hpos]
      linarith
    · rw [div_le_iff₀ hpos]
      linarith
  exact ⟨by linarith, by linarith [abs_nonneg (((n : ℝ) - ((L : ℝ) - 1) / 2) / ((L : ℝ) / 2))]⟩

theorem bartlett_ratio_abs_le_one (L n : Nat) (hL : 2 ≤ L) (hn : n < L) :
    |((n : ℝ) - ((L : ℝ) - 1) / 2) / (((L : ℝ) - 1) / 2)| ≤ 1 := by
  obtain ⟨h0, h1, h2⟩ := index_bounds_cast L n hL hn
  have hpos : (0 : ℝ) < ((L : ℝ) - 1) / 2 := by linarith
  rw [abs_le]
  constructor
  · rw [le_div_iff₀ hpos]
    linarith
  · rw [div_le_iff₀ hpos]
    linarith

theorem bartlett_d_range (L n : Nat) (hL : 2 ≤ L) (hint : L < 2 ^ 31) (hn : n < L) :
    0 ≤ bartlett_d (K := ℝ) (L : Int) n ∧ bartlett_d (K := ℝ) (L : Int) n ≤ 1 := by
  simp only [bartlett_d, window_N2_cast L (by omega) hint]
  have habs := bartlett_ratio_abs_le_one L n hL hn
  exact ⟨by linarith,
    by linarith [abs_nonneg (((n : ℝ) - ((L : ℝ) - 1) / 2) / (((L : ℝ) - 1) / 2))]⟩

theorem welch_d_range (L n : Nat) (hL : 2 ≤ L) (hint : L < 2 ^ 31) (hn : n < L) :
    0 ≤ welch_d (K := ℝ) (L : Int) n ∧ welch_d (K := ℝ) (L : Int) n ≤ 1 := by
  simp only [welch_d, window_N2_cast L (by omega) hint]
  have habs := abs_le.mp (bartlett_ratio_abs_le_one L n hL hn)
  constructor
  · nlinarith [habs.1, habs.2]
  · nlinarith [sq_nonneg (((n : ℝ) - ((L : ℝ) - 1) / 2) / (((L : ℝ) - 1) / 2))]

theorem hann_d_range (N : Int) (n : Nat) :
    0 ≤ hann_d Real.cos Real.pi N n ∧ hann_d Real.cos Real.pi N n ≤ 1 := by
  simp only [hann_d]
  constructor
  · linarith [Real.cos_le_one (2 * Real.pi * (n : ℝ) / ((window_N2 N : Nat) : ℝ))]
  · linarith [Real.neg_one_le_cos (2 * Real.pi * (n : ℝ) / ((window_N2 N : Nat) : ℝ))]

/-- C15: range. For each of the windows triangular, bartlett, welch and hann,
every `2 ≤ L` and every `n < L`, in real arithmetic `window_function` applied
to an all-ones buffer of length `L` leaves a value in `[0, 1]` at index `n`. -/
theorem window_function_range (type : fft_windowing_type) (L n : Nat) (hL : 2 ≤ L)
    (hint : L < 2 ^ 31) (hn : n < L)
    (htype : type = fft_windowing_type.triangular ∨ type = fft_windowing_type.bartlett ∨
      type = fft_windowing_type.welch ∨ type = fft_windowing_type.hann) :
    0 ≤ window_function Real.cos Real.pi (fun _ => (1 : ℝ)) (L : Int) type n ∧
    window_function Real.cos Real.pi (fun _ => (1 : ℝ)) (L : Int) type n ≤ 1 := by
  rw [window_function_at _ _ _ _ L n hn, one_mul]
  rcases htype with h | h | h | h
  · subst h
    simp only [window_coefficient, if_true]
    exact triangular_d_range L n hL hint hn
  · subst h
    have h1 : fft_windowing_type.bartlett ≠ fft_windowing_type.triangular := by decide
    simp only [window_coefficient, if_neg h1, if_true]
    exact bartlett_d_range L n hL hint hn
  · subst h
    have h1 : fft_windowing_type.welch ≠ fft_windowing_type.triangular := by decide
    have h2 : fft_windowing_type.welch ≠ fft_windowing_type.bartlett := by decide
    simp only [window_coefficient, if_neg h1, if_neg h2, if_true]
    obtain ⟨w0, w1⟩ := welch_d_range L n hL hint hn
    obtain ⟨c0, c1⟩ := hann_d_range (L : Int) n
    exact ⟨mul_nonneg w0 c0, by nlinarith [mul_nonneg w0 (sub_nonneg.mpr c1)]⟩
  · subst h
    have h1 : fft_windowing_type.hann ≠ fft_windowing_type.triangular := by decide
    have h2 : fft_windowing_type.hann ≠ fft_windowing_type.bartlett := by decide
    have h3 : fft_windowing_type.hann ≠ fft_windowing_type.welch := by decide
    simp only [window_coefficient, if_neg h1, if_neg h2, if_neg h3, if_true]
    exact hann_d_range (L : Int) n

/-- Witness of C15: the welch window of length 64 at index 5. -/
theorem window_function_range_witness :
    0 ≤ window_function Real.cos Real.pi (fun _ => (1 : ℝ)) ((64 : Nat) : Int)
        fft_windowing_type.welch 5 ∧
    window_function Real.cos Real.pi (fun _ => (1 : ℝ)) ((64 : Nat) : Int)
        fft_windowing_type.welch 5 ≤ 1 :=
  window_function_range fft_windowing_type.welch 64 5 (by norm_num) (by norm_num)
    (by norm_num) (Or.inr (Or.inr (Or.inl rfl)))

end window_real

/-! ## Window coefficients: the lengths 0 and 1 -/

section window_degenerate

theorem window_N2_one : window_N2 1 = 0 := by
  unfold window_N2
  omega

/-- C16, as stated, fails: on a buffer of length 1 the hann window evaluates
`(2.0 * M_PI_D * n) / N2` with `N2 = L - 1 = 0`, a division whose divisor is
zero; so do bartlett and the cosine sums. -/
theorem window_length_one_divides_by_zero :
    window_N2 1 = 0 ∧
    (0 : ℚ) ∈ window_divisors 1 fft_windowing_type.hann ∧
    (0 : ℚ) ∈ window_divisors 1 fft_windowing_type.bartlett ∧
    (0 : ℚ) ∈ window_divisors 1 fft_windowing_type.flat_top := by
  refine ⟨window_N2_one, ?_, ?_, ?_⟩ <;>
    simp [window_divisors, window_N2_one, fft_windowing_type.hann,
      fft_windowing_type.bartlett, fft_windowing_type.flat_top,
      fft_windowing_type.triangular, fft_windowing_type.welch,
      fft_windowing_type.blackmann, fft_windowing_type.blackmann_exact,
      fft_windowing_type.nuttall, fft_windowing_type.blackmann_nuttall,
      fft_windowing_type.blackmann_harris]

theorem window_divisors_zero_length {K : Type} [LinearOrderedField K]
    (type : fft_windowing_type) : (0 : K) ∉ window_divisors 0 type := by
  unfold window_divisors
  simp only [lt_irrefl, if_false, List.append_nil, List.nil_append]
  split_ifs <;> norm_num

theorem window_divisors_one_zero_mem {K : Type} [LinearOrderedField K]
    (type : fft_windowing_type) (ht : type ≠ fft_windowing_type.triangular)
    (hcase : ¬ window_has_no_case type) : (0 : K) ∈ window_divisors 1 type := by
  unfold window_divisors
  simp only [window_N2_one, Nat.cast_zero, zero_div, zero_lt_one, if_true, if_neg ht]
  by_cases h2 : type = fft_windowing_type.bartlett
  · simp [if_pos h2]
  by_cases h3 : type = fft_windowing_type.welch
  · simp [if_neg h2, if_pos h3]
  by_cases h4 : type = fft_windowing_type.hann
  · simp [if_neg h2, if_neg h3, if_pos h4]
  by_cases h5 : type = fft_windowing_type.blackmann
  · simp [if_neg h2, if_neg h3, if_neg h4, if_pos h5]
  by_cases h6 : type = fft_windowing_type.blackmann_exact
  · simp [if_neg h2, if_neg h3, if_neg h4, if_neg h5, if_pos h6]
  by_cases h7 : type = fft_windowing_type.nuttall
  · simp [if_neg h2, if_neg h3, if_neg h4, if_neg h5, if_neg h6, if_pos h7]
  by_cases h8 : type = fft_windowing_type.blackmann_nuttall
  · simp [if_neg h2, if_neg h3, if_neg h4, if_neg h5, if_neg h6, if_neg h7, if_pos h8]
  by_cases h9 : type = fft_windowing_type.blackmann_harris
  · simp [if_neg h2, if_neg h3, if_neg h4, if_neg h5, if_neg h6, if_neg h7, if_neg h8,
      if_pos h9]
  by_cases h10 : type = fft_windowing_type.flat_top
  · simp [if_neg h2, if_neg h3, if_neg h4, if_neg h5, if_neg h6, if_neg h7, if_neg h8,
      if_neg h9, if_pos h10]
  exact absurd ⟨ht, h2, h3, h4, h5, h6, h7, h8, h9, h10⟩ hcase

/-- C16, amended: on a buffer of length 0 every window identifier leaves the
buffer unchanged and no division by zero is evaluated; on a buffer of length
1 the same holds for `triangular` and for the identifiers with no coefficient
case, while every other window (bartlett, welch, hann and the cosine sums)
evaluates a division by `L - 1 = 0`. -/
theorem window_function_degenerate_lengths {K : Type} [LinearOrderedField K] (cos : K → K)
    (M_PI_D : K) (data : Nat → K) (type : fft_windowing_type) :
    (window_function cos M_PI_D data 0 type = data ∧ (0 : K) ∉ window_divisors 0 type) ∧
    (type = fft_windowing_type.triangular ∨ window_has_no_case type →
      window_function cos M_PI_D data 1 type = data ∧ (0 : K) ∉ window_divisors 1 type) ∧
    (type ≠ fft_windowing_type.triangular ∧ ¬ window_has_no_case type →
      (0 : K) ∈ window_divisors (K := K) 1 type) := by
  refine ⟨⟨?_, window_divisors_zero_length type⟩, ?_, ?_⟩
  · funext x
    rw [window_function_apply]
    simp
  · rintro (h | h)
    · subst h
      constructor
      · funext x
        rw [window_function_apply]
        by_cases hx : x < (1 : Int).toNat
        · have hx0 : x = 0 := by
            have : (1 : Int).toNat = 1 := rfl
            omega
          subst hx0
          simp [window_coefficient, triangular_d, window_N2_one]
        · rw [if_neg hx]
      · simp [window_divisors]
    · obtain ⟨h1, h2, h3, h4, h5, h6, h7, h8, h9, h10⟩ := h
      constructor
      · unfold window_function
        simp only [if_neg h1, if_neg h2, if_neg h3, if_neg h4, if_neg h5, if_neg h6,
          if_neg h7, if_neg h8, if_neg h9, if_neg h10]
      · unfold window_divisors
        simp only [if_neg h1, if_neg h2, if_neg h3, if_neg h4, if_neg h5, if_neg h6,
          if_neg h7, if_neg h8, if_neg h9, if_neg h10]
        simp
  · rintro ⟨ht, hcase⟩
    exact window_divisors_one_zero_mem type ht hcase

/-- Witness of C16, amended: the triangular window on a buffer of length 1
and the hann window on a buffer of length 1, over the rationals. -/
theorem window_function_degenerate_lengths_witness :
    (window_function (fun x : ℚ => x) 3 (fun _ => 5) 1 fft_windowing_type.triangular =
        (fun _ => 5) ∧
      (0 : ℚ) ∉ window_divisors 1 fft_windowing_type.triangular) ∧
    (0 : ℚ) ∈ window_divisors 1 fft_windowing_type.hann :=
  ⟨(window_function_degenerate_lengths (fun x : ℚ => x) 3 (fun _ => 5)
      fft_windowing_type.triangular).2.1 (Or.inl rfl),
    (window_function_degenerate_lengths (fun x : ℚ => x) 3 (fun _ => 5)
      fft_windowing_type.hann).2.2 ⟨by decide, by decide⟩⟩

end window_degenerate

/-! ## Spectrum assembler -/

section spectrum_lemmas

/-- The transforms of the first `c` channels leave every index outside their
ranges `[i * samples, i * samples + 2 ^ l)` as it was. -/
theorem process_audio_fft_outside {K : Type} (rdft : Nat → (Nat → K) → (Nat → K))
    (buf : Nat → K) (samples : Nat) :
    ∀ (c x : Nat),
      (∀ i, i < c → ¬ (i * samples ≤ x ∧ x < i * samples + 2 ^ Nat.clog 2 (samples % 2 ^ 32))) →
      process_audio_fft rdft buf samples c x = buf x := by
  intro c
  induction c with
  | zero => intro x _; rfl
  | succ c ih =>
    intro x hx
    have hc := hx c (by omega)
    have hrest := ih x (fun i hi => hx i (by omega))
    unfold process_audio_fft at hrest ⊢
    simp only [for_loop, audio_fft_complex]
    rw [if_neg hc]
    exact hrest

/-- After the whole first loop the first `samples` values of channel `i` are
those the transform of channel `i` left there. -/
theorem process_audio_fft_output {K : Type} (rdft : Nat → (Nat → K) → (Nat → K))
    (buf : Nat → K) (samples : Nat) (hw : samples < 2 ^ 32) :
    ∀ (n i t : Nat), i < n → t < samples →
      process_audio_fft rdft buf samples n (i * samples + t) =
        rdft (Nat.clog 2 samples)
          (fun u => process_audio_fft rdft buf samples i (i * samples + u)) t := by
  have hmod : samples % 2 ^ 32 = samples := Nat.mod_eq_of_lt hw
  intro n
  induction n with
  | zero => intro i t hi; omega
  | succ n ih =>
    intro i t hi ht
    have hpow : samples ≤ 2 ^ Nat.clog 2 samples := Nat.le_pow_clog (by norm_num) samples
    by_cases hin : i = n
    · subst hin
      show audio_fft_complex rdft (process_audio_fft rdft buf samples i) (i * samples)
        (samples % 2 ^ 32) (i * samples + t) = _
      simp only [audio_fft_complex, hmod]
      rw [if_pos ⟨by omega, by omega⟩]
      congr 1
      omega
    · have hlt : i < n := by omega
      show audio_fft_complex rdft (process_audio_fft rdft buf samples n) (n * samples)
        (samples % 2 ^ 32) (i * samples + t) = _
      simp only [audio_fft_complex]
      have hle : (i + 1) * samples ≤ n * samples := Nat.mul_le_mul_right samples hlt
      rw [Nat.add_mul, Nat.one_mul] at hle
      rw [if_neg (by omega)]
      exact ih i t hlt ht

/-- The packing loop: afterwards the first half of channel `i` sits at
`[i * h, i * h + h)`, for every channel. -/
theorem process_audio_pack_rows {K : Type} (buf : Nat → K) (samples : Nat) :
    ∀ (m : Nat),
      (∀ i t, i ≤ m → t < samples / 2 →
        for_loop
          (fun i b => memcpy_floats b ((i + 1) * (samples / 2)) ((i + 1) * samples)
            (samples * 2)) m buf (i * (samples / 2) + t) = buf (i * samples + t)) ∧
      (∀ x, (m + 1) * (samples / 2) ≤ x →
        for_loop
          (fun i b => memcpy_floats b ((i + 1) * (samples / 2)) ((i + 1) * samples)
            (samples * 2)) m buf x = buf x) := by
  have hcnt : samples * 2 / sizeof_float = samples / 2 := by
    simp only [sizeof_float]
    omega
  intro m
  induction m with
  | zero =>
    constructor
    · intro i t hi _
      have : i = 0 := by omega
      subst this
      simp [for_loop]
    · intro x _
      rfl
  | succ m ih =>
    obtain ⟨ih1, ih2⟩ := ih
    constructor
    · intro i t hi ht
      simp only [for_loop, memcpy_floats, hcnt]
      by_cases him : i = m + 1
      · subst him
        rw [if_pos ⟨by omega, by omega⟩]
        have hsrc : (m + 1) * (samples / 2) ≤ (m + 1) * samples + (t) :=
          le_trans (Nat.mul_le_mul_left _ (Nat.div_le_self samples 2)) (Nat.le_add_right _ _)
        rw [ih2 _ (by omega)]
        congr 1
        omega
      · have hlt : i ≤ m := by omega
        have hle : (i + 1) * (samples / 2) ≤ (m + 1) * (samples / 2) :=
          Nat.mul_le_mul_right _ (by omega)
        rw [Nat.add_mul, Nat.one_mul] at hle
        rw [if_neg (by omega)]
        exact ih1 i t hlt ht
    · intro x hx
      simp only [for_loop, memcpy_floats, hcnt]
      have hexp : (m + 1 + 1) * (samples / 2) = (m + 1) * (samples / 2) + samples / 2 := by
        rw [Nat.add_mul, Nat.one_mul]
      rw [if_neg (by omega)]
      exact ih2 x (by omega)

/-- The packed array: row `i` of the packed matrix is the first half of
channel `i`. -/
theorem process_audio_pack_apply {K : Type} (buf : Nat → K) (samples n i t : Nat)
    (hi : i < n) (ht : t < samples / 2) :
    process_audio_pack buf samples n (i * (samples / 2) + t) = buf (i * samples + t) := by
  unfold process_audio_pack
  exact (process_audio_pack_rows buf samples (n - 1)).1 i t (by omega) ht

/-- The periodogram step, value by value. -/
theorem process_audio_psd_apply {K : Type} [LinearOrderedField K] (log10 : K → K) (M_PI_D : K)
    (buf : Nat → K) (samples n : Nat) (is_psd : Bool) (x : Nat) :
    process_audio_psd log10 M_PI_D buf samples n is_psd x =
      if is_psd = true ∧ x < samples / 2 * n then
        10 * log10 ((1 / (2 * M_PI_D * (samples : K))) * buf x ^ 2)
      else buf x := by
  unfold process_audio_psd
  cases is_psd with
  | false => simp
  | true =>
    simp only [if_true, true_and]
    exact for_loop_update
      (fun _ v => 10 * log10 ((1 / (2 * M_PI_D * (samples : K))) * v ^ 2))
      (samples / 2 * n) buf x

theorem for_loop_sum {K : Type} [LinearOrderedField K] (f : Nat → K) (m : Nat) :
    for_loop (fun k (acc : K) => acc + f k) m 0 = ∑ k in Finset.range m, f k := by
  induction m with
  | zero => simp [for_loop]
  | succ m ih => simp [for_loop, ih, Finset.sum_range_succ]

theorem process_audio_bin_sum_eq {K : Type} [LinearOrderedField K] (buf : Nat → K)
    (i j h bw : Nat) :
    process_audio_bin_sum buf i j h bw = ∑ k in Finset.range bw, buf (k + i * h + j * bw) := by
  unfold process_audio_bin_sum
  exact for_loop_sum (fun k => buf (k + i * h + j * bw)) bw

/-- Every read of the bin `(i, j)` lies at or after the index the bin is
written to. -/
theorem bin_read_index_ge (h fb bw i j k : Nat) (hfb : fb ≤ h) (hbw : 1 ≤ bw) :
    i * fb + j ≤ k + i * h + j * bw := by
  have h1 : i * fb ≤ i * h := Nat.mul_le_mul_left i hfb
  have h2 : j * 1 ≤ j * bw := Nat.mul_le_mul_left j hbw
  omega

/-- The loop over `j` for channel `i`, started on an array `b0`. -/
theorem process_audio_bins_row {K : Type} [LinearOrderedField K] (b0 : Nat → K)
    (h fb bw i : Nat) (hfb : fb ≤ h) (hbw : 1 ≤ bw) :
    ∀ m : Nat,
      (∀ x, i * fb + m ≤ x →
        for_loop
          (fun j b =>
            Function.update b (i * fb + j) (process_audio_bin_sum b i j h bw / (bw : K)))
          m b0 x = b0 x) ∧
      (∀ x, x < i * fb →
        for_loop
          (fun j b =>
            Function.update b (i * fb + j) (process_audio_bin_sum b i j h bw / (bw : K)))
          m b0 x = b0 x) ∧
      (∀ j, j < m →
        for_loop
          (fun j b =>
            Function.update b (i * fb + j) (process_audio_bin_sum b i j h bw / (bw : K)))
          m b0 (i * fb + j) =
          (∑ k in Finset.range bw, b0 (k + i * h + j * bw)) / (bw : K)) := by
  intro m
  induction m with
  | zero =>
    exact ⟨fun x _ => rfl, fun x _ => rfl, fun j hj => absurd hj (by omega)⟩
  | succ m ih =>
    obtain ⟨ih1, ih2, ih3⟩ := ih
    refine ⟨?_, ?_, ?_⟩
    · intro x hx
      simp only [for_loop]
      rw [Function.update_noteq (by omega)]
      exact ih1 x (by omega)
    · intro x hx
      simp only [for_loop]
      rw [Function.update_noteq (by omega)]
      exact ih2 x hx
    · intro j hj
      simp only [for_loop]
      by_cases hjm : j = m
      · subst hjm
        rw [Function.update_same, process_audio_bin_sum_eq]
        congr 1
        apply Finset.sum_congr rfl
        intro k _
        exact ih1 _ (bin_read_index_ge h fb bw i j k hfb hbw)
      · rw [Function.update_noteq (by omega)]
        exact ih3 j (by omega)

/-- The averaging step: bin `(i, j)` ends as the mean of the values that were
at its `bin_width` positions before the step started, and nothing from
`num_channels * fft_bins` on is written. -/
theorem process_audio_bins_apply {K : Type} [LinearOrderedField K] (buf : Nat → K)
    (h fb : Nat) (hfb : fb ≤ h) (hbw : 1 ≤ h / fb) :
    ∀ n : Nat,
      (∀ x, n * fb ≤ x → process_audio_bins buf h fb n x = buf x) ∧
      (∀ i j, i < n → j < fb →
        process_audio_bins buf h fb n (i * fb + j) =
          (∑ k in Finset.range (h / fb), buf (k + i * h + j * (h / fb))) /
            ((h / fb : Nat) : K)) := by
  intro n
  unfold process_audio_bins
  induction n with
  | zero =>
    exact ⟨fun x _ => rfl, fun i j hi _ => absurd hi (by omega)⟩
  | succ n ih =>
    obtain ⟨ih1, ih2⟩ := ih
    have hrow := process_audio_bins_row
      (for_loop
        (fun i b =>
          for_loop
            (fun j b =>
              Function.update b (i * fb + j)
                (process_audio_bin_sum b i j h (h / fb) / ((h / fb : Nat) : K)))
            fb b)
        n buf) h fb (h / fb) n hfb hbw fb
    obtain ⟨r1, r2, r3⟩ := hrow
    have hexp : (n + 1) * fb = n * fb + fb := by rw [Nat.add_mul, Nat.one_mul]
    constructor
    · intro x hx
      simp only [for_loop]
      rw [r1 x (by omega)]
      exact ih1 x (by omega)
    · intro i j hi hj
      simp only [for_loop]
      by_cases hin : i = n
      · subst hin
        rw [r3 j hj]
        congr 1
        apply Finset.sum_congr rfl
        intro k _
        exact ih1 _ (by
          have := bin_read_index_ge h fb (h / fb) i j k hfb hbw
          omega)
      · have hlt : i < n := by omega
        have hle : (i + 1) * fb ≤ n * fb := Nat.mul_le_mul_right fb hlt
        rw [Nat.add_mul, Nat.one_mul] at hle
        rw [r2 _ (by omega)]
        exact ih2 i j hlt hj

end spectrum_lemmas

section spectrum_claims

theorem resize_audio_buffers_fields {α : Type} (param : effect_param_data α) (samples : Nat) :
    (resize_audio_buffers param samples).sidechain_data = param.sidechain_data ∧
    (resize_audio_buffers param samples).num_channels = param.num_channels ∧
    (resize_audio_buffers param samples).sidechain_buf = param.sidechain_buf ∧
    (resize_audio_buffers param samples).window = param.window := by
  unfold resize_audio_buffers
  split <;> exact ⟨rfl, rfl, rfl, rfl⟩


theorem process_audio_fft_zero {K : Type} (rdft : Nat → (Nat → K) → (Nat → K))
    (buf : Nat → K) (samples : Nat) : process_audio_fft rdft buf samples 0 = buf := rfl

theorem nat_clog_two_64 : Nat.clog 2 (64 % 2 ^ 32) = 6 := by
  have h : (64 % 2 ^ 32 : Nat) = 2 ^ 6 := by norm_num
  rw [h]
  exact Nat.clog_pow 2 6 (by norm_num)


theorem get_sidechain_data_window {α : Type} [Zero α] (param : effect_param_data α)
    (num_samples : Nat) : (get_sidechain_data param num_samples).window = param.window := by
  unfold get_sidechain_data
  simp only
  split
  · rfl
  · split <;> split <;> rfl


theorem two_channels_of_ones_peek (c : Nat) (hc : c < 2) (n : Nat) (hn : n < 64) :
    (get_sidechain_data (resize_audio_buffers two_channels_of_ones AUDIO_OUTPUT_FRAMES)
      64).sidechain_buf (64 * c + n) = 1 := by
  obtain ⟨hd, hch, _, _⟩ := resize_audio_buffers_fields two_channels_of_ones AUDIO_OUTPUT_FRAMES
  have hslots : ∀ i, (two_channels_of_ones.sidechain_data i).slots = List.replicate 64 1 :=
    fun _ => rfl
  have hnum : two_channels_of_ones.num_channels = 2 := rfl
  have henough : 64 ≤ ((resize_audio_buffers two_channels_of_ones
      AUDIO_OUTPUT_FRAMES).sidechain_data 0).slots.length := by
    rw [hd, hslots, List.length_replicate]
  have hpeek := (get_sidechain_data_peek _ 64 henough).1 c n (by rw [hch, hnum]; exact hc) hn
  rw [hpeek, hd, hslots, List.getD_eq_getElem _ _ (by rw [List.length_replicate]; exact hn),
    List.getElem_replicate]


/-- C17, the code at a failing input: two channels that each buffer 64
samples of value 1, window length 64, bartlett window, whose coefficient at
`n = 0` is 0. The peeked sample of channel 1 at `n = 0` is 1, and the
transform of channel 1 receives 1 at snapshot index `64`, not `1 * w(0) = 0`:
`window_function` is called once, on the first `samples` floats, so only
channel 0 is windowed (its transform receives `0` at index 0). -/
theorem window_is_applied_to_channel_zero_only :
    ∀ (cos : ℚ → ℚ) (M_PI_D : ℚ) (rdft : Nat → (Nat → ℚ) → (Nat → ℚ)),
      (get_sidechain_data (resize_audio_buffers two_channels_of_ones AUDIO_OUTPUT_FRAMES)
        64).sidechain_buf (64 * 1 + 0) = 1 ∧
      window_coefficient cos M_PI_D 64 fft_windowing_type.bartlett 0 = 0 ∧
      transform_input cos M_PI_D rdft two_channels_of_ones 1 (64 * 1 + 0) = 1 ∧
      transform_input cos M_PI_D rdft two_channels_of_ones 0 (64 * 0 + 0) = 0 := by
  intro cos M_PI_D rdft
  have hN2 : window_N2 64 = 63 := window_N2_ofNat_succ 63 (by norm_num)
  have hw0 : window_coefficient cos M_PI_D 64 fft_windowing_type.bartlett 0 = 0 := by
    have h1 : fft_windowing_type.bartlett ≠ fft_windowing_type.triangular := by decide
    simp only [window_coefficient, if_neg h1, if_true, bartlett_d, hN2]
    norm_num [abs_of_neg]
  have hsamples : two_channels_of_ones.fft_samples = 64 := rfl
  have hwin : (get_sidechain_data
      (resize_audio_buffers two_channels_of_ones AUDIO_OUTPUT_FRAMES) 64).window =
      fft_windowing_type.bartlett := by
    rw [get_sidechain_data_window, (resize_audio_buffers_fields _ _).2.2.2]
    rfl
  refine ⟨two_channels_of_ones_peek 1 (by norm_num) 0 (by norm_num), hw0, ?_, ?_⟩
  · unfold transform_input
    rw [hsamples, process_audio_fft_outside]
    · simp only [render_audio_window]
      rw [window_function_apply]
      have hnot : ¬ (64 * 1 + 0 < ((64 : Nat) : Int).toNat) := by simp
      rw [if_neg hnot]
      exact two_channels_of_ones_peek 1 (by norm_num) 0 (by norm_num)
    · intro i hi
      have hi0 : i = 0 := by omega
      subst hi0
      rw [nat_clog_two_64]
      norm_num
  · have hlt : 64 * 0 + 0 < ((64 : Nat) : Int).toNat := by
      rw [Int.toNat_ofNat]
      norm_num
    have hc : window_coefficient cos M_PI_D ((64 : Nat) : Int) fft_windowing_type.bartlett
        (64 * 0 + 0) = 0 := hw0
    unfold transform_input
    rw [hsamples, process_audio_fft_zero]
    simp only [render_audio_window]
    rw [window_function_apply, if_pos hlt, hwin, hc, mul_zero]

/-- C18: bin averaging. For every channel count, every `samples` with
`h = samples / 2` and every bin count `1 ≤ fft_bins < h`, `process_audio`
returns `fft_bins` and leaves at index `i * fft_bins + j` the arithmetic mean
of the `bin_width = h / fft_bins` retained values of channel `i` at positions
`j * bin_width .. (j + 1) * bin_width - 1`, as they were before the averaging
started; an array that agrees with the retained values at the positions below
`fft_bins * bin_width` of every channel gives the same bin. -/
theorem process_audio_bin_averaging {K : Type} [LinearOrderedField K]
    (rdft : Nat → (Nat → K) → (Nat → K)) (log10 : K → K) (M_PI_D : K)
    (param : effect_param_data K) (samples i j : Nat) (hw : samples < 2 ^ 32)
    (hb1 : 1 ≤ param.fft_bins) (hb2 : param.fft_bins < samples / 2)
    (hi : i < param.num_channels) (hj : j < param.fft_bins) :
    (process_audio rdft log10 M_PI_D param samples).map Prod.snd = some param.fft_bins ∧
    (process_audio rdft log10 M_PI_D param samples).map
        (fun out => out.1.sidechain_buf (i * param.fft_bins + j)) =
      some ((∑ k in Finset.range (samples / 2 / param.fft_bins),
        process_audio_retained rdft log10 M_PI_D param samples
          (k + i * (samples / 2) + j * (samples / 2 / param.fft_bins))) /
        ((samples / 2 / param.fft_bins : Nat) : K)) ∧
    (∀ other : Nat → K,
      (∀ c t, c < param.num_channels → t < param.fft_bins * (samples / 2 / param.fft_bins) →
        other (c * (samples / 2) + t) =
          process_audio_retained rdft log10 M_PI_D param samples (c * (samples / 2) + t)) →
      some (process_audio_bins other (samples / 2) param.fft_bins param.num_channels
          (i * param.fft_bins + j)) =
        (process_audio rdft log10 M_PI_D param samples).map
          (fun out => out.1.sidechain_buf (i * param.fft_bins + j))) := by
  have hbw : 1 ≤ samples / 2 / param.fft_bins := Nat.div_pos (le_of_lt hb2) hb1
  have hmean : ∀ buf : Nat → K,
      process_audio_bins buf (samples / 2) param.fft_bins param.num_channels
          (i * param.fft_bins + j) =
        (∑ k in Finset.range (samples / 2 / param.fft_bins),
          buf (k + i * (samples / 2) + j * (samples / 2 / param.fft_bins))) /
          ((samples / 2 / param.fft_bins : Nat) : K) :=
    fun buf => (process_audio_bins_apply buf (samples / 2) param.fft_bins (le_of_lt hb2) hbw
      param.num_channels).2 i j hi hj
  have hne : ¬ param.fft_bins = 0 := by omega
  have hout : (process_audio rdft log10 M_PI_D param samples).map
        (fun out => out.1.sidechain_buf (i * param.fft_bins + j)) =
      some (process_audio_bins (process_audio_retained rdft log10 M_PI_D param samples)
        (samples / 2) param.fft_bins param.num_channels (i * param.fft_bins + j)) := by
    unfold process_audio
    simp only [if_pos hb2, if_neg hne, Option.map_some']
  refine ⟨?_, ?_, ?_⟩
  · unfold process_audio
    simp only [if_pos hb2, if_neg hne, Option.map_some']
    congr 1
    apply Nat.mod_eq_of_lt
    omega
  · rw [hout, hmean]
  · intro other hagree
    rw [hout, hmean, hmean]
    congr 2
    apply Finset.sum_congr rfl
    intro k hk
    have hk2 : k < samples / 2 / param.fft_bins := Finset.mem_range.mp hk
    have hpos : k + j * (samples / 2 / param.fft_bins) <
        param.fft_bins * (samples / 2 / param.fft_bins) := by
      have h1 : (j + 1) * (samples / 2 / param.fft_bins) ≤
          param.fft_bins * (samples / 2 / param.fft_bins) := Nat.mul_le_mul_right _ hj
      rw [Nat.add_mul, Nat.one_mul] at h1
      omega
    have := hagree i (k + j * (samples / 2 / param.fft_bins)) hi hpos
    have e : k + i * (samples / 2) + j * (samples / 2 / param.fft_bins) =
        i * (samples / 2) + (k + j * (samples / 2 / param.fft_bins)) := by omega
    rw [e]
    exact this

theorem one_channel_ramp_retained (x : Nat) :
    process_audio_retained (fun _ s => s) (fun v : ℚ => v) 3 one_channel_ramp 16 x = (x : ℚ) := by
  simp [process_audio_retained, process_audio_psd, process_audio_pack, process_audio_fft,
    for_loop, audio_fft_complex, one_channel_ramp, empty_binding]

/-- Witness of C18: the spectrum 0, 1, .., 7 (window length 16, one channel)
and four bins give 0.5, 2.5, 4.5, 6.5. -/
theorem process_audio_bin_averaging_witness :
    (process_audio (fun _ s => s) (fun v : ℚ => v) 3 one_channel_ramp 16).map Prod.snd =
      some 4 ∧
    (process_audio (fun _ s => s) (fun v : ℚ => v) 3 one_channel_ramp 16).map
      (fun out => out.1.sidechain_buf (0 * one_channel_ramp.fft_bins + 0)) = some (1 / 2) ∧
    (process_audio (fun _ s => s) (fun v : ℚ => v) 3 one_channel_ramp 16).map
      (fun out => out.1.sidechain_buf (0 * one_channel_ramp.fft_bins + 1)) = some (5 / 2) ∧
    (process_audio (fun _ s => s) (fun v : ℚ => v) 3 one_channel_ramp 16).map
      (fun out => out.1.sidechain_buf (0 * one_channel_ramp.fft_bins + 2)) = some (9 / 2) ∧
    (process_audio (fun _ s => s) (fun v : ℚ => v) 3 one_channel_ramp 16).map
      (fun out => out.1.sidechain_buf (0 * one_channel_ramp.fft_bins + 3)) = some (13 / 2) := by
  have hb : one_channel_ramp.fft_bins = 4 := rfl
  refine ⟨(process_audio_bin_averaging (fun _ s => s) (fun v : ℚ => v) 3 one_channel_ramp 16
      0 0 (by norm_num) (by decide) (by decide) (by decide) (by decide)).1, ?_, ?_, ?_, ?_⟩
  · rw [(process_audio_bin_averaging (fun _ s => s) (fun v : ℚ => v) 3 one_channel_ramp 16
      0 0 (by norm_num) (by decide) (by decide) (by decide) (by decide)).2.1]
    simp only [one_channel_ramp_retained, hb]
    norm_num [Finset.sum_range_succ]
  · rw [(process_audio_bin_averaging (fun _ s => s) (fun v : ℚ => v) 3 one_channel_ramp 16
      0 1 (by norm_num) (by decide) (by decide) (by decide) (by decide)).2.1]
    simp only [one_channel_ramp_retained, hb]
    norm_num [Finset.sum_range_succ]
  · rw [(process_audio_bin_averaging (fun _ s => s) (fun v : ℚ => v) 3 one_channel_ramp 16
      0 2 (by norm_num) (by decide) (by decide) (by decide) (by decide)).2.1]
    simp only [one_channel_ramp_retained, hb]
    norm_num [Finset.sum_range_succ]
  · rw [(process_audio_bin_averaging (fun _ s => s) (fun v : ℚ => v) 3 one_channel_ramp 16
      0 3 (by norm_num) (by decide) (by decide) (by decide) (by decide)).2.1]
    simp only [one_channel_ramp_retained, hb]
    norm_num [Finset.sum_range_succ]

/-- C19: the path without averaging. For every even `samples` below `2 ^ 32`
with `h = samples / 2` and every bin count `fft_bins ≥ h`, `process_audio`
returns `h`, and row `i` of the packed array, at `[i * h, (i + 1) * h)`, holds
the first `h` values that the transform of channel `i` left, each converted
by the periodogram formula when `is_psd` is set, with no averaging; the moves
of the packing are whole floats. -/
theorem process_audio_without_averaging {K : Type} [LinearOrderedField K]
    (rdft : Nat → (Nat → K) → (Nat → K)) (log10 : K → K) (M_PI_D : K)
    (param : effect_param_data K) (samples i t : Nat) (heven : samples % 2 = 0)
    (hw : samples < 2 ^ 32) (hb : samples / 2 ≤ param.fft_bins)
    (hi : i < param.num_channels) (ht : t < samples / 2) :
    (process_audio rdft log10 M_PI_D param samples).map Prod.snd = some (samples / 2) ∧
    samples * 2 % sizeof_float = 0 ∧
    (process_audio rdft log10 M_PI_D param samples).map
        (fun out => out.1.sidechain_buf (i * (samples / 2) + t)) =
      some (if param.is_psd = true then
        10 * log10 ((1 / (2 * M_PI_D * (samples : K))) *
          rdft (Nat.clog 2 samples)
            (fun u => process_audio_fft rdft param.sidechain_buf samples i (i * samples + u))
            t ^ 2)
      else
        rdft (Nat.clog 2 samples)
          (fun u => process_audio_fft rdft param.sidechain_buf samples i (i * samples + u))
          t) := by
  have hnb : ¬ param.fft_bins < samples / 2 := not_lt.mpr hb
  refine ⟨?_, ?_, ?_⟩
  · unfold process_audio
    simp only [if_neg hnb, Option.map_some']
    congr 1
    apply Nat.mod_eq_of_lt
    omega
  · simp only [sizeof_float]
    omega
  · have hidx : i * (samples / 2) + t < samples / 2 * param.num_channels := by
      have h1 : (i + 1) * (samples / 2) ≤ param.num_channels * (samples / 2) :=
        Nat.mul_le_mul_right _ hi
      rw [Nat.add_mul, Nat.one_mul, Nat.mul_comm param.num_channels] at h1
      omega
    unfold process_audio
    simp only [if_neg hnb, process_audio_retained, Option.map_some']
    congr 1
    rw [process_audio_psd_apply, process_audio_pack_apply _ _ _ i t hi ht,
      process_audio_fft_output rdft _ samples hw _ i t hi (by omega)]
    by_cases hp : param.is_psd = true
    · rw [if_pos ⟨hp, hidx⟩, if_pos hp]
    · rw [if_neg (fun h => hp h.1), if_neg hp]

/-- Witness of C19: window length 16, one channel, eight bins asked for, an
identity stand-in for the transform. -/
theorem process_audio_without_averaging_witness :
    (process_audio (fun _ s => s) (fun v : ℚ => v) 3
      { one_channel_ramp with fft_bins := 8 } 16).map Prod.snd = some (16 / 2) :=
  (process_audio_without_averaging (fun _ s => s) (fun v : ℚ => v) 3
    { one_channel_ramp with fft_bins := 8 } 16 0 3 (by decide) (by norm_num) (by decide)
    (by decide) (by decide)).1

/-- C20: periodogram conversion. At the averaging step the array of
`process_audio` holds, when `is_psd` is set, `10 log10 ((1 / (2 π samples)) x²)`
in place of each of the `h * num_channels` packed values `x`
(`h = samples / 2`) and every other value as it was, and when `is_psd` is not
set the packed values unchanged; the averaging, if any, runs on that array
(and faults when `fft_bins = 0`). -/
theorem process_audio_psd_conversion {K : Type} [LinearOrderedField K]
    (rdft : Nat → (Nat → K) → (Nat → K)) (log10 : K → K) (M_PI_D : K)
    (param : effect_param_data K) (samples x : Nat) :
    process_audio_retained rdft log10 M_PI_D param samples x =
      (if param.is_psd = true ∧ x < samples / 2 * param.num_channels then
        10 * log10 ((1 / (2 * M_PI_D * (samples : K))) *
          process_audio_pack
            (process_audio_fft rdft param.sidechain_buf samples param.num_channels)
            samples param.num_channels x ^ 2)
      else
        process_audio_pack
          (process_audio_fft rdft param.sidechain_buf samples param.num_channels)
          samples param.num_channels x) ∧
    (process_audio rdft log10 M_PI_D param samples).map (fun out => out.1.sidechain_buf) =
      (if param.fft_bins < samples / 2 then
        (if param.fft_bins = 0 then none
         else
          some (process_audio_bins (process_audio_retained rdft log10 M_PI_D param samples)
            (samples / 2) param.fft_bins param.num_channels))
      else some (process_audio_retained rdft log10 M_PI_D param samples)) := by
  constructor
  · unfold process_audio_retained
    exact process_audio_psd_apply _ _ _ _ _ _ _
  · unfold process_audio
    simp only
    split
    · split <;> rfl
    · rfl

theorem audio_fft_complex_identity {K : Type} (buf : Nat → K) (off N : Nat) :
    audio_fft_complex (fun _ s => s) buf off N = buf := by
  funext x
  unfold audio_fft_complex
  simp only
  split
  · next h =>
    congr 1
    omega
  · rfl

theorem process_audio_fft_identity {K : Type} (buf : Nat → K) (samples c : Nat) :
    process_audio_fft (fun _ s => s) buf samples c = buf := by
  induction c with
  | zero => rfl
  | succ c ih =>
    unfold process_audio_fft at ih ⊢
    simp only [for_loop]
    rw [ih, audio_fft_complex_identity]

theorem process_audio_pack_one {K : Type} (buf : Nat → K) (samples : Nat) :
    process_audio_pack buf samples 1 = buf := rfl

/-- Witness of C20: a packed value 1 and window length 1024 give
`10 log10 (1 / (2 π 1024))`, over the reals with the base-10 logarithm and an
identity stand-in for the transform. -/
theorem process_audio_psd_conversion_witness :
    process_audio_retained (fun _ s => s) (Real.logb 10) Real.pi
        { media_source := none, max_sidechain_frames := 0, max_sidechain_buf_frames := 0,
          sidechain_data := fun _ => ⟨[]⟩, sidechain_buf := fun _ => (1 : ℝ),
          num_channels := 1, is_psd := true } 1024 0 =
      10 * Real.logb 10 (1 / (2 * Real.pi * 1024)) := by
  rw [(process_audio_psd_conversion (fun _ s => s) (Real.logb 10) Real.pi _ 1024 0).1]
  simp only [process_audio_fft_identity, process_audio_pack_one]
  rw [if_pos ⟨trivial, by norm_num⟩]
  norm_num

end spectrum_claims

/-! ## Rebinding and bounded growth -/

section rebind_claims

/-- C21, the code at a failing input: a binding subscribed to the entity that
the name `mic` resolves to, with the samples 1, 2 buffered. Rebinding to
`mic` empties the channel buffer; the entity is subscribed again, so only that
half of the claim holds. -/
theorem rebind_to_same_name_clears_buffers :
    mic_lookup (cstr "mic") = bound_binding.media_source ∧
    (bound_binding.sidechain_data 0).slots = [1, 2] ∧
    ((update_sidechain_callback mic_lookup bound_binding
      (some (cstr "mic"))).sidechain_data 0).slots = [] ∧
    (update_sidechain_callback mic_lookup bound_binding (some (cstr "mic"))).media_source =
      some 7 := by
  decide

theorem update_sidechain_callback_media_source {α : Type} (lookup : CString → Option Nat)
    (param : effect_param_data α) (name : CString) :
    (update_sidechain_callback lookup param (some name)).media_source =
      if name ≠ [] then lookup name else none := by
  unfold update_sidechain_callback
  simp only

/-- A peek that finds channel 0 short fills slice `i` with zeros. -/
theorem snapshot_slice_of_underrun {α : Type} [Zero α] (param : effect_param_data α)
    (count i : Nat) (hfew : (param.sidechain_data 0).slots.length < count)
    (hi : i < param.num_channels) :
    snapshot_slice (get_sidechain_data param count) count i = List.replicate count 0 := by
  have hclear := (get_sidechain_data_clear param count hfew).1
  unfold snapshot_slice
  have hconst : List.replicate count (0 : α) =
      (List.range count).map (fun _ => (0 : α)) := by
    apply List.ext_getElem <;> simp
  rw [hconst]
  apply List.map_congr_left
  intro j hj
  exact hclear i j hi (List.mem_range.mp hj)

/-- Operations other than capture events keep an empty channel empty. -/
theorem run_ops_without_capture_empty {α : Type} [Zero α] (lookup : CString → Option Nat)
    (ops : List (binding_op α)) :
    ∀ (param : effect_param_data α) (i : Nat), (∀ op ∈ ops, op.is_capture = false) →
      (param.sidechain_data i).slots = [] →
      ((run_ops lookup param ops).sidechain_data i).slots = [] ∧
      (run_ops lookup param ops).num_channels = param.num_channels := by
  induction ops with
  | nil => exact fun param i _ h => ⟨h, rfl⟩
  | cons op ops ih =>
    intro param i hops hempty
    have hop := hops op (List.mem_cons_self _ _)
    have hrest : ∀ o ∈ ops, o.is_capture = false :=
      fun o ho => hops o (List.mem_cons_of_mem _ ho)
    have hstep : ((apply_op lookup param op).sidechain_data i).slots = [] := by
      cases op with
      | capture audio muted => simp [binding_op.is_capture] at hop
      | peek num_samples =>
        show ((get_sidechain_data param num_samples).sidechain_data i).slots = []
        rw [(get_sidechain_data_fields param num_samples).1]
        exact hempty
      | rebind name =>
        cases name with
        | none => exact hempty
        | some name =>
          show ((update_sidechain_callback lookup param (some name)).sidechain_data i).slots = []
          rw [update_sidechain_callback_data]
          split
          · rfl
          · exact hempty
    have := ih (apply_op lookup param op) i hrest hstep
    rw [apply_op_num_channels] at this
    exact this

/-- C22: rebinding away from a bound entity clears the timeline. After
`update_sidechain_callback` with a non-null name on a binding that had an
entity bound, every channel buffer is empty; and if the new name is empty or
resolves to no entity, no entity is bound and after any further peeks and
rebinds, as long as no capture event arrives, a peek of any `count > 0`
yields `count` zeros for every channel. -/
theorem rebind_clears_timeline {α : Type} [Zero α] (lookup : CString → Option Nat)
    (param : effect_param_data α) (name : CString)
    (hbound : param.media_source.isSome = true) (i : Nat) (hi : i < param.num_channels) :
    ((update_sidechain_callback lookup param (some name)).sidechain_data i).slots = [] ∧
    (name = [] ∨ lookup name = none →
      (update_sidechain_callback lookup param (some name)).media_source = none ∧
      ∀ (ops : List (binding_op α)) (count : Nat), (∀ op ∈ ops, op.is_capture = false) →
        0 < count →
        snapshot_slice
          (get_sidechain_data
            (run_ops lookup (update_sidechain_callback lookup param (some name)) ops) count)
          count i = List.replicate count 0) := by
  have hclear : ∀ c, c < param.num_channels →
      ((update_sidechain_callback lookup param (some name)).sidechain_data c).slots = [] := by
    intro c hc
    rw [update_sidechain_callback_data, if_pos ⟨hbound, hc⟩]
  refine ⟨hclear i hi, ?_⟩
  intro hname
  constructor
  · rw [update_sidechain_callback_media_source]
    rcases hname with h | h
    · simp [h]
    · simp [h]
  · intro ops count hops hcount
    have hn := update_sidechain_callback_fields lookup param (some name)
    obtain ⟨h0, hch⟩ := run_ops_without_capture_empty lookup ops
      (update_sidechain_callback lookup param (some name)) 0 hops (hclear 0 (by omega))
    apply snapshot_slice_of_underrun
    · rw [h0]
      exact hcount
    · rw [hch, hn]
      exact hi

/-- Witness of C22: the bound binding of one channel, rebound to a name that
does not resolve, then peeked twice. -/
theorem rebind_clears_timeline_witness :
    ((update_sidechain_callback mic_lookup bound_binding
      (some (cstr "gone"))).sidechain_data 0).slots = [] ∧
    snapshot_slice
      (get_sidechain_data
        (run_ops mic_lookup
          (update_sidechain_callback mic_lookup bound_binding (some (cstr "gone")))
          [binding_op.peek 2, binding_op.rebind (some (cstr "gone"))]) 3)
      3 0 = List.replicate 3 0 :=
  ⟨(rebind_clears_timeline mic_lookup bound_binding (cstr "gone") rfl 0 (by decide)).1,
    ((rebind_clears_timeline mic_lookup bound_binding (cstr "gone") rfl 0 (by decide)).2
      (Or.inr (by decide))).2 [binding_op.peek 2, binding_op.rebind (some (cstr "gone"))] 3
      (by decide) (by decide)⟩

end rebind_claims

section growth_claims

theorem growth_invariant_capture {α : Type} [Zero α] (param : effect_param_data α)
    (audio : audio_data α) (muted : Bool) (h : growth_invariant param) :
    growth_invariant (sidechain_capture param audio muted) ∧
    (sidechain_capture param audio muted).max_sidechain_frames =
      max param.max_sidechain_frames audio.frames := by
  obtain ⟨hlock, hlen⟩ := h
  have hmax := (sidechain_capture_fields param audio muted).2.2.2
  refine ⟨⟨lock_step_capture param audio muted hlock, ?_⟩, hmax⟩
  intro i
  rw [hmax]
  obtain ⟨hd, hn, _, _, hm⟩ := sidechain_capture_grow_data param audio
  have hle1 : param.max_sidechain_frames ≤ max param.max_sidechain_frames audio.frames :=
    le_max_left _ _
  have hle2 : audio.frames ≤ max param.max_sidechain_frames audio.frames := le_max_right _ _
  have hi := hlen i
  unfold sidechain_capture
  simp only
  split
  · rw [hd]
    omega
  · rw [sidechain_capture_push_data, (sidechain_capture_trim_fields _).1, hn,
      sidechain_capture_trim_data, hn, hd, hm]
    by_cases hin : i < param.num_channels
    · have hi0 : (param.sidechain_data i).slots.length =
          (param.sidechain_data 0).slots.length :=
        (lock_step_iff param).1 hlock i 0 hin (by omega)
      by_cases hf : sidechain_trim_fires (sidechain_capture_grow param audio)
      · have hbig : 2 * max param.max_sidechain_frames audio.frames <
            (param.sidechain_data 0).slots.length := by
          have := hf
          unfold sidechain_trim_fires at this
          rw [hd, hm] at this
          simp only [circlebuf.size, sizeof_float] at this
          omega
        cases muted <;> simp [hin, hf] <;> omega
      · have hsmall : (param.sidechain_data 0).slots.length ≤
            2 * max param.max_sidechain_frames audio.frames := by
          have := hf
          unfold sidechain_trim_fires at this
          rw [hd, hm] at this
          simp only [circlebuf.size, sizeof_float] at this
          omega
        cases muted <;> simp [hin, hf] <;> omega
    · simp only [if_neg hin]
      split <;> omega

theorem growth_invariant_peek {α : Type} [Zero α] (param : effect_param_data α)
    (num_samples : Nat) (h : growth_invariant param) :
    growth_invariant (get_sidechain_data param num_samples) ∧
    (get_sidechain_data param num_samples).max_sidechain_frames =
      max param.max_sidechain_frames num_samples := by
  obtain ⟨hlock, hlen⟩ := h
  have hmax : (get_sidechain_data param num_samples).max_sidechain_frames =
      max param.max_sidechain_frames num_samples := by
    unfold get_sidechain_data
    simp only
    by_cases h0 : num_samples * sizeof_float = 0
    · have : num_samples = 0 := (mul_sizeof_float_eq_zero _).1 h0
      rw [if_pos h0, this]
      simp
    · rw [if_neg h0]
      by_cases hlt : param.max_sidechain_frames < num_samples
      · rw [max_eq_right (le_of_lt hlt)]
        simp only [if_pos hlt]
        split <;> rfl
      · rw [max_eq_left (not_lt.mp hlt)]
        simp only [if_neg hlt]
        split <;> rfl
  refine ⟨⟨lock_step_peek param num_samples hlock, ?_⟩, hmax⟩
  intro i
  rw [hmax, (get_sidechain_data_fields param num_samples).1]
  have := hlen i
  have := le_max_left param.max_sidechain_frames num_samples
  omega

theorem growth_invariant_rebind {α : Type} (lookup : CString → Option Nat)
    (param : effect_param_data α) (name : Option CString) (h : growth_invariant param) :
    growth_invariant (update_sidechain_callback lookup param name) ∧
    (update_sidechain_callback lookup param name).max_sidechain_frames =
      param.max_sidechain_frames := by
  obtain ⟨hlock, hlen⟩ := h
  have hmax : (update_sidechain_callback lookup param name).max_sidechain_frames =
      param.max_sidechain_frames := by
    unfold update_sidechain_callback
    cases name with
    | none => rfl
    | some name =>
      simp only
      split <;> rfl
  refine ⟨⟨lock_step_rebind lookup param name hlock, ?_⟩, hmax⟩
  intro i
  rw [hmax]
  cases name with
  | none => exact hlen i
  | some name =>
    rw [update_sidechain_callback_data]
    split
    · simp
    · exact hlen i

theorem growth_invariant_apply_op {α : Type} [Zero α] (lookup : CString → Option Nat)
    (param : effect_param_data α) (op : binding_op α) (h : growth_invariant param) :
    growth_invariant (apply_op lookup param op) ∧
    (apply_op lookup param op).max_sidechain_frames =
      max param.max_sidechain_frames op.frames := by
  cases op with
  | capture audio muted => exact growth_invariant_capture param audio muted h
  | peek num_samples => exact growth_invariant_peek param num_samples h
  | rebind name =>
    have := growth_invariant_rebind lookup param name h
    refine ⟨this.1, ?_⟩
    show (update_sidechain_callback lookup param name).max_sidechain_frames = _
    rw [this.2]
    simp [binding_op.frames]

theorem growth_invariant_run_ops {α : Type} [Zero α] (lookup : CString → Option Nat)
    (ops : List (binding_op α)) :
    ∀ param : effect_param_data α, growth_invariant param →
      growth_invariant (run_ops lookup param ops) ∧
      (run_ops lookup param ops).max_sidechain_frames =
        running_max param.max_sidechain_frames ops := by
  induction ops with
  | nil => exact fun param h => ⟨h, rfl⟩
  | cons op ops ih =>
    intro param h
    obtain ⟨h1, h2⟩ := growth_invariant_apply_op lookup param op h
    obtain ⟨h3, h4⟩ := ih (apply_op lookup param op) h1
    refine ⟨h3, ?_⟩
    show (run_ops lookup (apply_op lookup param op) ops).max_sidechain_frames = _
    rw [h4, h2]
    rfl

theorem running_max_le_append {α : Type} (ops1 ops2 : List (binding_op α)) :
    ∀ m0 : Nat, running_max m0 ops1 ≤ running_max m0 (ops1 ++ ops2) := by
  have hge : ∀ (l : List (binding_op α)) (m : Nat), m ≤ running_max m l := by
    intro l
    induction l with
    | nil => exact fun m => le_refl m
    | cons op l ih =>
      intro m
      exact le_trans (le_max_left m op.frames) (ih (max m op.frames))
  intro m0
  unfold running_max
  rw [List.foldl_append]
  exact hge ops2 _

/-- C26: bounded growth. Over every sequence of capture events, peeks and
rebinds on a binding that starts with empty buffers, after each operation
`max_sidechain_frames` is the running maximum of the capture frame counts and
peeked window lengths seen so far, it never decreases, and every channel
buffers at most `3 * max_sidechain_frames` sample-slots. -/
theorem buffered_length_is_bounded {α : Type} [Zero α] (lookup : CString → Option Nat)
    (param : effect_param_data α) (hempty : ∀ i, (param.sidechain_data i).slots = [])
    (ops : List (binding_op α)) (m i : Nat) :
    (run_ops lookup param (ops.take m)).max_sidechain_frames =
      running_max param.max_sidechain_frames (ops.take m) ∧
    (run_ops lookup param (ops.take m)).max_sidechain_frames ≤
      (run_ops lookup param ops).max_sidechain_frames ∧
    ((run_ops lookup param (ops.take m)).sidechain_data i).slots.length ≤
      3 * (run_ops lookup param (ops.take m)).max_sidechain_frames := by
  have h0 : growth_invariant param := by
    refine ⟨?_, fun c => by simp [hempty c]⟩
    intro a b _ _
    simp [circlebuf.size, hempty a, hempty b]
  obtain ⟨⟨_, hlen⟩, hmax⟩ := growth_invariant_run_ops lookup (ops.take m) param h0
  obtain ⟨_, hmax2⟩ := growth_invariant_run_ops lookup ops param h0
  refine ⟨hmax, ?_, hlen i⟩
  rw [hmax, hmax2]
  have := running_max_le_append (ops.take m) (ops.drop m) param.max_sidechain_frames
  rwa [List.take_append_drop] at this

/-- Witness of C26: captures of 3, 3 and 1 frames, a peek of 2 and one more
capture on an empty binding of two channels. -/
theorem buffered_length_is_bounded_witness :
    ((run_ops mic_lookup (empty_binding 2)
      ([binding_op.capture (audio_of_list [1, 2, (3 : Int)]) false,
        .capture (audio_of_list [4, 5, 6]) true, .capture (audio_of_list [7]) false,
        .peek 2, .capture (audio_of_list [8]) false].take 5)).sidechain_data 1).slots.length ≤
      3 * (run_ops mic_lookup (empty_binding 2)
        ([binding_op.capture (audio_of_list [1, 2, (3 : Int)]) false,
          .capture (audio_of_list [4, 5, 6]) true, .capture (audio_of_list [7]) false,
          .peek 2, .capture (audio_of_list [8]) false].take 5)).max_sidechain_frames :=
  (buffered_length_is_bounded mic_lookup (empty_binding 2) (fun _ => rfl) _ 5 1).2.2

end growth_claims

/-! ## Spectrum settings -/

section settings_claims

theorem double_lt_num {K : Type} [LinearOrder K] (a b : K) :
    double.lt (double.num a) (double.num b) = true ↔ a < b := by
  unfold double.lt
  exact decide_eq_true_iff

theorem double_gt_num {K : Type} [LinearOrder K] (a b : K) :
    double.gt (double.num a) (double.num b) = true ↔ a > b := by
  unfold double.gt
  exact decide_eq_true_iff

theorem double_le_num {K : Type} [LinearOrder K] (a b : K) :
    double.le (double.num a) (double.num b) = true ↔ a ≤ b := by
  unfold double.le
  exact decide_eq_true_iff

/-- The clamp of numbers is the clamp of the linear order. -/
theorem hlsl_clamp_num {K : Type} [LinearOrder K] (a lo hi : K) :
    hlsl_clamp (double.num a) (double.num lo) (double.num hi) =
      double.num (if a < lo then lo else if a > hi then hi else a) := by
  unfold hlsl_clamp
  by_cases h1 : a < lo
  · rw [if_pos ((double_lt_num a lo).mpr h1), if_pos h1]
  · rw [if_neg (fun h => h1 ((double_lt_num a lo).mp h)), if_neg h1]
    by_cases h2 : a > hi
    · rw [if_pos ((double_gt_num a hi).mpr h2), if_pos h2]
    · rw [if_neg (fun h => h2 ((double_gt_num a hi).mp h)), if_neg h2]

/-- A `NAN` passes through `hlsl_clamp`: both comparisons are false. -/
theorem hlsl_clamp_nan {K : Type} [LinearOrder K] (min max : double K) :
    hlsl_clamp double.NAN min max = double.NAN := by
  unfold hlsl_clamp
  have h1 : double.lt double.NAN min = false := by
    cases min <;> rfl
  have h2 : double.gt double.NAN max = false := by
    cases max <;> rfl
  rw [h1, h2]
  rfl

/-- The conversion of the clamped annotation `fft_samples` is defined. -/
theorem double_to_size_t_fft_samples (v : Int) :
    double_to_size_t (hlsl_clamp (double.num (v : ℚ)) (double.num 64) (double.num 1024)) =
      some (if v < 64 then 64 else if v > 1024 then 1024 else v.toNat) := by
  rw [hlsl_clamp_num]
  unfold double_to_size_t
  simp only
  by_cases h1 : v < 64
  · have h1q : (v : ℚ) < 64 := by exact_mod_cast h1
    rw [if_pos h1q, if_pos h1, if_pos (by norm_num)]
    have : Int.floor (64 : ℚ) = 64 := by simp
    rw [this]
    rfl
  · have h1q : ¬ (v : ℚ) < 64 := by exact_mod_cast h1
    rw [if_neg h1q, if_neg h1]
    by_cases h2 : v > 1024
    · have h2q : (v : ℚ) > 1024 := by exact_mod_cast h2
      rw [if_pos h2q, if_pos h2, if_pos (by norm_num)]
      have : Int.floor (1024 : ℚ) = 1024 := by simp
      rw [this]
      rfl
    · have h2q : ¬ (v : ℚ) > 1024 := by exact_mod_cast h2
      rw [if_neg h2q, if_neg h2]
      have hlo : (-1 : ℚ) < (v : ℚ) := by
        have : (-1 : Int) < v := by omega
        exact_mod_cast this
      have hhi : (v : ℚ) < 2 ^ 64 := by
        have : v < 2 ^ 64 := by
          have : (2 : Int) ^ 64 = 18446744073709551616 := by norm_num
          omega
        exact_mod_cast this
      rw [if_pos ⟨hlo, hhi⟩, Int.floor_intCast]

theorem get_graphics_parameters_fft_samples_eq (v : Int) :
    get_graphics_parameters_fft_samples v =
      (if v < 64 then 64 else if v > 1024 then 1024 else v.toNat) := by
  unfold get_graphics_parameters_fft_samples
  rw [double_to_size_t_fft_samples]
  rfl

/-- C23 as written fails for a `NAN` argument: with `min = 0 ≤ max = 1`,
`hlsl_clamp (NAN, 0, 1)` is `NAN`, which is neither `>= 0` nor `<= 1`. -/
theorem hlsl_clamp_of_nan_is_not_in_range :
    double.le (double.num (0 : ℚ)) (double.num 1) = true ∧
    hlsl_clamp double.NAN (double.num (0 : ℚ)) (double.num 1) = double.NAN ∧
    double.le (double.num 0) (hlsl_clamp double.NAN (double.num (0 : ℚ)) (double.num 1))
      = false ∧
    double.le (hlsl_clamp double.NAN (double.num (0 : ℚ)) (double.num 1)) (double.num 1)
      = false := by
  refine ⟨(double_le_num _ _).mpr (by norm_num), hlsl_clamp_nan _ _, ?_, ?_⟩
  · rw [hlsl_clamp_nan]
    rfl
  · rw [hlsl_clamp_nan]
    rfl

/-- C23, as the code has it: window-length clamp. For every `int` value `v`
of the annotation `fft_samples` the clamped value converts to `size_t` and
the configured window length is `hlsl_clamp (v, 64, 1024)`, that is 64 if
`v < 64`, 1024 if `v > 1024` and `v` otherwise, so it lies in `[64, 1024]`;
and for doubles `min <= max` and `x` not `NAN`, `hlsl_clamp (x, min, max)`
lies in `[min, max]` and equals `x` when `x` is in range, while a `NAN`
argument `x` is returned as it is. -/
theorem hlsl_clamp_in_range {K : Type} [LinearOrder K] (x min max : double K) (v : Int)
    (hmm : double.le min max = true) (hx : x ≠ double.NAN) :
    double_to_size_t (hlsl_clamp (double.num (v : ℚ)) (double.num 64) (double.num 1024)) =
      some (get_graphics_parameters_fft_samples v) ∧
    get_graphics_parameters_fft_samples v =
      (if v < 64 then 64 else if v > 1024 then 1024 else v.toNat) ∧
    64 ≤ get_graphics_parameters_fft_samples v ∧
    get_graphics_parameters_fft_samples v ≤ 1024 ∧
    double.le min (hlsl_clamp x min max) = true ∧
    double.le (hlsl_clamp x min max) max = true ∧
    (double.le min x = true → double.le x max = true → hlsl_clamp x min max = x) ∧
    hlsl_clamp double.NAN min max = double.NAN := by
  have hv := get_graphics_parameters_fft_samples_eq v
  refine ⟨?_, hv, ?_, ?_, ?_⟩
  · rw [hv]
    exact double_to_size_t_fft_samples v
  · rw [hv]
    split
    · omega
    · split <;> omega
  · rw [hv]
    split
    · omega
    · split <;> omega
  · cases min with
    | NAN => exact Bool.noConfusion hmm
    | num lo =>
      cases max with
      | NAN => exact Bool.noConfusion hmm
      | num hi =>
        cases x with
        | NAN => exact absurd rfl hx
        | num a =>
          have hlh : lo ≤ hi := (double_le_num lo hi).mp hmm
          rw [hlsl_clamp_num]
          refine ⟨?_, ?_, ?_, hlsl_clamp_nan _ _⟩
          · rw [double_le_num]
            split
            · exact le_refl _
            · next h1 =>
              split
              · exact hlh
              · exact not_lt.mp h1
          · rw [double_le_num]
            split
            · exact hlh
            · split
              · exact le_refl _
              · next h2 => exact not_lt.mp h2
          · intro h1 h2
            rw [double_le_num] at h1 h2
            rw [if_neg (not_lt.mpr h1), if_neg (not_lt.mpr h2)]

/-- Witness of C23 as amended: the annotation value 5000 and the clamp of 7
to `[2, 5]`. -/
theorem hlsl_clamp_in_range_witness :
    get_graphics_parameters_fft_samples 5000 =
      (if (5000 : Int) < 64 then 64 else if (5000 : Int) > 1024 then 1024
       else (5000 : Int).toNat) ∧
    double.le (hlsl_clamp (double.num (7 : Int)) (double.num 2) (double.num 5)) (double.num 5)
      = true :=
  ⟨(hlsl_clamp_in_range (double.num (7 : Int)) (double.num 2) (double.num 5) 5000
      (by decide) (fun h => double.noConfusion h)).2.1,
    (hlsl_clamp_in_range (double.num (7 : Int)) (double.num 2) (double.num 5) 5000
      (by decide) (fun h => double.noConfusion h)).2.2.2.2.2.1⟩

theorem nat_clog_two_65 : Nat.clog 2 (65 % 2 ^ 32) = 7 := by
  have h65 : (65 % 2 ^ 32 : Nat) = 65 := by norm_num
  rw [h65]
  apply le_antisymm
  · exact (Nat.le_pow_iff_clog_le (by norm_num)).1 (by norm_num)
  · by_contra hlt
    have h6 : Nat.clog 2 65 ≤ 6 := by omega
    have := (Nat.le_pow_iff_clog_le (b := 2) (by norm_num)).2 h6
    norm_num at this

theorem process_audio_fft_one {K : Type} (rdft : Nat → (Nat → K) → (Nat → K))
    (buf : Nat → K) (samples : Nat) :
    process_audio_fft rdft buf samples 1 =
      audio_fft_complex rdft buf (0 * samples) (samples % 2 ^ 32) := rfl

/-- C25, the code at a failing input: window length 65, two channels. The
transform of channel 0 runs on `2 ^ 7 = 128` floats from index 0 on, so it
also writes the indices 65 .. 127 that belong to channel 1: the array that
the transform of channel 1 receives holds at snapshot index 65 what the
transform of channel 0 left there, not the snapshot value of channel 1. With
a transform that writes zeros, a snapshot of ones reaches the transform of
channel 1 as 0 at that index. -/
theorem transform_of_channel_zero_overwrites_channel_one :
    Nat.clog 2 (65 % 2 ^ 32) = 7 ∧
    (∀ (rdft : Nat → (Nat → ℚ) → (Nat → ℚ)) (buf : Nat → ℚ),
      process_audio_fft rdft buf 65 1 (1 * 65 + 0) = rdft 7 (fun t => buf (0 * 65 + t)) 65) ∧
    process_audio_fft (fun _ _ _ => (0 : ℚ)) (fun _ => 1) 65 1 (1 * 65 + 0) = 0 ∧
    (fun _ : Nat => (1 : ℚ)) (1 * 65 + 0) = 1 := by
  have hgen : ∀ (rdft : Nat → (Nat → ℚ) → (Nat → ℚ)) (buf : Nat → ℚ),
      process_audio_fft rdft buf 65 1 (1 * 65 + 0) =
        rdft 7 (fun t => buf (0 * 65 + t)) 65 := by
    intro rdft buf
    rw [process_audio_fft_one]
    unfold audio_fft_complex
    simp only [nat_clog_two_65]
    rw [if_pos (by norm_num)]
  refine ⟨nat_clog_two_65, hgen, ?_, rfl⟩
  rw [hgen]

/-- With `fft_bins = 0` below the half window the averaging branch of
`process_audio` is taken and faults. -/
theorem process_audio_faults_of_zero_bins {K : Type} [LinearOrderedField K]
    (rdft : Nat → (Nat → K) → (Nat → K)) (log10 : K → K) (M_PI_D : K)
    (param : effect_param_data K) (samples : Nat) (hb : param.fft_bins = 0)
    (hs : 0 < samples / 2) : process_audio rdft log10 M_PI_D param samples = none := by
  unfold process_audio
  simp only
  rw [if_pos (by omega), if_pos hb]

/-- For a bin count from 1 on the averaging step is in range: `bin_width` is
at least 1 and every read of channel `i` stays in its retained half. -/
theorem process_audio_bins_reads_in_range (h b i j k : Nat) (hb1 : 1 ≤ b) (hb2 : b < h)
    (hj : j < b) (hk : k < h / b) :
    1 ≤ h / b ∧ i * h ≤ k + i * h + j * (h / b) ∧ k + i * h + j * (h / b) < (i + 1) * h := by
  have hbw : 1 ≤ h / b := Nat.div_pos (le_of_lt hb2) hb1
  have h1 : (j + 1) * (h / b) ≤ b * (h / b) := Nat.mul_le_mul_right _ hj
  have h2 : b * (h / b) ≤ h := Nat.mul_div_le h b
  rw [Nat.add_mul, Nat.one_mul] at h1
  refine ⟨hbw, by omega, ?_⟩
  rw [Nat.add_mul, Nat.one_mul]
  omega

/-- C27, the code at a failing input: window length 64 and the annotation
`fft_bins = 0`, which `get_graphics_parameters` stores unclamped. The bin
count 0 is below the half window 32, the averaging branch is taken and
`bin_width = h_samples / param->fft_bins` divides by zero: `process_audio`
faults, whatever the transform computes. -/
theorem process_audio_divides_by_zero_bins :
    get_graphics_parameters_fft_samples 64 = 64 ∧
    get_graphics_parameters_fft_bins 0 = 0 ∧
    ∀ (rdft : Nat → (Nat → ℚ) → (Nat → ℚ)) (log10 : ℚ → ℚ) (M_PI_D : ℚ),
      process_audio rdft log10 M_PI_D
        { two_channels_of_ones with
          fft_samples := get_graphics_parameters_fft_samples 64
          fft_bins := get_graphics_parameters_fft_bins 0 } 64 = none := by
  have h64 : get_graphics_parameters_fft_samples 64 = 64 := by
    rw [get_graphics_parameters_fft_samples_eq]
    rfl
  have h0 : get_graphics_parameters_fft_bins 0 = 0 := by
    unfold get_graphics_parameters_fft_bins
    norm_num
  refine ⟨h64, h0, ?_⟩
  intro rdft log10 M_PI_D
  exact process_audio_faults_of_zero_bins rdft log10 M_PI_D _ 64 h0 (by norm_num)

end settings_claims

/-! ## The newest audio first -/

section insert_claims

theorem getD_map_range {α : Type} [Zero α] (f : Nat → α) (n t : Nat) (ht : t < n) :
    ((List.range n).map f).getD t 0 = f t := by
  rw [List.getD_eq_getElem?_getD, List.getElem?_map, List.getElem?_range ht]
  rfl

theorem std_vector_resize_length {α : Type} [Zero α] (v : List α) (n : Nat) :
    (std_vector_resize v n).length = n := by
  unfold std_vector_resize
  rw [List.length_append, List.length_take, List.length_replicate]
  omega

theorem std_vector_resize_getD {α : Type} [Zero α] (v : List α) (n t : Nat) (ht : t < n) :
    (std_vector_resize v n).getD t 0 = v.getD t 0 := by
  unfold std_vector_resize
  rw [List.getD_eq_getElem?_getD, List.getD_eq_getElem?_getD]
  by_cases h : t < v.length
  · rw [List.getElem?_append_left (by rw [List.length_take]; omega), List.getElem?_take_of_lt ht]
  · have hlen : (List.take n v).length ≤ t := by rw [List.length_take]; omega
    rw [List.getElem?_append_right hlen, List.getElem?_eq_none (not_lt.mp h)]
    rw [List.length_take]
    by_cases h2 : t - min n v.length < n - v.length
    · rw [List.getElem?_replicate_of_lt h2]
      rfl
    · rw [List.getElem?_eq_none (by rw [List.length_replicate]; omega)]

theorem mul_sizeof_float_mod (n : Nat) (hn : n ≤ TextureData_maxAudioSize) :
    n * sizeof_float % 2 ^ size_t_bits = n * sizeof_float := by
  apply Nat.mod_eq_of_lt
  have : TextureData_maxAudioSize = 2048 := rfl
  have h4 : sizeof_float = 4 := rfl
  have h64 : size_t_bits = 64 := rfl
  rw [h4, h64]
  have : (2 : Nat) ^ 64 = 18446744073709551616 := by norm_num
  omega

/-- The effect of `insertAudio` on the vector of channel `index`, for a
chunk shorter than `_maxAudioSize` and a vector that is empty or at least
as long as the chunk. -/
theorem TextureData_insertAudio_eq {α : Type} [Zero α] (_audio : Nat → List α)
    (data : Option (Nat → α)) (samples index : Nat) (hidx : index < MAX_AV_PLANES)
    (hs0 : 0 < samples) (hs : samples < TextureData_maxAudioSize)
    (hL : (_audio index).length = 0 ∨ samples ≤ (_audio index).length)
    (hmax : (_audio index).length ≤ TextureData_maxAudioSize) :
    TextureData_insertAudio _audio data samples index =
      some (Function.update _audio index
        ((List.range TextureData_maxAudioSize).map fun t =>
          if t < samples then inserted_chunk data t
          else if t < (_audio index).length then (_audio index).getD (t - samples) 0
          else 0)) := by
  have h8 : MAX_AV_PLANES = 8 := rfl
  have h4 : sizeof_float = 4 := rfl
  unfold TextureData_insertAudio
  rw [if_neg (by omega)]
  simp only
  rw [mul_sizeof_float_mod _ hmax, mul_sizeof_float_mod _ (le_of_lt hs)]
  have hrl := std_vector_resize_length (_audio index) TextureData_maxAudioSize
  rw [if_pos hs]
  have hins : samples * sizeof_float / sizeof_float = samples := by
    rw [h4]; omega
  -- the vector after the copy of the old data
  have hmid : ∃ v : List α, v.length = TextureData_maxAudioSize ∧
      (∀ t, t < TextureData_maxAudioSize → v.getD t 0 =
        if samples ≤ t ∧ t < (_audio index).length then (_audio index).getD (t - samples) 0
        else if t < (_audio index).length then (_audio index).getD t 0 else 0) ∧
      (match (if (_audio index).length * sizeof_float ≠ 0 then some (_audio index) else none :
          Option (List α)) with
        | some old => memcpy_vector (std_vector_resize (_audio index) TextureData_maxAudioSize)
            samples old (((_audio index).length * sizeof_float + 2 ^ size_t_bits
              - samples * sizeof_float) % 2 ^ size_t_bits)
        | none => some (std_vector_resize (_audio index) TextureData_maxAudioSize)) = some v := by
    rcases hL with h0 | hge
    · refine ⟨std_vector_resize (_audio index) TextureData_maxAudioSize, hrl, ?_, ?_⟩
      · intro t ht
        rw [std_vector_resize_getD _ _ _ ht, if_neg (by omega), if_neg (by omega)]
        rw [List.getD_eq_getElem?_getD, List.getElem?_eq_none (by omega)]
        rfl
      · rw [h0, Nat.zero_mul, if_neg (by simp)]
    · have hLpos : (_audio index).length * sizeof_float ≠ 0 := by rw [h4]; omega
      have hsub : ((_audio index).length * sizeof_float + 2 ^ size_t_bits
          - samples * sizeof_float) % 2 ^ size_t_bits
          = ((_audio index).length - samples) * sizeof_float := by
        have e : (_audio index).length * sizeof_float + 2 ^ size_t_bits - samples * sizeof_float
            = ((_audio index).length - samples) * sizeof_float + 2 ^ size_t_bits := by
          have hle : samples * sizeof_float ≤ (_audio index).length * sizeof_float :=
            Nat.mul_le_mul_right _ hge
          rw [Nat.sub_mul]
          generalize 2 ^ size_t_bits = e
          omega
        rw [e, Nat.add_mod_right]
        exact mul_sizeof_float_mod _ (by omega)
      have hdiv : ((_audio index).length - samples) * sizeof_float / sizeof_float
          = (_audio index).length - samples := by rw [h4]; omega
      rw [if_pos hLpos]
      simp only
      rw [hsub]
      unfold memcpy_vector
      simp only
      rw [hdiv, hrl, if_pos ⟨by omega, by omega⟩]
      refine ⟨_, ?_, ?_, rfl⟩
      · rw [List.length_map, List.length_range]
      · intro t ht
        rw [getD_map_range _ _ _ ht]
        by_cases hc : samples ≤ t ∧ t < (_audio index).length
        · rw [if_pos ⟨hc.1, by omega⟩, if_pos hc]
        · rw [if_neg (by omega), if_neg hc, std_vector_resize_getD _ _ _ ht]
          by_cases h2 : t < (_audio index).length
          · rw [if_pos h2]
          · rw [if_neg h2, List.getD_eq_getElem?_getD, List.getElem?_eq_none (by omega)]
            rfl
  obtain ⟨v, hvl, hvg, hveq⟩ := hmid
  rw [hveq, Option.some_bind]
  have hfin : (match data with
      | some d => memcpy_plane v d (samples * sizeof_float)
      | none => memset_vector v (samples * sizeof_float)) =
      some ((List.range TextureData_maxAudioSize).map fun t =>
          if t < samples then inserted_chunk data t
          else if t < (_audio index).length then (_audio index).getD (t - samples) 0
          else 0) := by
    have hbody : ∀ t, t ∈ List.range TextureData_maxAudioSize →
        (if t < samples then inserted_chunk data t else v.getD t 0) =
        (if t < samples then inserted_chunk data t
          else if t < (_audio index).length then (_audio index).getD (t - samples) 0
          else 0) := by
      intro t ht
      have ht2 : t < TextureData_maxAudioSize := List.mem_range.mp ht
      by_cases h1 : t < samples
      · rw [if_pos h1, if_pos h1]
      · rw [if_neg h1, if_neg h1, hvg t ht2]
        by_cases h2 : t < (_audio index).length
        · rw [if_pos ⟨by omega, h2⟩, if_pos h2]
        · rw [if_neg (by omega), if_neg h2, if_neg h2]
    cases data with
    | some d =>
      simp only
      unfold memcpy_plane
      simp only
      rw [hins, hvl, if_pos (le_of_lt hs)]
      exact congrArg some (List.map_congr_left hbody)
    | none =>
      simp only
      unfold memset_vector
      simp only
      rw [hins, hvl, if_pos (le_of_lt hs)]
      exact congrArg some (List.map_congr_left hbody)
  rw [hfin]
  rfl

theorem TextureData_renderAudioSource_some {α : Type} [Zero α] (_audio : Nat → List α)
    (_data : Nat → α) (samples : Nat)
    (hfull : ∀ i, (_audio i).length = 0 ∨ samples ≤ (_audio i).length) (c : Nat) :
    ∃ d, TextureData_renderAudioSource _audio c _data samples = some d ∧
      ∀ i, i < c → samples ≤ (_audio i).length → 0 < samples → ∀ t, t < samples →
        d (samples * i + t) = (_audio i).getD t 0 := by
  induction c with
  | zero => exact ⟨_data, rfl, fun i hi => absurd hi (Nat.not_lt_zero i)⟩
  | succ c ih =>
    obtain ⟨d, hd, hrd⟩ := ih
    have hstep : TextureData_renderAudioSource _audio (c + 1) _data samples =
        (TextureData_renderAudioSource _audio c _data samples).bind fun d =>
          if (_audio c).length ≠ 0 then
            if samples ≤ (_audio c).length then
              some fun x => if samples * c ≤ x ∧ x < samples * c + samples
                then (_audio c).getD (x - samples * c) 0 else d x
            else none
          else some (memset_zero d (samples * c) (samples * sizeof_float)) := rfl
    rw [hstep, hd, Option.some_bind]
    have hlt : ∀ i, i < c → ∀ t, t < samples → samples * i + t < samples * c := by
      intro i hi t ht
      have : samples * (i + 1) ≤ samples * c := Nat.mul_le_mul_left _ hi
      rw [Nat.mul_add, Nat.mul_one] at this
      omega
    by_cases h0 : (_audio c).length ≠ 0
    · rw [if_pos h0]
      have hge : samples ≤ (_audio c).length := by
        rcases hfull c with h | h
        · exact absurd h h0
        · exact h
      rw [if_pos hge]
      refine ⟨_, rfl, ?_⟩
      intro i hi hle hpos t ht
      by_cases hic : i = c
      · subst hic
        rw [if_pos ⟨by omega, by omega⟩, Nat.add_sub_cancel_left]
      · have := hlt i (by omega) t ht
        rw [if_neg (by omega)]
        exact hrd i (by omega) hle hpos t ht
    · rw [if_neg h0]
      refine ⟨_, rfl, ?_⟩
      intro i hi hle hpos t ht
      have hic : i ≠ c := by
        intro h
        subst h
        have : (_audio i).length = 0 := not_not.mp h0
        omega
      have := hlt i (by omega) t ht
      unfold memset_zero
      rw [if_neg (by omega)]
      exact hrd i (by omega) hle hpos t ht

/-- C28: the newest audio first. For a channel vector of length `L` with
`L = 0` or `samples ≤ L` (and `L ≤ _maxAudioSize`, as after every earlier
call) and `0 < samples < _maxAudioSize`, `insertAudio` returns and leaves
the vector with length `_maxAudioSize`; the new chunk, zeros for a null
`data`, is at `[0, samples)`; the first `L - samples` old values are at
`[samples, L)`, the rest is zero; the other channels are untouched; and when
every vector is then empty or full, the copy of `renderAudioSource (samples)`
returns and the first `samples` floats it copies for that channel are the
new chunk. -/
theorem insertAudio_keeps_newest_first {α : Type} [Zero α] (_audio : Nat → List α)
    (data : Option (Nat → α)) (samples index : Nat) (hidx : index < MAX_AV_PLANES)
    (hs0 : 0 < samples) (hs : samples < TextureData_maxAudioSize)
    (hL : (_audio index).length = 0 ∨ samples ≤ (_audio index).length)
    (hmax : (_audio index).length ≤ TextureData_maxAudioSize) :
    ∃ out, TextureData_insertAudio _audio data samples index = some out ∧
      (out index).length = TextureData_maxAudioSize ∧
      (∀ t, t < samples → (out index).getD t 0 = inserted_chunk data t) ∧
      (∀ t, samples ≤ t → t < (_audio index).length →
        (out index).getD t 0 = (_audio index).getD (t - samples) 0) ∧
      (∀ t, samples ≤ t → (_audio index).length ≤ t → (out index).getD t 0 = 0) ∧
      (∀ k, k ≠ index → out k = _audio k) ∧
      ∀ (_channels : Nat) (_data : Nat → α), index < _channels →
        (∀ k, k ≠ index → (_audio k).length = 0 ∨ samples ≤ (_audio k).length) →
        ∃ d, TextureData_renderAudioSource out _channels _data samples = some d ∧
          ∀ t, t < samples → d (samples * index + t) = inserted_chunk data t := by
  refine ⟨_, TextureData_insertAudio_eq _audio data samples index hidx hs0 hs hL hmax, ?_⟩
  have hout : ∀ (f : Nat → α), (Function.update _audio index
      ((List.range TextureData_maxAudioSize).map f)) index
      = (List.range TextureData_maxAudioSize).map f := fun f => Function.update_same _ _ _
  rw [hout]
  have hlen : ((List.range TextureData_maxAudioSize).map fun t =>
          if t < samples then inserted_chunk data t
          else if t < (_audio index).length then (_audio index).getD (t - samples) 0
          else 0).length = TextureData_maxAudioSize := by
    rw [List.length_map, List.length_range]
  have hfirst : ∀ t, t < samples → ((List.range TextureData_maxAudioSize).map fun t =>
          if t < samples then inserted_chunk data t
          else if t < (_audio index).length then (_audio index).getD (t - samples) 0
          else 0).getD t 0 = inserted_chunk data t := by
    intro t ht
    rw [getD_map_range _ _ _ (by omega), if_pos ht]
  refine ⟨hlen, hfirst, ?_, ?_, ?_, ?_⟩
  · intro t h1 h2
    rw [getD_map_range _ _ _ (by omega), if_neg (by omega), if_pos h2]
  · intro t h1 h2
    by_cases ht : t < TextureData_maxAudioSize
    · rw [getD_map_range _ _ _ ht, if_neg (by omega), if_neg (by omega)]
    · rw [List.getD_eq_getElem?_getD, List.getElem?_eq_none (by rw [hlen]; omega)]
      rfl
  · intro k hk
    exact Function.update_noteq hk _ _
  · intro _channels _data hch hothers
    obtain ⟨d, hd, hrd⟩ := TextureData_renderAudioSource_some
      (Function.update _audio index ((List.range TextureData_maxAudioSize).map fun t =>
          if t < samples then inserted_chunk data t
          else if t < (_audio index).length then (_audio index).getD (t - samples) 0
          else 0)) _data samples
      (by
        intro i
        by_cases hi : i = index
        · subst hi
          rw [hout, hlen]
          exact Or.inr (le_of_lt hs)
        · rw [Function.update_noteq hi]
          exact hothers i hi) _channels
    refine ⟨d, hd, ?_⟩
    intro t ht
    have := hrd index hch (by rw [hout, hlen]; exact le_of_lt hs) hs0 t ht
    rw [this, hout]
    exact hfirst t ht

/-- Witness of C28: a chunk of two floats into a vector that holds
`[5, 6, 7]`, channel 0. -/
theorem insertAudio_keeps_newest_first_witness :
    ∃ out, TextureData_insertAudio (fun _ => [(5 : Int), 6, 7]) (some fun t => (t : Int) + 1) 2 0
        = some out ∧ (out 0).length = TextureData_maxAudioSize :=
  let ⟨out, h1, h2, _⟩ := insertAudio_keeps_newest_first (fun _ => [(5 : Int), 6, 7])
    (some fun t => (t : Int) + 1) 2 0 (by decide) (by decide) (by decide)
    (Or.inr (by decide)) (by decide)
  ⟨out, h1, h2⟩

end insert_claims

/-! ## The variable list of an expression -/

section variable_claims

theorem strcmp_antisymm : ∀ (a b : CString), strcmp b a = - strcmp a b
  | [], [] => by simp [strcmp]
  | [], b :: bs => by simp [strcmp]
  | a :: as, [] => by simp [strcmp]
  | a :: as, b :: bs => by
    simp only [strcmp]
    by_cases hab : a = b
    · rw [if_pos hab, if_pos hab.symm]
      exact strcmp_antisymm as bs
    · rw [if_neg hab, if_neg (fun h => hab h.symm)]
      omega

theorem strcmp_lt_trans :
    ∀ (a b c : CString), strcmp a b < 0 → strcmp b c < 0 → strcmp a c < 0
  | [], [], _, h1, _ => by simp [strcmp] at h1
  | [], b :: bs, [], _, h2 => by
    simp only [strcmp] at h2
    omega
  | [], b :: bs, c :: cs, h1, h2 => by
    simp only [strcmp] at h1 h2 ⊢
    by_cases hbc : b = c
    · subst hbc
      exact h1
    · rw [if_neg hbc] at h2
      omega
  | a :: as, [], _, h1, _ => by
    simp only [strcmp] at h1
    omega
  | a :: as, b :: bs, [], _, h2 => by
    simp only [strcmp] at h2
    omega
  | a :: as, b :: bs, c :: cs, h1, h2 => by
    simp only [strcmp] at h1 h2 ⊢
    by_cases hab : a = b
    · subst hab
      rw [if_pos rfl] at h1
      by_cases hbc : a = c
      · subst hbc
        rw [if_pos rfl] at h2 ⊢
        exact strcmp_lt_trans as bs cs h1 h2
      · rw [if_neg hbc] at h2 ⊢
        exact h2
    · rw [if_neg hab] at h1
      by_cases hbc : b = c
      · subst hbc
        rw [if_neg hab]
        exact h1
      · rw [if_neg hbc] at h2
        have hac : a ≠ c := by omega
        rw [if_neg hac]
        omega

theorem orderVars_iff (a b : te_variable) :
    orderVars a b = true ↔ strcmp a.name b.name < 0 := by
  unfold orderVars
  exact decide_eq_true_iff

/-- On a list in strictly ascending order `std_lower_bound` splits the range:
the elements before the result are below `val`, the others are not. -/
theorem std_lower_bound_splits (l : List te_variable) (val : te_variable)
    (hl : l.Pairwise fun a b => strcmp a.name b.name < 0) :
    ∀ (steps first count : Nat), count ≤ steps → first + count ≤ l.length →
    (∀ j x, j < first → l[j]? = some x → strcmp x.name val.name < 0) →
    (∀ j x, first + count ≤ j → l[j]? = some x → ¬ strcmp x.name val.name < 0) →
    (∀ j x, j < std_lower_bound orderVars l val steps first count → l[j]? = some x →
      strcmp x.name val.name < 0) ∧
    (∀ j x, std_lower_bound orderVars l val steps first count ≤ j → l[j]? = some x →
      ¬ strcmp x.name val.name < 0) := by
  have hpair := List.pairwise_iff_getElem.mp hl
  intro steps
  induction steps with
  | zero =>
    intro first count hc _ hlo hhi
    have h0 : count = 0 := by omega
    subst h0
    exact ⟨hlo, hhi⟩
  | succ steps ih =>
    intro first count hc hlen hlo hhi
    unfold std_lower_bound
    by_cases hpos : 0 < count
    · rw [if_pos hpos]
      simp only
      have hit : first + count / 2 < l.length := by omega
      rw [List.getElem?_eq_getElem hit]
      simp only
      by_cases hcmp : orderVars l[first + count / 2] val = true
      · rw [if_pos hcmp]
        have hlt := (orderVars_iff _ _).mp hcmp
        apply ih
        · omega
        · omega
        · intro j x hj hx
          obtain ⟨hjl, hjx⟩ := List.getElem?_eq_some.mp hx
          by_cases hji : j = first + count / 2
          · subst hji
            rw [← hjx]
            exact hlt
          · have := hpair j (first + count / 2) hjl hit (by omega)
            rw [← hjx]
            exact strcmp_lt_trans _ _ _ this hlt
        · intro j x hj hx
          exact hhi j x (by omega) hx
      · rw [if_neg hcmp]
        have hnlt : ¬ strcmp l[first + count / 2].name val.name < 0 :=
          fun h => hcmp ((orderVars_iff _ _).mpr h)
        apply ih
        · omega
        · omega
        · exact hlo
        · intro j x hj hx
          obtain ⟨hjl, hjx⟩ := List.getElem?_eq_some.mp hx
          by_cases hji : j = first + count / 2
          · subst hji
            rw [← hjx]
            exact hnlt
          · have := hpair (first + count / 2) j hit hjl (by omega)
            rw [← hjx]
            intro hx2
            exact hnlt (strcmp_lt_trans _ _ _ this hx2)
    · rw [if_neg hpos]
      have h0 : count = 0 := by omega
      subst h0
      exact ⟨hlo, hhi⟩

/-- On a list in strictly ascending order the binary search finds a value
exactly when the list holds an element of equal name under `strcmp`. -/
theorem std_binary_search_iff (l : List te_variable) (val : te_variable)
    (hl : l.Pairwise fun a b => strcmp a.name b.name < 0) :
    std_binary_search orderVars l val = true ↔ ∃ x ∈ l, strcmp x.name val.name = 0 := by
  have hpair := List.pairwise_iff_getElem.mp hl
  obtain ⟨hlo, hhi⟩ := std_lower_bound_splits l val hl l.length 0 l.length (le_refl _)
    (by omega) (fun j x hj => absurd hj (Nat.not_lt_zero j))
    (fun j x hj hx => by
      obtain ⟨hjl, _⟩ := List.getElem?_eq_some.mp hx
      omega)
  unfold std_binary_search
  simp only
  generalize std_lower_bound orderVars l val l.length 0 l.length = r at hlo hhi
  constructor
  · intro h
    by_cases hr : r < l.length
    · rw [List.getElem?_eq_getElem hr] at h
      simp only [Bool.not_eq_true', ] at h
      have h1 : ¬ strcmp val.name l[r].name < 0 := by
        intro hc
        have := (orderVars_iff val l[r]).mpr hc
        rw [this] at h
        exact Bool.noConfusion h
      have h2 := hhi r l[r] (le_refl _) (List.getElem?_eq_getElem hr)
      rw [strcmp_antisymm] at h1
      exact ⟨l[r], List.getElem_mem hr, by omega⟩
    · rw [List.getElem?_eq_none (by omega)] at h
      exact Bool.noConfusion h
  · rintro ⟨x, hx, h0⟩
    obtain ⟨j, hj, hjx⟩ := List.getElem_of_mem hx
    have hrj : r ≤ j := by
      by_contra hc
      have := hlo j x (by omega) (by rw [List.getElem?_eq_getElem hj, hjx])
      omega
    have hr : r < l.length := by omega
    rw [List.getElem?_eq_getElem hr]
    simp only [Bool.not_eq_true']
    have hnot : ¬ strcmp val.name l[r].name < 0 := by
      intro hc
      by_cases hrj2 : r = j
      · subst hrj2
        rw [hjx, strcmp_antisymm, h0] at hc
        exact absurd hc (by decide)
      · have h1 := hpair r j hr hj (by omega)
        rw [hjx] at h1
        have h2 := strcmp_lt_trans _ _ _ hc h1
        rw [strcmp_antisymm, h0] at h2
        exact absurd h2 (by decide)
    cases hb : orderVars val l[r] with
    | false => rfl
    | true => exact absurd ((orderVars_iff _ _).mp hb) hnot

theorem TinyExpr_hasVariable_iff (l : List te_variable) (search : CString)
    (hl : l.Pairwise fun a b => strcmp a.name b.name < 0) :
    TinyExpr_hasVariable l search = true ↔ ∃ x ∈ l, strcmp x.name search = 0 := by
  unfold TinyExpr_hasVariable
  by_cases h0 : l.length = 0
  · rw [if_pos h0]
    have : l = [] := List.length_eq_zero.mp h0
    subst this
    simp
  · rw [if_neg h0]
    exact std_binary_search_iff l _ hl

theorem pairwise_orderedInsert (x : te_variable) :
    ∀ (s : List te_variable), (s.Pairwise fun a b => strcmp a.name b.name < 0) →
    (∀ y ∈ s, strcmp x.name y.name ≠ 0) →
    (s.orderedInsert (fun a b => orderVars b a = false) x).Pairwise
      fun a b => strcmp a.name b.name < 0
  | [], _, _ => by simp
  | y :: s, hs, hne => by
    rw [List.orderedInsert]
    have hys := List.pairwise_cons.mp hs
    by_cases hr : orderVars y x = false
    · rw [if_pos hr]
      have hnlt : ¬ strcmp y.name x.name < 0 := by
        intro hc
        rw [(orderVars_iff _ _).mpr hc] at hr
        exact Bool.noConfusion hr
      have hxy : strcmp x.name y.name < 0 := by
        have := hne y (List.mem_cons_self _ _)
        rw [strcmp_antisymm] at hnlt
        omega
      refine List.pairwise_cons.mpr ⟨?_, hs⟩
      intro z hz
      rcases List.mem_cons.mp hz with hzy | hzs
      · rw [hzy]
        exact hxy
      · exact strcmp_lt_trans _ _ _ hxy (hys.1 z hzs)
    · rw [if_neg hr]
      have hyx : strcmp y.name x.name < 0 := by
        apply (orderVars_iff _ _).mp
        cases hb : orderVars y x with
        | false => exact absurd hb hr
        | true => rfl
      refine List.pairwise_cons.mpr ⟨?_, pairwise_orderedInsert x s hys.2
        (fun z hz => hne z (List.mem_cons_of_mem _ hz))⟩
      intro z hz
      rcases (List.mem_orderedInsert _).mp hz with hzx | hzs
      · rw [hzx]
        exact hyx
      · exact hys.1 z hzs

theorem pairwise_std_stable_sort_append (v : te_variable) :
    ∀ (l : List te_variable), (l.Pairwise fun a b => strcmp a.name b.name < 0) →
    (∀ y ∈ l, strcmp y.name v.name ≠ 0) →
    (std_stable_sort orderVars (l ++ [v])).Pairwise fun a b => strcmp a.name b.name < 0
  | [], _, _ => by simp [std_stable_sort]
  | x :: l, hl, hne => by
    have hxl := List.pairwise_cons.mp hl
    have ih := pairwise_std_stable_sort_append v l hxl.2
      (fun y hy => hne y (List.mem_cons_of_mem _ hy))
    unfold std_stable_sort at ih ⊢
    rw [List.cons_append, List.insertionSort]
    apply pairwise_orderedInsert x _ ih
    intro y hy
    have hy2 : y ∈ l ++ [v] := (List.perm_insertionSort _ _).mem_iff.mp hy
    rcases List.mem_append.mp hy2 with hyl | hyv
    · have := hxl.1 y hyl
      omega
    · rw [List.mem_singleton.mp hyv]
      exact hne x (List.mem_cons_self _ _)

/-- C29: the variable list stays sorted and duplicate-free. For a list `l`
of variables in strictly ascending order of name under `strcmp`, names being
C strings, and a variable `v`: after `appendVariable (v)` the list is in
strictly ascending order and holds a variable named `v.name`; it is `l`
itself when `l` held that name, and `l` with `v` added otherwise; and on `l`
and on the new list `hasVariable` is true exactly for the names of the
variables in the list. -/
theorem appendVariable_keeps_sorted (l : List te_variable) (v : te_variable)
    (hl : l.Pairwise fun a b => strcmp a.name b.name < 0)
    (hnul : ∀ x ∈ v :: l, (0 : Nat) ∉ x.name) :
    ((ShaderSource_appendVariable l v).Pairwise fun a b => strcmp a.name b.name < 0) ∧
    (∃ x ∈ ShaderSource_appendVariable l v, x.name = v.name) ∧
    ((∃ x ∈ l, x.name = v.name) → ShaderSource_appendVariable l v = l) ∧
    ((¬ ∃ x ∈ l, x.name = v.name) → (ShaderSource_appendVariable l v).Perm (l ++ [v])) ∧
    (∀ search : CString, (0 : Nat) ∉ search →
      (TinyExpr_hasVariable l search = true ↔ ∃ x ∈ l, x.name = search)) ∧
    (∀ search : CString, (0 : Nat) ∉ search →
      (TinyExpr_hasVariable (ShaderSource_appendVariable l v) search = true ↔
        ∃ x ∈ ShaderSource_appendVariable l v, x.name = search)) := by
  have hscan : ∀ (s : List te_variable) (search : CString),
      (s.Pairwise fun a b => strcmp a.name b.name < 0) → (∀ x ∈ s, (0 : Nat) ∉ x.name) →
      (0 : Nat) ∉ search →
      (TinyExpr_hasVariable s search = true ↔ ∃ x ∈ s, x.name = search) := by
    intro s search hs hsn h0
    rw [TinyExpr_hasVariable_iff s search hs]
    constructor
    · rintro ⟨x, hx, hc⟩
      exact ⟨x, hx, eq_of_strcmp_eq_zero _ _ (hsn x hx) h0 hc⟩
    · rintro ⟨x, hx, hc⟩
      exact ⟨x, hx, by rw [hc]; exact strcmp_self _⟩
  have hln : ∀ x ∈ l, (0 : Nat) ∉ x.name := fun x hx => hnul x (List.mem_cons_of_mem _ hx)
  have hvn : (0 : Nat) ∉ v.name := hnul v (List.mem_cons_self _ _)
  have hhas := hscan l v.name hl hln hvn
  by_cases hp : ∃ x ∈ l, x.name = v.name
  · have hout : ShaderSource_appendVariable l v = l := by
      unfold ShaderSource_appendVariable
      rw [if_neg (not_not.mpr (hhas.mpr hp))]
    rw [hout]
    exact ⟨hl, hp, fun _ => rfl, fun hn => absurd hp hn, fun s hs => hscan l s hl hln hs,
      fun s hs => hscan l s hl hln hs⟩
  · have hout : ShaderSource_appendVariable l v = std_stable_sort orderVars (l ++ [v]) := by
      unfold ShaderSource_appendVariable
      rw [if_pos (fun h => hp (hhas.mp h))]
    have hperm : (std_stable_sort orderVars (l ++ [v])).Perm (l ++ [v]) :=
      List.perm_insertionSort _ _
    have hsorted := pairwise_std_stable_sort_append v l hl (by
      intro y hy hc
      exact hp ⟨y, hy, eq_of_strcmp_eq_zero _ _ (hln y hy) hvn hc⟩)
    rw [hout]
    refine ⟨hsorted, ⟨v, hperm.mem_iff.mpr (by simp), rfl⟩, fun h => absurd h hp,
      fun _ => hperm, fun s hs => hscan l s hl hln hs, fun s hs => hscan _ s hsorted ?_ hs⟩
    intro x hx
    have hx2 : x ∈ l ++ [v] := hperm.mem_iff.mp hx
    rcases List.mem_append.mp hx2 with h | h
    · exact hln x h
    · rw [List.mem_singleton.mp h]
      exact hvn

/-- Witness of C29: the variable `b` appended to the list `a`, `c`. -/
theorem appendVariable_keeps_sorted_witness :
    (ShaderSource_appendVariable [⟨cstr "a", 1⟩, ⟨cstr "c", 2⟩] ⟨cstr "b", 3⟩).Pairwise
      fun a b => strcmp a.name b.name < 0 :=
  (appendVariable_keeps_sorted [⟨cstr "a", 1⟩, ⟨cstr "c", 2⟩] ⟨cstr "b", 3⟩
    (by decide) (by decide)).1

end variable_claims

/-! ## The expression function `ncr` -/

section ncr_claims

theorem bit_width_le : ∀ (w x k : Nat), x < 2 ^ k → bit_width w x ≤ k
  | 0, _, _, _ => Nat.zero_le _
  | w + 1, x, k, hx => by
    unfold bit_width
    by_cases h0 : x = 0
    · rw [if_pos h0]
      exact Nat.zero_le _
    · rw [if_neg h0]
      cases k with
      | zero =>
        rw [pow_zero] at hx
        omega
      | succ k =>
        have : x / 2 < 2 ^ k := by
          rw [pow_succ] at hx
          omega
        have := bit_width_le w (x / 2) k this
        omega

theorem ulong_to_double_exact (w x : Nat) (hx : x < 2 ^ 53) : ulong_to_double w x = x := by
  have he : bit_width w x - 53 = 0 := by
    have := bit_width_le w x 53 hx
    omega
  unfold ulong_to_double
  simp only
  rw [he, pow_zero, Nat.mod_one, Nat.div_one, if_neg (by omega), Nat.mul_one]

theorem ncr_loop_succ (w un ur c : Nat) :
    ncr_loop w un ur (c + 1) = ncr_body w un ur c (ncr_loop w un ur c) := rfl

/-- One pass of the loop from the accumulator `C (m + i, i)`: the test is on
the product, the product does not wrap and the division is exact. -/
theorem ncr_body_choose (w un ur i : Nat) (hw : un < 2 ^ w) (hur : ur ≤ un) (hi : i < ur) :
    ncr_body w un ur i (some ((un - ur + i).choose i)) =
      if (un - ur + i).choose i * (un - ur + i + 1) > ULONG_MAX w then none
      else some ((un - ur + i + 1).choose (i + 1)) := by
  have hpos : 0 < 2 ^ w := Nat.two_pow_pos _
  have hi1 : (i + 1) % 2 ^ w = i + 1 := Nat.mod_eq_of_lt (by omega)
  have hsub : (un + 2 ^ w - ur) % 2 ^ w = un - ur := by
    have : un + 2 ^ w - ur = un - ur + 2 ^ w := by omega
    rw [this, Nat.add_mod_right]
    exact Nat.mod_eq_of_lt (by omega)
  have hfac : (un - ur + (i + 1)) % 2 ^ w = un - ur + i + 1 := by
    rw [Nat.add_assoc]
    exact Nat.mod_eq_of_lt (by omega)
  unfold ncr_body
  rw [Option.some_bind]
  simp only
  rw [hi1, hsub, hfac]
  have hiff : (un - ur + i).choose i > ULONG_MAX w / (un - ur + i + 1) ↔
      (un - ur + i).choose i * (un - ur + i + 1) > ULONG_MAX w :=
    Nat.div_lt_iff_lt_mul (Nat.succ_pos _)
  by_cases hov : (un - ur + i).choose i * (un - ur + i + 1) > ULONG_MAX w
  · rw [if_pos (hiff.mpr hov), if_pos hov]
  · rw [if_neg (fun h => hov (hiff.mp h)), if_neg hov]
    have hlt : (un - ur + i).choose i * (un - ur + i + 1) < 2 ^ w := by
      unfold ULONG_MAX at hov
      omega
    rw [Nat.mod_eq_of_lt hlt]
    have hid : (un - ur + i + 1) * (un - ur + i).choose i
        = (un - ur + i + 1).choose (i + 1) * (i + 1) := Nat.succ_mul_choose_eq (un - ur + i) i
    rw [Nat.mul_comm, hid, Nat.mul_div_cancel _ (Nat.succ_pos i)]

/-- The accumulator after `i` passes without an early return. -/
theorem ncr_loop_choose (w un ur : Nat) (hw : un < 2 ^ w) (hur : ur ≤ un) :
    ∀ i, i ≤ ur →
      (∀ k, k < i → (un - ur + k).choose k * (un - ur + k + 1) ≤ ULONG_MAX w) →
      ncr_loop w un ur i = some ((un - ur + i).choose i)
  | 0, _, _ => by
    rw [Nat.add_zero, Nat.choose_zero_right]
    rfl
  | i + 1, hi, hno => by
    rw [ncr_loop_succ, ncr_loop_choose w un ur hw hur i (by omega)
      (fun k hk => hno k (by omega))]
    rw [ncr_body_choose w un ur i hw hur (by omega), if_neg (not_lt.mpr (hno i (by omega)))]
    rfl

/-- The loop returns early once a product exceeds `ULONG_MAX`. -/
theorem ncr_loop_none (w un ur : Nat) (hw : un < 2 ^ w) (hur : ur ≤ un) :
    ∀ i, i ≤ ur →
      (∃ k, k < i ∧ (un - ur + k).choose k * (un - ur + k + 1) > ULONG_MAX w) →
      ncr_loop w un ur i = none
  | 0, _, h => by
    obtain ⟨k, hk, _⟩ := h
    omega
  | i + 1, hi, h => by
    rw [ncr_loop_succ]
    by_cases hprev : ∃ k, k < i ∧ (un - ur + k).choose k * (un - ur + k + 1) > ULONG_MAX w
    · rw [ncr_loop_none w un ur hw hur i (by omega) hprev]
      rfl
    · have hall : ∀ k, k < i → (un - ur + k).choose k * (un - ur + k + 1) ≤ ULONG_MAX w := by
        intro k hk
        by_contra hc
        exact hprev ⟨k, hk, not_le.mp hc⟩
      obtain ⟨k, hk, hov⟩ := h
      have hki : k = i := by
        by_contra hne
        exact hprev ⟨k, by omega, hov⟩
      subst hki
      rw [ncr_loop_choose w un ur hw hur k (by omega) hall,
        ncr_body_choose w un ur k hw hur (by omega), if_pos hov]

/-- The function `ncr` on integers `0 ≤ r ≤ n ≤ UINT_MAX`, unfolded: the loop
runs `min (r, n - r)` passes on `un = n`. -/
theorem ncr_eq (w n r : Nat) (hw : 32 ≤ w) (hrn : r ≤ n) (hn : n ≤ UINT_MAX) :
    ncr w n r =
      match ncr_loop w n (min r (n - r)) (min r (n - r)) with
      | none => c_double.INFINITY
      | some result => c_double.finite (ulong_to_double w result) := by
  have h32 : (2 : Nat) ^ 32 ≤ 2 ^ w := Nat.pow_le_pow_right (by norm_num) hw
  have hU : UINT_MAX = 2 ^ 32 - 1 := rfl
  have hp32 : 0 < 2 ^ 32 := Nat.two_pow_pos _
  unfold ncr
  rw [if_neg (by omega), if_neg (by omega)]
  simp only [Int.toNat_ofNat]
  have hnm : n % 2 ^ 32 % 2 ^ w = n := by
    rw [Nat.mod_eq_of_lt (by omega), Nat.mod_eq_of_lt (by omega)]
  have hrm : r % 2 ^ 32 % 2 ^ w = r := by
    rw [Nat.mod_eq_of_lt (by omega), Nat.mod_eq_of_lt (by omega)]
  rw [hnm, hrm]
  have hsub : (n + 2 ^ w - r) % 2 ^ w = n - r := by
    have : n + 2 ^ w - r = n - r + 2 ^ w := by omega
    rw [this, Nat.add_mod_right]
    exact Nat.mod_eq_of_lt (by omega)
  rw [hsub]
  have hmin : (if r > n / 2 then n - r else r) = min r (n - r) := by
    by_cases h : r > n / 2
    · rw [if_pos h]
      omega
    · rw [if_neg h]
      omega
  rw [hmin]

theorem choose_min (n r : Nat) (hrn : r ≤ n) : n.choose (min r (n - r)) = n.choose r := by
  by_cases h : r ≤ n - r
  · rw [min_eq_left h]
  · rw [min_eq_right (by omega)]
    exact Nat.choose_symm hrn

/-- C30, as the code has it: for integers `0 ≤ r ≤ n ≤ UINT_MAX` and an
`unsigned long` of `w ≥ 32` bits, with `r' = min (r, n - r)`: while no
product has exceeded `ULONG_MAX` the accumulator after `i` passes is
`C (n - r' + i, i)` and the next division is exact; `ncr` returns `INFINITY`
exactly when some product `C (n - r' + k, k) * (n - r' + k + 1)`, `k < r'`,
exceeds `ULONG_MAX`, so no product wraps; otherwise it returns `C (n, r)`
converted to `double`, which is `C (n, r)` itself when `C (n, r) < 2 ^ 53`
or `w ≤ 53`. -/
theorem ncr_returns_rounded_choose (w n r : Nat) (hw : 32 ≤ w) (hrn : r ≤ n)
    (hn : n ≤ UINT_MAX) :
    (∀ i, i ≤ min r (n - r) →
      (∀ k, k < i → (n - min r (n - r) + k).choose k * (n - min r (n - r) + k + 1)
        ≤ ULONG_MAX w) →
      ncr_loop w n (min r (n - r)) i = some ((n - min r (n - r) + i).choose i) ∧
      (i + 1) ∣ (n - min r (n - r) + i).choose i * (n - min r (n - r) + i + 1)) ∧
    (ncr w n r = c_double.INFINITY ↔
      ∃ k, k < min r (n - r) ∧
        (n - min r (n - r) + k).choose k * (n - min r (n - r) + k + 1) > ULONG_MAX w) ∧
    (ncr w n r = c_double.INFINITY ∨
      ncr w n r = c_double.finite (ulong_to_double w (n.choose r))) ∧
    (n.choose r < 2 ^ 53 ∨ w ≤ 53 →
      ncr w n r = c_double.INFINITY ∨ ncr w n r = c_double.finite (n.choose r)) := by
  have h32 : (2 : Nat) ^ 32 ≤ 2 ^ w := Nat.pow_le_pow_right (by norm_num) hw
  have hU : UINT_MAX = 2 ^ 32 - 1 := rfl
  have hp32 : 0 < 2 ^ 32 := Nat.two_pow_pos _
  have hnw : n < 2 ^ w := by omega
  have hle : min r (n - r) ≤ n := le_trans (min_le_left _ _) hrn
  have hfin : n - min r (n - r) + min r (n - r) = n := by omega
  have hcase : (∃ k, k < min r (n - r) ∧
        (n - min r (n - r) + k).choose k * (n - min r (n - r) + k + 1) > ULONG_MAX w) ∨
      (∀ k, k < min r (n - r) →
        (n - min r (n - r) + k).choose k * (n - min r (n - r) + k + 1) ≤ ULONG_MAX w) := by
    by_cases h : ∃ k, k < min r (n - r) ∧
        (n - min r (n - r) + k).choose k * (n - min r (n - r) + k + 1) > ULONG_MAX w
    · exact Or.inl h
    · refine Or.inr fun k hk => ?_
      by_contra hc
      exact h ⟨k, hk, not_le.mp hc⟩
  have hinf : (∃ k, k < min r (n - r) ∧
        (n - min r (n - r) + k).choose k * (n - min r (n - r) + k + 1) > ULONG_MAX w) →
      ncr w n r = c_double.INFINITY := by
    intro h
    rw [ncr_eq w n r hw hrn hn, ncr_loop_none w n _ hnw hle _ (le_refl _) h]
  have hval : (∀ k, k < min r (n - r) →
        (n - min r (n - r) + k).choose k * (n - min r (n - r) + k + 1) ≤ ULONG_MAX w) →
      ncr w n r = c_double.finite (ulong_to_double w (n.choose r)) := by
    intro h
    rw [ncr_eq w n r hw hrn hn, ncr_loop_choose w n _ hnw hle _ (le_refl _) h]
    simp only
    rw [hfin, choose_min n r hrn]
  refine ⟨?_, ⟨?_, hinf⟩, ?_, ?_⟩
  · intro i hi hno
    refine ⟨ncr_loop_choose w n _ hnw hle i hi hno, ?_⟩
    have hid : (n - min r (n - r) + i + 1) * (n - min r (n - r) + i).choose i
        = (n - min r (n - r) + i + 1).choose (i + 1) * (i + 1) :=
      Nat.succ_mul_choose_eq (n - min r (n - r) + i) i
    rw [Nat.mul_comm, hid]
    exact Dvd.intro_left _ rfl
  · intro h
    rcases hcase with hc | hc
    · exact hc
    · rw [hval hc] at h
      exact c_double.noConfusion h
  · rcases hcase with hc | hc
    · exact Or.inl (hinf hc)
    · exact Or.inr (hval hc)
  · intro h53
    rcases hcase with hc | hc
    · exact Or.inl (hinf hc)
    · refine Or.inr ?_
      have hlt : n.choose r < 2 ^ 53 := by
        rcases h53 with h | h
        · exact h
        · rw [← choose_min n r hrn]
          have hp53 : (2 : Nat) ^ w ≤ 2 ^ 53 := Nat.pow_le_pow_right (by norm_num) h
          have hpw : 0 < 2 ^ w := Nat.two_pow_pos _
          cases hm : min r (n - r) with
          | zero =>
            rw [Nat.choose_zero_right]
            omega
          | succ k =>
            rw [hm] at hc hfin
            have hk := hc k (Nat.lt_succ_self k)
            have hid : (n - (k + 1) + k + 1) * (n - (k + 1) + k).choose k
                = (n - (k + 1) + k + 1).choose (k + 1) * (k + 1) :=
              Nat.succ_mul_choose_eq (n - (k + 1) + k) k
            have hnk : n - (k + 1) + k + 1 = n := by omega
            rw [hnk] at hid
            rw [hnk, Nat.mul_comm, hid] at hk
            have hge : n.choose (k + 1) ≤ n.choose (k + 1) * (k + 1) :=
              Nat.le_mul_of_pos_right _ (Nat.succ_pos k)
            unfold ULONG_MAX at hk
            omega
      rw [hval hc, ulong_to_double_exact w _ hlt]

/-- Witness of C30 as amended: `ncr (5, 2)` with an `unsigned long` of 64 bits. -/
theorem ncr_returns_rounded_choose_witness :
    ncr 64 (5 : Nat) (2 : Nat) = c_double.INFINITY ∨
    ncr 64 (5 : Nat) (2 : Nat) = c_double.finite (ulong_to_double 64 (Nat.choose 5 2)) :=
  (ncr_returns_rounded_choose 64 5 2 (by decide) (by decide) (by decide)).2.2.1

theorem ncr_loop_57_25 : ncr_loop 64 57 25 25 = some 9929472283517787 := by
  rfl

/-- C30 as written fails where `unsigned long` has 64 bits: for `n = 57`,
`r = 25` no product exceeds `ULONG_MAX`, the loop ends with
`C (57, 25) = 9929472283517787`, and the conversion to `double` returns
9929472283517788, which is neither `C (57, 25)` nor `INFINITY`. -/
theorem ncr_57_25_is_rounded :
    (0 : Int) ≤ 25 ∧ (25 : Int) ≤ 57 ∧ (57 : Int) ≤ UINT_MAX ∧
    Nat.choose 57 25 = 9929472283517787 ∧
    ncr 64 57 25 = c_double.finite 9929472283517788 ∧
    ncr 64 57 25 ≠ c_double.finite (Nat.choose 57 25) ∧
    ncr 64 57 25 ≠ c_double.INFINITY := by
  have hch : Nat.choose 57 25 = 9929472283517787 := by
    have hall : ∀ k, k < 25 → (57 - 25 + k).choose k * (57 - 25 + k + 1) ≤ ULONG_MAX 64 := by
      intro k hk
      by_contra hc
      have := ncr_loop_none 64 57 25 (by norm_num) (by norm_num) 25 (le_refl _)
        ⟨k, hk, not_le.mp hc⟩
      rw [ncr_loop_57_25] at this
      exact Option.noConfusion this
    have := ncr_loop_choose 64 57 25 (by norm_num) (by norm_num) 25 (le_refl _) hall
    rw [ncr_loop_57_25] at this
    exact (Option.some.inj this).symm
  have hval : ncr 64 57 25 = c_double.finite 9929472283517788 := by
    have h := ncr_eq 64 57 25 (by norm_num) (by norm_num) (by decide)
    have hmin : min 25 (57 - 25) = 25 := by decide
    rw [hmin, ncr_loop_57_25] at h
    simp only at h
    have hr : ulong_to_double 64 9929472283517787 = 9929472283517788 := by rfl
    rw [hr] at h
    exact_mod_cast h
  refine ⟨by decide, by decide, by decide, hch, hval, ?_, ?_⟩
  · rw [hval, hch]
    intro h
    have := c_double.finite.inj h
    omega
  · rw [hval]
    exact fun h => c_double.noConfusion h

end ncr_claims

/-! ## Capture events against the render thread -/

section interleaving_claims

theorem TextureData_insertAudio_full (a : Nat → List Int) (d : Nat → Int) (index : Nat)
    (hidx : index < MAX_AV_PLANES) (hlen : (a index).length = TextureData_maxAudioSize) :
    ∃ out, TextureData_insertAudio a (some d) 1 index = some out ∧
      (out index).length = TextureData_maxAudioSize ∧ (out index).getD 0 0 = d 0 ∧
      ∀ k, k ≠ index → out k = a k := by
  have hmax : TextureData_maxAudioSize = 2048 := rfl
  refine ⟨_, TextureData_insertAudio_eq a (some d) 1 index hidx (by norm_num)
    (by rw [hmax]; norm_num) (Or.inr (by rw [hlen, hmax]; norm_num)) (le_of_eq hlen), ?_, ?_, ?_⟩
  · rw [Function.update_same, List.length_map, List.length_range]
  · rw [Function.update_same, getD_map_range _ _ _ (by rw [hmax]; norm_num), if_pos (by norm_num)]
    rfl
  · intro k hk
    exact Function.update_noteq hk _ _

theorem TextureData_renderAudioSource_full (a : Nat → List Int) (d0 : Nat → Int)
    (hlen : ∀ i, (a i).length = TextureData_maxAudioSize) :
    ∃ d, TextureData_renderAudioSource a 2 d0 1 = some d ∧
      d 0 = (a 0).getD 0 0 ∧ d 1 = (a 1).getD 0 0 := by
  have hmax : TextureData_maxAudioSize = 2048 := rfl
  obtain ⟨d, hd, hrd⟩ := TextureData_renderAudioSource_some a d0 1
    (fun i => Or.inr (by rw [hlen i, hmax]; norm_num)) 2
  refine ⟨d, hd, ?_, ?_⟩
  · exact hrd 0 (by norm_num) (by rw [hlen 0, hmax]; norm_num) (by norm_num) 0 (by norm_num)
  · exact hrd 1 (by norm_num) (by rw [hlen 1, hmax]; norm_num) (by norm_num) 0 (by norm_num)

theorem replicate_zero_getD (n t : Nat) : (List.replicate n (0 : Int)).getD t 0 = 0 := by
  rw [List.getD_eq_getElem?_getD]
  by_cases h : t < n
  · rw [List.getElem?_replicate_of_lt h]
    rfl
  · rw [List.getElem?_eq_none (by rw [List.length_replicate]; omega)]
    rfl

theorem run_sections_insertAudio {α : Type} [Zero α] (s : TextureData α)
    (data : Option (Nat → α)) (samples index : Nat) (cs : List (audio_section α))
    (a : Nat → List α) (h : TextureData_insertAudio s._audio data samples index = some a) :
    s.run_sections (audio_section.insertAudio data samples index :: cs) =
      TextureData.run_sections { s with _audio := a } cs := by
  have h1 : s.run_sections (audio_section.insertAudio data samples index :: cs) =
      (s.run_section (audio_section.insertAudio data samples index)).bind
        fun s1 => s1.run_sections cs := rfl
  have h2 : s.run_section (audio_section.insertAudio data samples index) =
      (TextureData_insertAudio s._audio data samples index).map
        fun a => { s with _audio := a } := rfl
  rw [h1, h2, h, Option.map_some', Option.some_bind]

theorem run_sections_renderAudioSource {α : Type} [Zero α] (s : TextureData α)
    (samples : Nat) (cs : List (audio_section α)) (d : Nat → α)
    (h : TextureData_renderAudioSource s._audio s._channels s._data samples = some d) :
    s.run_sections (audio_section.renderAudioSource samples :: cs) =
      TextureData.run_sections { s with _data := d } cs := by
  have h1 : s.run_sections (audio_section.renderAudioSource samples :: cs) =
      (s.run_section (audio_section.renderAudioSource samples)).bind
        fun s1 => s1.run_sections cs := rfl
  have h2 : s.run_section (audio_section.renderAudioSource samples) =
      (TextureData_renderAudioSource s._audio s._channels s._data samples).map
        fun d => { s with _data := d } := rfl
  rw [h1, h2, h, Option.map_some', Option.some_bind]

theorem run_sections_nil {α : Type} [Zero α] (s : TextureData α) :
    s.run_sections [] = some s := rfl

/-- C24, the code at a failing input: two channels full of zeros, one capture
event of one frame with the sample 1 on both channels, and one call of
`renderAudioSource (1)` on the render thread. The capture callback takes the
mutex once per channel, so the render thread can get it between the two
calls of `insertAudio`: in that order the rendered array holds the new sample
for channel 0 and the old one for channel 1, where rendering before the
event gives 0, 0 and after it 1, 1. -/
theorem render_between_inserts_sees_torn_frame :
    interleavings (TextureData_sidechain_capture two_full_channels._channels
        one_frame_of_ones false) [audio_section.renderAudioSource 1] =
      [[audio_section.insertAudio (some (one_frame_of_ones.data 0)) 1 0,
        audio_section.insertAudio (some (one_frame_of_ones.data 1)) 1 1,
        audio_section.renderAudioSource 1],
       [audio_section.insertAudio (some (one_frame_of_ones.data 0)) 1 0,
        audio_section.renderAudioSource 1,
        audio_section.insertAudio (some (one_frame_of_ones.data 1)) 1 1],
       [audio_section.renderAudioSource 1,
        audio_section.insertAudio (some (one_frame_of_ones.data 0)) 1 0,
        audio_section.insertAudio (some (one_frame_of_ones.data 1)) 1 1]] ∧
    (∃ s, two_full_channels.run_sections
        [audio_section.insertAudio (some (one_frame_of_ones.data 0)) 1 0,
          audio_section.insertAudio (some (one_frame_of_ones.data 1)) 1 1,
          audio_section.renderAudioSource 1] = some s ∧
      s._data (1 * 0 + 0) = 1 ∧ s._data (1 * 1 + 0) = 1) ∧
    (∃ s, two_full_channels.run_sections
        [audio_section.insertAudio (some (one_frame_of_ones.data 0)) 1 0,
          audio_section.renderAudioSource 1,
          audio_section.insertAudio (some (one_frame_of_ones.data 1)) 1 1] = some s ∧
      s._data (1 * 0 + 0) = 1 ∧ s._data (1 * 1 + 0) = 0) ∧
    (∃ s, two_full_channels.run_sections
        [audio_section.renderAudioSource 1,
          audio_section.insertAudio (some (one_frame_of_ones.data 0)) 1 0,
          audio_section.insertAudio (some (one_frame_of_ones.data 1)) 1 1] = some s ∧
      s._data (1 * 0 + 0) = 0 ∧ s._data (1 * 1 + 0) = 0) := by
  have hfull : ∀ i, (two_full_channels._audio i).length = TextureData_maxAudioSize :=
    fun _ => List.length_replicate _ _
  have hch : two_full_channels._channels = 2 := rfl
  have hold : ∀ i, (two_full_channels._audio i).getD 0 0 = 0 :=
    fun _ => replicate_zero_getD _ _
  obtain ⟨a1, ha1, hl1, hv1, hk1⟩ := TextureData_insertAudio_full two_full_channels._audio
    (one_frame_of_ones.data 0) 0 (by decide) (hfull 0)
  have hfull1 : ∀ i, (a1 i).length = TextureData_maxAudioSize := by
    intro i
    by_cases hi : i = 0
    · rw [hi]
      exact hl1
    · rw [hk1 i hi]
      exact hfull i
  obtain ⟨a2, ha2, hl2, hv2, hk2⟩ := TextureData_insertAudio_full a1
    (one_frame_of_ones.data 1) 1 (by decide) (hfull1 1)
  have hfull2 : ∀ i, (a2 i).length = TextureData_maxAudioSize := by
    intro i
    by_cases hi : i = 1
    · rw [hi]
      exact hl2
    · rw [hk2 i hi]
      exact hfull1 i
  obtain ⟨d0, hd0, hd00, hd01⟩ := TextureData_renderAudioSource_full
    two_full_channels._audio two_full_channels._data hfull
  obtain ⟨d1, hd1, hd10, hd11⟩ := TextureData_renderAudioSource_full a1
    two_full_channels._data hfull1
  obtain ⟨d2, hd2, hd20, hd21⟩ := TextureData_renderAudioSource_full a2
    two_full_channels._data hfull2
  refine ⟨rfl, ⟨⟨a2, 2, d2⟩, ?_, ?_, ?_⟩, ⟨⟨a2, 2, d1⟩, ?_, ?_, ?_⟩, ⟨⟨a2, 2, d0⟩, ?_, ?_, ?_⟩⟩
  · rw [run_sections_insertAudio _ _ _ _ _ a1 ha1, run_sections_insertAudio _ _ _ _ _ a2 ha2,
      run_sections_renderAudioSource _ _ _ d2 (by rw [← hd2]; rfl), run_sections_nil]
    rfl
  · show d2 0 = 1
    rw [hd20, hk2 0 (by decide), hv1]
    rfl
  · show d2 1 = 1
    rw [hd21, hv2]
    rfl
  · rw [run_sections_insertAudio _ _ _ _ _ a1 ha1,
      run_sections_renderAudioSource _ _ _ d1 (by rw [← hd1]; rfl),
      run_sections_insertAudio _ _ _ _ _ a2 ha2, run_sections_nil]
    rfl
  · show d1 0 = 1
    rw [hd10, hv1]
    rfl
  · show d1 1 = 0
    rw [hd11, hk1 1 (by decide)]
    exact hold 1
  · rw [run_sections_renderAudioSource _ _ _ d0 (by rw [← hd0, hch]),
      run_sections_insertAudio { two_full_channels with _data := d0 } _ _ _ _ a1 ha1,
      run_sections_insertAudio _ _ _ _ _ a2 ha2, run_sections_nil]
    rfl
  · show d0 0 = 0
    rw [hd00]
    exact hold 0
  · show d0 1 = 0
    rw [hd01]
    exact hold 1

end interleaving_claims

end ShaderFilter
